import Mathlib

/-!
# Verification of the MapRandomizer item/door randomizer core

This development gives a shallow embedding, in Lean, of the parts of
`rust/maprando/src/randomize.rs` that the specification's claims are about:

* the numeric run-frame and shinecharge-frame models (`compute_run_frames`,
  `compute_shinecharge_frames`);
* the door-lock randomizer (`get_randomizable_doors`,
  `get_randomizable_door_connections`, the selection loop of
  `randomize_doors`);
* the item pool construction of `Randomizer::new` and the final fill of
  `Randomizer::finish`;
* the reachability bookkeeping (`update_reachability`), the flag/door
  closure phase of `Randomizer::step`, `is_game_beatable`,
  `provides_progression`, `determine_item_split` and the placement zip of
  `place_items`.

The base traversal (`traverse`, `get_bireachable_idxs`), which the spec
declares an external collaborator, is abstracted as an oracle parameter:
a function of the global state giving, per vertex, whether the forward
cost is finite and whether a bireachable index pair exists.  Machine
floats (`f32`) are modelled by `ℚ`; `f32::sqrt` is abstracted as a
function parameter.  The pseudorandom sampling and shuffling are
abstracted as explicit index-list / permutation parameters.  Rust `usize`
wraparound does not occur in the statements proved (hypotheses mirror the
source's `assert!`s).

The file is organised as: all definitions first, then all lemmas and
theorems.
-/

namespace MapRandomizer

/-! ## Definitions: run frames (`compute_run_frames`, randomize.rs 440-452) -/

/-- Shallow embedding of `compute_run_frames`.  `f32` is modelled by `ℚ`;
`frames.ceil() as Capacity` is `Int.ceil`.  The source asserts
`tiles >= 0.0`; theorems carry that hypothesis. -/
def computeRunFrames (tiles : ℚ) : ℤ :=
  if tiles ≤ 7 then ⌈9 + 4 * tiles⌉
  else if tiles ≤ 16 then ⌈15 + 3 * tiles⌉
  else if tiles ≤ 42 then ⌈32 + 2 * tiles⌉
  else ⌈47 + 64 / 39 * tiles⌉

/-- Shallow embedding of `compute_shinecharge_frames` (randomize.rs 478-500).
The `f32::sqrt` primitive is abstracted as the parameter `sqrtFn` (theorems
hold for every interpretation of it); everything else follows the source
line by line. -/
def computeShinechargeFrames (sqrtFn : ℚ → ℚ) (other_runway_length runway_length : ℚ) :
    ℤ × ℤ :=
  let combined_length := other_runway_length + runway_length
  if 313 / 10 < combined_length then
    let total_time := computeRunFrames combined_length
    let other_time := computeRunFrames other_runway_length
    (other_time, total_time - other_time)
  else
    let total_time : ℚ := 85
    let initial_speed : ℚ := 1 / 8
    let acceleration := 2 * (combined_length - initial_speed * total_time) /
      (total_time * total_time)
    let other_time : ℤ :=
      ⌈(sqrtFn (initial_speed * initial_speed + 2 * acceleration * other_runway_length)
        - initial_speed) / acceleration⌉
    (other_time, 85 - other_time)

/-! ## Definitions: door-lock randomizer (randomize.rs 2278-2532) -/

/-- A door pointer pair, `(exit_ptr, entrance_ptr)` (`DoorPtrPair` in
`game_data`). -/
abbrev DoorPtrPairM := Option ℕ × Option ℕ

/-- A map tile location `(room_idx, x, y)` as returned by the `get_loc`
closure in `randomize_doors`. -/
abbrev TileLoc := ℕ × ℕ × ℕ

inductive BeamTypeM
  | Charge
  | Ice
  | Wave
  | Spazer
  | Plasma
deriving DecidableEq

inductive DoorTypeM
  | Blue
  | Red
  | Green
  | Yellow
  | Gray
  | Beam (b : BeamTypeM)
deriving DecidableEq

/-- `LockedDoor` (randomize.rs 367-373). -/
structure LockedDoorM where
  src_ptr_pair : DoorPtrPairM
  dst_ptr_pair : DoorPtrPairM
  door_type : DoorTypeM
  bidirectional : Bool
deriving DecidableEq

/-- The `Objective` enum (randomize.rs 80-101). -/
inductive ObjectiveM
  | Kraid
  | Phantoon
  | Draygon
  | Ridley
  | SporeSpawn
  | Crocomire
  | Botwoon
  | GoldenTorizo
  | MetroidRoom1
  | MetroidRoom2
  | MetroidRoom3
  | MetroidRoom4
  | BombTorizo
  | BowlingStatue
  | AcidChozoStatue
  | PitRoom
  | BabyKraidRoom
  | PlasmaRoom
  | MetalPiratesRoom
deriving DecidableEq

/-- The literal deny-list of `get_randomizable_doors` (randomize.rs
2283-2386): gray doors, save stations, map stations, refill stations, the
Pants-room interior doors, and item-adjacent doors. -/
def nonRandomizableDoorsBase : List (ℕ × ℕ) := [
  (0x18B7A, 0x18B62),
  (0x18B86, 0x18B92),
  (0x19192, 0x1917A),
  (0x1919E, 0x191AA),
  (0x1A558, 0x1A54C),
  (0x19A32, 0x19966),
  (0x19A3E, 0x19A1A),
  (0x191CE, 0x191B6),
  (0x191DA, 0x19252),
  (0x1A2C4, 0x1A2AC),
  (0x1A978, 0x1A924),
  (0x1A96C, 0x1A840),
  (0x198B2, 0x19A62),
  (0x198BE, 0x198CA),
  (0x1AA8C, 0x1AAE0),
  (0x1AA80, 0x1AAC8),
  (0x18BAA, 0x18BC2),
  (0x18E56, 0x18E3E),
  (0x193EA, 0x193D2),
  (0x1A90C, 0x1A774),
  (0x19882, 0x19A86),
  (0x189BE, 0x1899A),
  (0x19006, 0x18D12),
  (0x19012, 0x18F52),
  (0x18FD6, 0x18DF6),
  (0x1926A, 0x190D2),
  (0x1925E, 0x19186),
  (0x1A828, 0x1A744),
  (0x1A888, 0x1A7EC),
  (0x1A87C, 0x1A930),
  (0x1A5F4, 0x1A588),
  (0x1A324, 0x1A354),
  (0x19822, 0x193BA),
  (0x19462, 0x19456),
  (0x1982E, 0x19702),
  (0x19816, 0x192FA),
  (0x1980A, 0x197DA),
  (0x197CE, 0x1959A),
  (0x19AB6, 0x19A0E),
  (0x1A318, 0x1A240),
  (0x1AAD4, 0x1AABC),
  (0x18C2E, 0x18BDA),
  (0x18D72, 0x18D36),
  (0x197C2, 0x19306),
  (0x1A5E8, 0x1A51C),
  (0x1A2B8, 0x1A2A0),
  (0x1AB40, 0x1A99C),
  (0x18D96, 0x18D7E),
  (0x18F6A, 0x18DBA),
  (0x191FE, 0x1904E),
  (0x1A894, 0x1A8F4),
  (0x1A930, 0x1A87C),
  (0x19786, 0x19756),
  (0x19792, 0x1976E),
  (0x1920A, 0x191C2),
  (0x198A6, 0x19A7A),
  (0x1AA74, 0x1AA68),
  (0x1A7A4, 0x1A78C),
  (0x1A78C, 0x1A7A4),
  (0x18FA6, 0x18EDA),
  (0x18FFA, 0x18FEE),
  (0x18D66, 0x18D5A),
  (0x18F3A, 0x18F5E),
  (0x18F5E, 0x18F3A),
  (0x18E02, 0x18E62),
  (0x18FCA, 0x18FBE),
  (0x19132, 0x19126),
  (0x19162, 0x1914A),
  (0x19252, 0x191DA),
  (0x18ADE, 0x18A36),
  (0x18C9A, 0x18C82),
  (0x18BE6, 0x18C3A),
  (0x18B0E, 0x18952),
  (0x1A924, 0x1A978),
  (0x19A62, 0x198B2),
  (0x199D2, 0x19A9E),
  (0x199DE, 0x199C6),
  (0x19876, 0x1983A),
  (0x19A86, 0x19882),
  (0x1941A, 0x192D6),
  (0x193F6, 0x19426),
  (0x1929A, 0x19732),
  (0x1953A, 0x19552),
  (0x195B2, 0x195BE),
  (0x195BE, 0x195B2),
  (0x1962A, 0x1961E),
  (0x1935A, 0x1937E),
  (0x1938A, 0x19336),
  (0x19402, 0x192E2),
  (0x1946E, 0x1943E),
  (0x19516, 0x194DA),
  (0x1A2E8, 0x1A210),
  (0x1A300, 0x18A06),
  (0x1A30C, 0x1A1A4)]

/-- The objective-dependent additions to the deny-list (randomize.rs
2391-2425): ammo doors are kept off tiles carrying an objective "X". -/
def objectiveExtraDoors : ObjectiveM → List (ℕ × ℕ)
  | .SporeSpawn => [(0x18E4A, 0x18D2A)]
  | .Crocomire => [(0x193DE, 0x19432)]
  | .Botwoon => [(0x1A918, 0x1A84C)]
  | .GoldenTorizo => [(0x19876, 0x1983A)]
  | .MetroidRoom1 => [(0x1A9B4, 0x1A9C0), (0x1A9A8, 0x1A984)]
  | .MetroidRoom2 => [(0x1A9C0, 0x1A9B4), (0x1A9CC, 0x1A9D8)]
  | .MetroidRoom3 => [(0x1A9D8, 0x1A9CC), (0x1A9E4, 0x1A9F0)]
  | .MetroidRoom4 => [(0x1A9F0, 0x1A9E4), (0x1A9FC, 0x1AA08)]
  | _ => []

/-- The full deny-set of `get_randomizable_doors` for a given objective
list: the base list plus the objective-marked doors, each wrapped in
`Some` as in the source. -/
def nonRandomizableDoors (objectives : List ObjectiveM) : List DoorPtrPairM :=
  (nonRandomizableDoorsBase ++ (objectives.map objectiveExtraDoors).flatten).map
    (fun p => (some p.1, some p.2))

/-- One door of the room geometry, as consumed by `get_randomizable_doors`:
its pointer pair and whether `door.offset.is_some()` (a door cap exists). -/
structure GeometryDoor where
  exitPtr : Option ℕ
  entrancePtr : Option ℕ
  hasDoorCap : Bool
deriving DecidableEq

/-- `get_randomizable_doors` (randomize.rs 2278-2438): every room-geometry
door that has a door cap and is not on the deny-list.  `roomDoors` is the
flattened list of all rooms' doors. -/
def getRandomizableDoors (roomDoors : List GeometryDoor) (objectives : List ObjectiveM) :
    List DoorPtrPairM :=
  (roomDoors.filter (fun d => d.hasDoorCap &&
    decide ((d.exitPtr, d.entrancePtr) ∉ nonRandomizableDoors objectives))).map
    (fun d => (d.exitPtr, d.entrancePtr))

/-- `get_randomizable_door_connections` (randomize.rs 2440-2453): the map
door connections both of whose endpoints are randomizable. -/
def getRandomizableDoorConnections (mapDoors : List (DoorPtrPairM × DoorPtrPairM × Bool))
    (roomDoors : List GeometryDoor) (objectives : List ObjectiveM) :
    List (DoorPtrPairM × DoorPtrPairM) :=
  (mapDoors.filter (fun d =>
    decide (d.1 ∈ getRandomizableDoors roomDoors objectives) &&
    decide (d.2.1 ∈ getRandomizableDoors roomDoors objectives))).map
    (fun d => (d.1, d.2.1))

def DoorTypeM.isBeam : DoorTypeM → Bool
  | .Beam _ => true
  | _ => false

/-- The mutable state of the selection loop of `randomize_doors`:
`used_locs`, `used_beam_rooms` and the accumulated `locked_doors`.  The
`HashSet`s are modelled as lists with membership tests. -/
structure DoorSelState where
  usedLocs : List TileLoc
  usedBeamRooms : List ℕ
  lockedDoors : List LockedDoorM
deriving DecidableEq

/-- The selection loop of `randomize_doors` (randomize.rs 2504-2532).  Each
list element is the pair `(door_types[i], door_conns[idx])` of one loop
iteration; `getLoc` is the `get_loc` closure, giving a door's map tile
from `game_data.room_and_door_idxs_by_door_ptr_pair`. -/
def selectDoorsLoop (getLoc : DoorPtrPairM → TileLoc) :
    List (DoorTypeM × DoorPtrPairM × DoorPtrPairM) → DoorSelState → DoorSelState
  | [], st => st
  | (dt, conn) :: rest, st =>
    if getLoc conn.1 ∈ st.usedLocs ∨ getLoc conn.2 ∈ st.usedLocs then
      selectDoorsLoop getLoc rest st
    else if dt.isBeam ∧
        ((getLoc conn.1).1 ∈ st.usedBeamRooms ∨ (getLoc conn.2).1 ∈ st.usedBeamRooms) then
      selectDoorsLoop getLoc rest st
    else
      selectDoorsLoop getLoc rest
        { usedLocs := getLoc conn.2 :: getLoc conn.1 :: st.usedLocs,
          usedBeamRooms :=
            if dt.isBeam then (getLoc conn.2).1 :: (getLoc conn.1).1 :: st.usedBeamRooms
            else st.usedBeamRooms,
          lockedDoors := st.lockedDoors ++
            [{ src_ptr_pair := conn.1, dst_ptr_pair := conn.2, door_type := dt,
               bidirectional := true }] }

/-- The `door_types` vector in `DoorsMode::Ammo` (randomize.rs 2477-2484):
30 red, 15 green, 10 yellow. -/
def ammoDoorTypes : List DoorTypeM :=
  List.replicate 30 .Red ++ List.replicate 15 .Green ++ List.replicate 10 .Yellow

/-- The iteration list of the selection loop: `door_types[i]` paired with
`door_conns[idxs[i]]`, in order, as produced by the `enumerate` over the
output of `rand::seq::index::sample`. -/
def doorsToProcess (doorConns : List (DoorPtrPairM × DoorPtrPairM))
    (doorTypes : List DoorTypeM) (idxs : List ℕ) :
    List (DoorTypeM × DoorPtrPairM × DoorPtrPairM) :=
  doorTypes.zip (idxs.map (fun i => doorConns.getD i ((none, none), (none, none))))

/-- The `locked_doors` list produced by `randomize_doors` (randomize.rs
2500-2532), given the randomizable connections, the mode's `door_types`
vector, and the indices `idxs` drawn by `rand::seq::index::sample`. -/
def randomizeDoorsLockedDoors (getLoc : DoorPtrPairM → TileLoc)
    (doorConns : List (DoorPtrPairM × DoorPtrPairM)) (doorTypes : List DoorTypeM)
    (idxs : List ℕ) : List LockedDoorM :=
  (selectDoorsLoop getLoc (doorsToProcess doorConns doorTypes idxs)
    { usedLocs := [], usedBeamRooms := [], lockedDoors := [] }).lockedDoors

/-- The map tiles of the connections in an iteration list, in iteration
order (source tile then destination tile of each connection). -/
def connLocs (getLoc : DoorPtrPairM → TileLoc) :
    List (DoorTypeM × DoorPtrPairM × DoorPtrPairM) → List TileLoc
  | [] => []
  | (_, conn) :: rest => getLoc conn.1 :: getLoc conn.2 :: connLocs getLoc rest

/-- The two map tiles holding the endpoints of a locked door. -/
def doorLocs (getLoc : DoorPtrPairM → TileLoc) (d : LockedDoorM) : List TileLoc :=
  [getLoc d.src_ptr_pair, getLoc d.dst_ptr_pair]

/-- The two rooms holding the endpoints of a locked door. -/
def doorRooms (getLoc : DoorPtrPairM → TileLoc) (d : LockedDoorM) : List ℕ :=
  [(getLoc d.src_ptr_pair).1, (getLoc d.dst_ptr_pair).1]

def DoorTypeM.isAmmo : DoorTypeM → Bool
  | .Red => true
  | .Green => true
  | .Yellow => true
  | _ => false

/-- Two doors occupy disjoint sets of map tiles. -/
def LocDisjoint (getLoc : DoorPtrPairM → TileLoc) (d₁ d₂ : LockedDoorM) : Prop :=
  ∀ loc ∈ doorLocs getLoc d₁, loc ∉ doorLocs getLoc d₂

/-- Two doors occupy disjoint sets of rooms. -/
def RoomDisjoint (getLoc : DoorPtrPairM → TileLoc) (d₁ d₂ : LockedDoorM) : Prop :=
  ∀ r ∈ doorRooms getLoc d₁, r ∉ doorRooms getLoc d₂

/-- Claim C5(a): no map tile contains endpoints of two distinct ammo locks. -/
def AmmoTileExclusion (getLoc : DoorPtrPairM → TileLoc) (doors : List LockedDoorM) : Prop :=
  doors.Pairwise (fun d₁ d₂ =>
    d₁.door_type.isAmmo → d₂.door_type.isAmmo → LocDisjoint getLoc d₁ d₂)

/-- Claim C5(b): no room contains endpoints of two distinct beam locks. -/
def BeamRoomExclusion (getLoc : DoorPtrPairM → TileLoc) (doors : List LockedDoorM) : Prop :=
  doors.Pairwise (fun d₁ d₂ =>
    d₁.door_type.isBeam → d₂.door_type.isBeam → RoomDisjoint getLoc d₁ d₂)

/-- Claim C5(c): no locked door lies on the deny-list. -/
def DenyListExclusion (objectives : List ObjectiveM) (doors : List LockedDoorM) : Prop :=
  ∀ d ∈ doors, d.src_ptr_pair ∉ nonRandomizableDoors objectives ∧
    d.dst_ptr_pair ∉ nonRandomizableDoors objectives

/-- The concrete `getLoc` of the C6 counterexample: door pointer `some 1`
shares the map tile of door pointer `some 0`; every other pointer has its
own tile. -/
def cexGetLoc : DoorPtrPairM → TileLoc
  | (some n, _) => (if n = 1 then 0 else n, 0, 0)
  | (none, _) => (0, 0, 0)

/-- The concrete connection list of the C6 counterexample: 55 connections,
connection `j` joining pointer pair `(some j, some j)` to
`(some (1000 + j), some (1000 + j))`. -/
def cexConns : List (DoorPtrPairM × DoorPtrPairM) :=
  (List.range 55).map (fun j => ((some j, some j), (some (1000 + j), some (1000 + j))))

/-- A `getLoc` with all tiles distinct, used for the C6 witness. -/
def allDistinctGetLoc : DoorPtrPairM → TileLoc
  | (some n, _) => (n, 0, 0)
  | (none, _) => (0, 0, 0)

/-- Upper bounds of the amended C6 claim: at most 55 locked doors, at most
30 red, 15 green, 10 yellow. -/
def AmmoCountBounds (doors : List LockedDoorM) : Prop :=
  doors.length ≤ 55 ∧
  (doors.map (fun d => d.door_type)).count .Red ≤ 30 ∧
  (doors.map (fun d => d.door_type)).count .Green ≤ 15 ∧
  (doors.map (fun d => d.door_type)).count .Yellow ≤ 10

/-- Exact counts of the C6 claim: 55 locked doors, exactly 30 red, 15
green, 10 yellow. -/
def AmmoCountExact (doors : List LockedDoorM) : Prop :=
  doors.length = 55 ∧
  (doors.map (fun d => d.door_type)).count .Red = 30 ∧
  (doors.map (fun d => d.door_type)).count .Green = 15 ∧
  (doors.map (fun d => d.door_type)).count .Yellow = 10

/-- Room-geometry doors of the concrete C5 witness instance. -/
def c5RoomDoors : List GeometryDoor :=
  [{ exitPtr := some 10, entrancePtr := some 11, hasDoorCap := true },
   { exitPtr := some 20, entrancePtr := some 21, hasDoorCap := true }]

/-- Map door connections of the concrete C5 witness instance. -/
def c5MapDoors : List (DoorPtrPairM × DoorPtrPairM × Bool) :=
  [((some 10, some 11), (some 20, some 21), true)]

/-! ## Definitions: placement engine state (randomize.rs 300-410) -/

/-- Item ids: indices into `GameData.item_isv`, i.e. the Rust `Item` enum
cast with `as usize`. -/
abbrev ItemM := ℕ

/-- Modelled from the spec: `GlobalState` lives in the `traverse` module,
which is not under `src/`.  Per spec §3 it is an inventory snapshot —
"items possessed (bitset), flags set (bitset), locked doors unlocked
(bitset) ... Updated monotonically by `collect(item)` and flag/door
unlocking".  The resource maxima and weapon mask are omitted: no claim
depends on them. -/
structure GlobalStateM where
  items : List Bool
  flags : List Bool
  doorsUnlocked : List Bool
deriving DecidableEq

/-- Modelled from the spec: `GlobalState::collect` marks an item as
possessed (a monotone bit-set update). -/
def GlobalStateM.collect (g : GlobalStateM) (item : ItemM) : GlobalStateM :=
  { g with items := g.items.set item true }

/-- `ItemLocationState` (randomize.rs 313-320). -/
structure ItemLocationStateM where
  placed_item : Option ItemM
  collected : Bool
  reachable : Bool
  bireachable : Bool
  bireachable_vertex_id : Option ℕ
  difficulty_tier : Option ℕ
deriving DecidableEq

/-- `FlagLocationState` (randomize.rs 322-328). -/
structure FlagLocationStateM where
  reachable : Bool
  reachable_vertex_id : Option ℕ
  bireachable : Bool
  bireachable_vertex_id : Option ℕ
deriving DecidableEq

/-- `DoorState` (randomize.rs 330-334). -/
structure DoorStateM where
  bireachable : Bool
  bireachable_vertex_id : Option ℕ
deriving DecidableEq

/-- `SaveLocationState` (randomize.rs 336-339). -/
structure SaveLocationStateM where
  bireachable : Bool
deriving DecidableEq

/-- The parts of `RandomizationState` (randomize.rs 375-391) that the
claims are about.  `step_num`, start/hub locations, `debug_data` and
`key_visited_vertices` (spoiler and forced-mode bookkeeping) are
omitted. -/
structure RandomizationStateM where
  item_precedence : List ItemM
  item_location_state : List ItemLocationStateM
  flag_location_state : List FlagLocationStateM
  save_location_state : List SaveLocationStateM
  door_state : List DoorStateM
  items_remaining : List ℕ
  global_state : GlobalStateM
deriving DecidableEq

/-- The static game data consumed by the reachability bookkeeping:
per-location vertex-id lists, the flag-id list and the Mother Brain flag
id. -/
structure GameStaticData where
  item_vertex_ids : List (List ℕ)
  flag_vertex_ids : List (List ℕ)
  locked_door_vertex_ids : List (List ℕ)
  save_vertex_ids : List ℕ
  flag_ids : List ℕ
  mother_brain_defeated_flag_id : ℕ
deriving DecidableEq

/-- The external traversal, abstracted (the spec declares `traverse` and
`get_bireachable_idxs` out-of-scope collaborators): for the global state
that `update_reachability` hands to its forward and reverse `traverse`
calls, `fwdFinite g v` says whether some forward cost metric at vertex
`v` is finite, and `biOk g v` whether `get_bireachable_idxs` returns
`Some` at `v`. -/
structure ReachOracle where
  fwdFinite : GlobalStateM → ℕ → Bool
  biOk : GlobalStateM → ℕ → Bool

/-! ## Definitions: `update_reachability` (randomize.rs 2793-2917) -/

/-- The item-location update of `update_reachability` (randomize.rs
2827-2846): `bireachable` is cleared and recomputed from the first vertex
that is forward-finite and bireachable; `reachable` is only ever set. -/
def updateItemLocation (oracle : ReachOracle) (g : GlobalStateM) (vertexIds : List ℕ)
    (s : ItemLocationStateM) : ItemLocationStateM :=
  let found := vertexIds.find? (fun v => oracle.fwdFinite g v && oracle.biOk g v)
  { s with
    reachable := s.reachable || vertexIds.any (fun v => oracle.fwdFinite g v),
    bireachable := found.isSome,
    bireachable_vertex_id := found }

/-- The flag-location update of `update_reachability` (randomize.rs
2847-2871): both `reachable` and `bireachable` are cleared and
recomputed. -/
def updateFlagLocation (oracle : ReachOracle) (g : GlobalStateM) (vertexIds : List ℕ)
    (_s : FlagLocationStateM) : FlagLocationStateM :=
  let fwd := vertexIds.find? (fun v => oracle.fwdFinite g v)
  let bi := vertexIds.find? (fun v => oracle.fwdFinite g v && oracle.biOk g v)
  { reachable := fwd.isSome, reachable_vertex_id := fwd,
    bireachable := bi.isSome, bireachable_vertex_id := bi }

/-- The door update of `update_reachability` (randomize.rs 2872-2895). -/
def updateDoorState (oracle : ReachOracle) (g : GlobalStateM) (vertexIds : List ℕ)
    (_s : DoorStateM) : DoorStateM :=
  let bi := vertexIds.find? (fun v => oracle.fwdFinite g v && oracle.biOk g v)
  { bireachable := bi.isSome, bireachable_vertex_id := bi }

/-- The save-location update of `update_reachability` (randomize.rs
2896-2909): only `get_bireachable_idxs` is consulted. -/
def updateSaveLocation (oracle : ReachOracle) (g : GlobalStateM) (v : ℕ)
    (_s : SaveLocationStateM) : SaveLocationStateM :=
  { bireachable := oracle.biOk g v }

/-- `update_reachability` (randomize.rs 2793-2917): recompute all location
states from the current `global_state`.  `global_state` itself is not
modified. -/
def updateReachability (gd : GameStaticData) (oracle : ReachOracle)
    (state : RandomizationStateM) : RandomizationStateM :=
  { state with
    item_location_state := List.zipWith (updateItemLocation oracle state.global_state)
      gd.item_vertex_ids state.item_location_state,
    flag_location_state := List.zipWith (updateFlagLocation oracle state.global_state)
      gd.flag_vertex_ids state.flag_location_state,
    door_state := List.zipWith (updateDoorState oracle state.global_state)
      gd.locked_door_vertex_ids state.door_state,
    save_location_state := List.zipWith (updateSaveLocation oracle state.global_state)
      gd.save_vertex_ids state.save_location_state }

/-- `is_game_beatable` (randomize.rs 4171-4180): true iff some flag
location carries the Mother Brain defeated flag and is (one-way)
reachable. -/
def isGameBeatable (gd : GameStaticData) (state : RandomizationStateM) : Bool :=
  (gd.flag_ids.zip state.flag_location_state).any
    (fun p => p.1 == gd.mother_brain_defeated_flag_id && p.2.reachable)

/-! ## Definitions: the flag/door closure phase of `step`
(randomize.rs 3503-3564) -/

/-- The body of the flag loop (randomize.rs 3505-3542) for one flag
location pair `(flag_id, flag_location_state[i])`: an unset flag is set
if it is the Mother Brain flag and (one-way) reachable, or if it is
bireachable. -/
def closureFlagStep (gd : GameStaticData) (acc : GlobalStateM × Bool)
    (p : ℕ × FlagLocationStateM) : GlobalStateM × Bool :=
  if acc.1.flags.getD p.1 false then acc
  else if p.2.reachable ∧ p.1 = gd.mother_brain_defeated_flag_id then
    ({ acc.1 with flags := acc.1.flags.set p.1 true }, true)
  else if p.2.bireachable then
    ({ acc.1 with flags := acc.1.flags.set p.1 true }, true)
  else acc

/-- One pass of the flag loop: fold `closureFlagStep` over all flag
locations, accumulating the `any_update` bit. -/
def closureFlagsPass (gd : GameStaticData) (state : RandomizationStateM) :
    GlobalStateM × Bool :=
  (gd.flag_ids.zip state.flag_location_state).foldl (closureFlagStep gd)
    (state.global_state, false)

/-- The body of the door loop (randomize.rs 3543-3558) for one indexed
door state: a locked door whose unlock vertex is bireachable is marked
unlocked. -/
def closureDoorStep (acc : GlobalStateM × Bool) (p : ℕ × DoorStateM) :
    GlobalStateM × Bool :=
  if acc.1.doorsUnlocked.getD p.1 false then acc
  else if p.2.bireachable then
    ({ acc.1 with doorsUnlocked := acc.1.doorsUnlocked.set p.1 true }, true)
  else acc

/-- One pass of the door loop. -/
def closureDoorsPass (state : RandomizationStateM) (g : GlobalStateM) (anyUpdate : Bool) :
    GlobalStateM × Bool :=
  state.door_state.enum.foldl closureDoorStep (g, anyUpdate)

/-- The fixed-point closure loop of `step` (randomize.rs 3503-3564): run a
flag pass and a door pass; if anything was updated, re-run
`update_reachability` and iterate.  The loop is fuelled; the source loop
terminates because each continuing iteration sets at least one flag or
door and none is ever cleared. -/
def closureLoop (gd : GameStaticData) (oracle : ReachOracle) :
    ℕ → RandomizationStateM → RandomizationStateM
  | 0, state => state
  | fuel + 1, state =>
    if (closureDoorsPass state (closureFlagsPass gd state).1 (closureFlagsPass gd state).2).2 then
      closureLoop gd oracle fuel (updateReachability gd oracle { state with global_state :=
        (closureDoorsPass state (closureFlagsPass gd state).1
          (closureFlagsPass gd state).2).1 })
    else
      { state with global_state :=
          (closureDoorsPass state (closureFlagsPass gd state).1
            (closureFlagsPass gd state).2).1 }

/-- The list of states at the start of each executed closure iteration
(used to say at which state a flag was examined when it was set). -/
def closureStates (gd : GameStaticData) (oracle : ReachOracle) :
    ℕ → RandomizationStateM → List RandomizationStateM
  | 0, _ => []
  | fuel + 1, state =>
    if (closureDoorsPass state (closureFlagsPass gd state).1 (closureFlagsPass gd state).2).2 then
      state :: closureStates gd oracle fuel
        (updateReachability gd oracle { state with global_state :=
          (closureDoorsPass state (closureFlagsPass gd state).1
            (closureFlagsPass gd state).2).1 })
    else
      [state]

/-! ## Definitions: item selection and placement (randomize.rs 2919-3318) -/

/-- `ProgressionRate` (randomize.rs 41-45). -/
inductive ProgressionRateM
  | Slow
  | Uniform
  | Fast
deriving DecidableEq

/-- The item ids the placement code refers to by name (`Item::Nothing as
usize` etc.). -/
structure ItemIdsM where
  nothing : ItemM
  missile : ItemM
  etank : ItemM
  reserveTank : ItemM
  sup : ItemM
  powerBomb : ItemM
  spazer : ItemM
  plasma : ItemM
deriving DecidableEq

/-- The `DifficultyConfig` fields consumed by item selection. -/
structure DifficultyM where
  progression_rate : ProgressionRateM
  stop_item_placement_early : Bool
  spazer_before_plasma : Bool
  early_filler_items : List ItemM
  filler_items : List ItemM
  semi_filler_items : List ItemM
deriving DecidableEq

/-- `KEY_ITEM_FINISH_THRESHOLD` (randomize.rs 38). -/
def keyItemFinishThreshold : ℕ := 20

/-- `determine_item_split` (randomize.rs 2920-2971).  `f32::round(...) as
usize` is modelled as `Int.toNat ∘ round` over `ℚ`. -/
def determineItemSplit (diff : DifficultyM) (initialItemsRemaining : List ℕ)
    (state : RandomizationStateM) (numBireachable numOnewayReachable : ℕ) : ℕ × ℕ :=
  let numItemsToPlace := numBireachable + numOnewayReachable
  let filteredItemPrecedence := state.item_precedence.filter
    (fun item => state.items_remaining.getD item 0 == initialItemsRemaining.getD item 0)
  let numKeyItemsRemaining := filteredItemPrecedence.length
  let numItemsRemaining := state.items_remaining.sum
  let base : ℕ :=
    match diff.progression_rate with
    | .Slow => 1
    | .Uniform => max 1 (Int.toNat (round
        ((numKeyItemsRemaining : ℚ) / (numItemsRemaining : ℚ) * (numItemsToPlace : ℚ))))
    | .Fast => max 1 (Int.toNat (round
        (2 * (numKeyItemsRemaining : ℚ) / (numItemsRemaining : ℚ) * (numItemsToPlace : ℚ))))
  let withFinish :=
    if ¬diff.stop_item_placement_early ∧
        numItemsRemaining < numItemsToPlace + keyItemFinishThreshold then
      numKeyItemsRemaining
    else base
  let numKeyItemsToPlace := min withFinish (min numBireachable numKeyItemsRemaining)
  (numKeyItemsToPlace, numItemsToPlace - numKeyItemsToPlace)

/-- `apply_spazer_plasma_priority` (randomize.rs 3933-3945): if Plasma
appears before Spazer, swap the two entries. -/
def applySpazerPlasma (ids : ItemIdsM) (l : List ItemM) : List ItemM :=
  match l.findIdx? (fun x => x == ids.spazer), l.findIdx? (fun x => x == ids.plasma) with
  | some spazerIdx, some plasmaIdx =>
    if plasmaIdx < spazerIdx then (l.set plasmaIdx ids.spazer).set spazerIdx ids.plasma
    else l
  | _, _ => l

/-- `select_filler_items` (randomize.rs 2973-3057).  The
`items_to_mix.shuffle(rng)` call is abstracted as the `shuffleMix`
parameter. -/
def selectFillerItems (ids : ItemIdsM) (diff : DifficultyM)
    (initialItemsRemaining : List ℕ) (state : RandomizationStateM)
    (shuffleMix : List ItemM → List ItemM)
    (numBireachableFiller numOneWayFiller : ℕ) : List ItemM :=
  let numFillerToSelect := numBireachableFiller + numOneWayFiller
  let expansionItems : List ItemM := [ids.etank, ids.reserveTank, ids.sup, ids.powerBomb]
  let buckets := state.item_precedence.foldl
    (fun (acc : List ItemM × List ItemM × List ItemM × List ItemM) item =>
      if item = ids.missile ∨ item = ids.nothing ∨ state.items_remaining.getD item 0 = 0 then
        acc
      else if item ∈ diff.early_filler_items ∧
          state.items_remaining.getD item 0 = initialItemsRemaining.getD item 0 then
        (acc.1 ++ [item], acc.2.1 ++ [item], acc.2.2.1, acc.2.2.2)
      else if item ∈ diff.filler_items ∨ (item ∈ diff.semi_filler_items ∧
          state.items_remaining.getD item 0 < initialItemsRemaining.getD item 0) then
        (acc.1, acc.2.1 ++ [item], acc.2.2.1, acc.2.2.2)
      else if item ∈ expansionItems then
        (acc.1, acc.2.1, acc.2.2.1 ++ [item], acc.2.2.2)
      else
        (acc.1, acc.2.1, acc.2.2.1, acc.2.2.2 ++ [item]))
    ([], [ids.missile, ids.nothing], [], [])
  let itemsToMix := (buckets.2.1.map (fun item =>
    List.replicate (state.items_remaining.getD item 0 -
      (if item ∈ buckets.1 then 1 else 0)) item)).flatten
  let itemsToDelay := (buckets.2.2.1.map (fun item =>
    List.replicate (state.items_remaining.getD item 0) item)).flatten
  let itemsToExtraDelay := (buckets.2.2.2.map (fun item =>
    List.replicate (state.items_remaining.getD item 0)
      (if diff.stop_item_placement_early then ids.nothing else item))).flatten
  let itemsToPlace :=
    buckets.1 ++ shuffleMix itemsToMix ++ itemsToDelay ++ itemsToExtraDelay
  let itemsToPlace :=
    if diff.spazer_before_plasma then applySpazerPlasma ids itemsToPlace else itemsToPlace
  itemsToPlace.take numFillerToSelect

/-- `select_key_items` (randomize.rs 3059-3125).  Out-of-range indexing
(which would panic in Rust) is totalised with `take`/`getD`. -/
def selectKeyItems (ids : ItemIdsM) (diff : DifficultyM)
    (initialItemsRemaining : List ℕ) (state : RandomizationStateM)
    (numKeyItemsToSelect attemptNum : ℕ) : Option (List ItemM) :=
  if 1 ≤ numKeyItemsToSelect then
    let buckets := state.item_precedence.foldl
      (fun (acc : List ItemM × List ItemM × List ItemM) item =>
        if 0 < state.items_remaining.getD item 0 ∨
            (diff.stop_item_placement_early ∧ item = ids.nothing) then
          let acc1 :=
            if diff.progression_rate = .Slow then
              (acc.1 ++ [item], acc.2.1, acc.2.2)
            else if state.items_remaining.getD item 0 = initialItemsRemaining.getD item 0 then
              (acc.1 ++ [item], acc.2.1, acc.2.2)
            else
              (acc.1, acc.2.1 ++ [item], acc.2.2)
          if 2 ≤ state.items_remaining.getD item 0 then
            (acc1.1, acc1.2.1,
              acc1.2.2 ++ List.replicate (state.items_remaining.getD item 0 - 1) item)
          else acc1
        else acc)
      ([], [], [])
    let cntDifferentItemsRemaining := buckets.1.length + buckets.2.1.length
    let remainingItems := buckets.1 ++ buckets.2.1 ++ buckets.2.2
    if 0 < attemptNum ∧ cntDifferentItemsRemaining ≤ numKeyItemsToSelect - 1 + attemptNum then
      none
    else
      some ((remainingItems.take (numKeyItemsToSelect - 1)) ++
        [remainingItems.getD (numKeyItemsToSelect - 1 + attemptNum) 0])
  else
    if 0 < attemptNum then none else some []

/-- The guarded decrement of `items_remaining` applied to each selected
item (randomize.rs 3421-3427 and 3436-3440): "We check if items_remaining
is positive, only because with Stop item placement early there could be
extra (unplanned) Nothing items placed." -/
def decrementItems (remaining : List ℕ) (items : List ItemM) : List ℕ :=
  items.foldl
    (fun rem item =>
      if 0 < rem.getD item 0 then rem.set item (rem.getD item 0 - 1) else rem)
    remaining

/-- Collect a list of items into a state's `global_state` (the item
collection loop at randomize.rs 3335-3342). -/
def collectItemsState (state : RandomizationStateM) (items : List ItemM) :
    RandomizationStateM :=
  { state with global_state := items.foldl GlobalStateM.collect state.global_state }

/-- `provides_progression` (randomize.rs 3320-3379): collect the tentative
items into `new_state`, re-run reachability, and accept iff
`(num_one_way_reachable < 20 && gives_expansion) || is_beatable`, where
`gives_expansion` is true when all item locations are bireachable or some
location is bireachable that was not even reachable in `old_state`.
Returns the updated `new_state` (the Rust function mutates it in place)
and the decision. -/
def providesProgression (gd : GameStaticData) (oracle : ReachOracle)
    (oldState newState : RandomizationStateM)
    (keyItems fillerItems placedUncollectedBireachableItems : List ItemM)
    (numUnplacedBireachable : ℕ) : RandomizationStateM × Bool :=
  let collected := placedUncollectedBireachableItems ++
    (keyItems ++ fillerItems).take numUnplacedBireachable
  let newState1 := collectItemsState newState collected
  let newState2 := updateReachability gd oracle newState1
  let numBireachable := (newState2.item_location_state.filter (fun x => x.bireachable)).length
  let numReachable := (newState2.item_location_state.filter (fun x => x.reachable)).length
  let numOneWayReachable := numReachable - numBireachable
  let allItemsBireachable := numBireachable == newState2.item_location_state.length
  let givesExpansion :=
    if allItemsBireachable then true
    else (newState2.item_location_state.zip oldState.item_location_state).any
      (fun p => p.1.bireachable && !p.2.reachable)
  let isBeatable := isGameBeatable gd newState2
  (newState2, (decide (numOneWayReachable < 20) && givesExpansion) || isBeatable)

/-- The retry loop of `multi_attempt_select_items` (randomize.rs
3434-3489), fuelled.  On acceptance the accepted state is returned; when
`select_key_items` is exhausted, the source returns the state left by the
last (failed) `provides_progression` call, or — under stop-early — forces
the key items to Nothing and re-runs `provides_progression`. -/
def multiAttemptLoop (gd : GameStaticData) (oracle : ReachOracle) (ids : ItemIdsM)
    (diff : DifficultyM) (initialItemsRemaining : List ℕ)
    (state newStateFiller : RandomizationStateM)
    (selectedFiller placedUncollected : List ItemM)
    (numUnplacedBireachable numKey : ℕ) :
    ℕ → ℕ → List ItemM → (List ItemM × List ItemM) × RandomizationStateM
  | 0, _, selectedKey => ((selectedKey, selectedFiller), newStateFiller)
  | fuel + 1, attemptNum, selectedKey =>
    let newState := { newStateFiller with
      items_remaining := decrementItems newStateFiller.items_remaining selectedKey }
    let res := providesProgression gd oracle state newState selectedKey selectedFiller
      placedUncollected numUnplacedBireachable
    if res.2 then ((selectedKey, selectedFiller), res.1)
    else
      match selectKeyItems ids diff initialItemsRemaining newStateFiller numKey attemptNum with
      | some newKeys =>
        multiAttemptLoop gd oracle ids diff initialItemsRemaining state newStateFiller
          selectedFiller placedUncollected numUnplacedBireachable numKey
          fuel (attemptNum + 1) newKeys
      | none =>
        if diff.stop_item_placement_early then
          let selectedKeyN := selectedKey.map (fun _ => ids.nothing)
          let newStateN := { newStateFiller with
            items_remaining := decrementItems newStateFiller.items_remaining selectedKeyN }
          let resN := providesProgression gd oracle state newStateN selectedKeyN selectedFiller
            placedUncollected numUnplacedBireachable
          ((selectedKeyN, selectedFiller), resN.1)
        else ((selectedKey, selectedFiller), res.1)

/-- `multi_attempt_select_items` (randomize.rs 3381-3490). -/
def multiAttemptSelectItems (gd : GameStaticData) (oracle : ReachOracle) (ids : ItemIdsM)
    (diff : DifficultyM) (initialItemsRemaining : List ℕ)
    (state : RandomizationStateM) (placedUncollected : List ItemM)
    (numUnplacedBireachable numUnplacedOneway : ℕ)
    (shuffleMix : List ItemM → List ItemM) (attemptFuel : ℕ) :
    (List ItemM × List ItemM) × RandomizationStateM :=
  let split := determineItemSplit diff initialItemsRemaining state
    numUnplacedBireachable numUnplacedOneway
  let numBireachableFiller := numUnplacedBireachable - split.1
  let numOneWayFiller := split.2 - numBireachableFiller
  let selectedFiller := selectFillerItems ids diff initialItemsRemaining state shuffleMix
    numBireachableFiller numOneWayFiller
  let newStateFiller := { state with
    items_remaining := decrementItems state.items_remaining selectedFiller }
  let selectedKey := (selectKeyItems ids diff initialItemsRemaining newStateFiller
    split.1 0).getD []
  multiAttemptLoop gd oracle ids diff initialItemsRemaining state newStateFiller
    selectedFiller placedUncollected numUnplacedBireachable split.1
    attemptFuel 0 selectedKey

/-! ## Definitions: `place_items` (randomize.rs 3199-3285) -/

/-- `Vec::swap` on a list (with `getD` defaults; in-range in all uses). -/
def swapAt (l : List ℕ) (i j : ℕ) : List ℕ :=
  (l.set i (l.getD j 0)).set j (l.getD i 0)

/-- The forced-mode hard-location loop of `place_items` (randomize.rs
3225-3272) swaps, for each key item index `i`, the entry at `i` with the
entry at `i + hard_idx`, where `hard_idx` is the index returned by
`find_hard_location` (abstracted as the parameter `hardIdx`, a function
of the iteration index). -/
def hardSwapAux (hardIdx : ℕ → ℕ) : ℕ → ℕ → List ℕ → List ℕ
  | _, 0, l => l
  | i, k + 1, l => hardSwapAux hardIdx (i + 1) k (swapAt l i (i + hardIdx i))

/-- The placement zip of `place_items` (randomize.rs 3275-3284):
`all_locations = new_bireachable_locations ++ other_locations` is zipped
with `all_items_to_place = key_items ++ other_items` and each location
receives its item. -/
def placeItemsZip (state : RandomizationStateM)
    (newBireachableLocations otherLocations : List ℕ)
    (keyItemsToPlace otherItemsToPlace : List ItemM) : RandomizationStateM :=
  let allLocations := newBireachableLocations ++ otherLocations
  let allItemsToPlace := keyItemsToPlace ++ otherItemsToPlace
  let newIls := (allLocations.zip allItemsToPlace).foldl
    (fun ils p => List.modify (fun s => { s with placed_item := some p.2 }) p.1 ils)
    state.item_location_state
  { state with item_location_state := newIls }

/-- The `new_bireachable_locations` list used by the zip: the given
bireachable list, permuted by the hard-location swaps when in forced
mode. -/
def newBireachableLocs (forced : Bool) (hardIdx : ℕ → ℕ) (keyLen : ℕ)
    (bireachableLocations : List ℕ) : List ℕ :=
  if forced then hardSwapAux hardIdx 0 keyLen bireachableLocations
  else bireachableLocations

/-- `place_items` (randomize.rs 3199-3285): in forced mode (more than one
difficulty tier and not in the endgame) the bireachable location list is
first permuted by the hard-location swaps; then the zip assigns key items
followed by filler items. -/
def placeItems (forced : Bool) (hardIdx : ℕ → ℕ) (state : RandomizationStateM)
    (bireachableLocations otherLocations : List ℕ)
    (keyItemsToPlace otherItemsToPlace : List ItemM) : RandomizationStateM :=
  placeItemsZip state
    (newBireachableLocs forced hardIdx keyItemsToPlace.length bireachableLocations)
    otherLocations keyItemsToPlace otherItemsToPlace

/-! ## Definitions: `Randomizer::step` item phase (randomize.rs 3566-3659) -/

/-- Mark a list of item locations as collected. -/
def markCollected (ils : List ItemLocationStateM) (locs : List ℕ) : List ItemLocationStateM :=
  locs.foldl (fun acc loc => List.modify (fun s => { s with collected := true }) loc acc) ils

/-- `Randomizer::step` (randomize.rs 3492-3659): the flag/door closure
loop, the early-stop check, classification of item locations, item
selection and placement, and collection marking.  The two
`shuffle(rng)` calls on the classified location lists are abstracted as
permutation parameters, as is the filler shuffle. -/
def stepModel (gd : GameStaticData) (oracle : ReachOracle) (ids : ItemIdsM)
    (diff : DifficultyM) (initialItemsRemaining : List ℕ)
    (shuffleMix : List ItemM → List ItemM)
    (shuffleBireach shuffleOneway : List ℕ → List ℕ)
    (forced : Bool) (hardIdx : ℕ → ℕ) (closureFuel attemptFuel : ℕ)
    (state : RandomizationStateM) : RandomizationStateM :=
  let state1 := closureLoop gd oracle closureFuel state
  if diff.stop_item_placement_early ∧ isGameBeatable gd state1 then
    updateReachability gd oracle state1
  else
    let placedUncollectedLoc := (state1.item_location_state.enum.filter
      (fun p => p.2.placed_item.isSome && !p.2.collected && p.2.bireachable)).map (fun p => p.1)
    let placedUncollectedItems := (state1.item_location_state.filter
      (fun s => s.placed_item.isSome && !s.collected && s.bireachable)).filterMap
        (fun s => s.placed_item)
    let unplacedBireach := shuffleBireach ((state1.item_location_state.enum.filter
      (fun p => p.2.placed_item.isNone && p.2.bireachable)).map (fun p => p.1))
    let unplacedOneway := shuffleOneway ((state1.item_location_state.enum.filter
      (fun p => p.2.placed_item.isNone && !p.2.bireachable && p.2.reachable)).map
        (fun p => p.1))
    let sel := multiAttemptSelectItems gd oracle ids diff initialItemsRemaining state1
      placedUncollectedItems unplacedBireach.length unplacedOneway.length
      shuffleMix attemptFuel
    let newState1 := { sel.2 with
      item_location_state := markCollected sel.2.item_location_state placedUncollectedLoc }
    let newState2 := placeItems forced hardIdx newState1 unplacedBireach unplacedOneway
      sel.1.1 sel.1.2
    { newState2 with
      item_location_state := markCollected newState2.item_location_state unplacedBireach }

/-! ## Definitions: `Randomizer::new` item pool and `finish`
(randomize.rs 2674-2741 and 3287-3318) -/

/-- `ensure_enough_tanks` (randomize.rs 2627-2659): raise the E-tank count
until E-tanks plus reserves reach the floor for the Ridley proficiency
band. -/
def ensureEnoughTanks (ids : ItemIdsM) (ridleyProficiency : ℚ) (v : List ℕ) : List ℕ :=
  let floor : ℕ :=
    if ridleyProficiency < 3 / 10 then 11
    else if ridleyProficiency < 8 / 10 then 9
    else if ridleyProficiency < 9 / 10 then 7
    else 3
  if v.getD ids.etank 0 + v.getD ids.reserveTank 0 < floor then
    v.set ids.etank (floor - v.getD ids.reserveTank 0)
  else v

/-- The vector state after the base counts, `item_pool` overrides and
`ensure_enough_tanks` of `Randomizer::new` (randomize.rs 2690-2709). -/
def preCapItemsRemaining (ids : ItemIdsM) (numItems numLocations : ℕ)
    (wallJumpCollectible : Bool) (iWallJump : ItemM)
    (itemPool : List (ItemM × ℕ)) (ridleyProficiency : ℚ) : List ℕ :=
  let v := List.replicate numItems 1
  let v := v.set ids.nothing 0
  let v := v.set iWallJump (if wallJumpCollectible then 1 else 0)
  let v := v.set ids.sup 10
  let v := v.set ids.powerBomb 10
  let v := v.set ids.etank 14
  let v := v.set ids.reserveTank 4
  let v := v.set ids.missile (numLocations - v.sum)
  let v := itemPool.foldl (fun acc p => acc.set p.1 p.2) v
  ensureEnoughTanks ids ridleyProficiency v

/-- `initial_items_remaining` as computed by `Randomizer::new`
(randomize.rs 2690-2723): the pre-cap vector, capped to the number of
item locations by removing Missiles, minus the starting items, with
`Nothing` topped up to make the total exactly the number of item
locations. -/
def newInitialItemsRemaining (ids : ItemIdsM) (numItems numLocations : ℕ)
    (wallJumpCollectible : Bool) (iWallJump : ItemM)
    (itemPool startingItems : List (ItemM × ℕ)) (ridleyProficiency : ℚ) : List ℕ :=
  let v := preCapItemsRemaining ids numItems numLocations wallJumpCollectible iWallJump
    itemPool ridleyProficiency
  let v := if numLocations < v.sum then
      v.set ids.missile (v.getD ids.missile 0 - (v.sum - numLocations))
    else v
  let v := startingItems.foldl
    (fun acc p => acc.set p.1 (acc.getD p.1 0 - min p.2 (acc.getD p.1 0))) v
  v.set ids.nothing (numLocations - v.sum)

/-- The loop of randomize.rs 3289-3293 with running item id `k`: item id
`k` repeated `itemsRemaining[0]` times, then `k+1` repeated
`itemsRemaining[1]` times, and so on. -/
def remainingItemsAux : ℕ → List ℕ → List ItemM
  | _, [] => []
  | k, cnt :: rest => List.replicate cnt k ++ remainingItemsAux (k + 1) rest

/-- The flat `remaining_items` list built by `finish` (randomize.rs
3288-3293): item id `i` repeated `items_remaining[i]` times, in id
order. -/
def remainingItemsList (itemsRemaining : List ℕ) : List ItemM :=
  remainingItemsAux 0 itemsRemaining

/-- The number of item locations with no placed item. -/
def nonesCount (ils : List ItemLocationStateM) : ℕ :=
  (ils.filter (fun s => s.placed_item.isNone)).length

/-- The fill loop of `finish` without stop-early (randomize.rs 3309-3315):
walk the item locations, giving each empty one the next remaining item. -/
def finishFillNones : List ItemLocationStateM → List ItemM → List ItemLocationStateM
  | [], _ => []
  | s :: rest, rem =>
    match s.placed_item with
    | some _ => s :: finishFillNones rest rem
    | none => { s with placed_item := some (rem.headD 0) } :: finishFillNones rest rem.tail

/-- `Randomizer::finish` (randomize.rs 3287-3318): under stop-early every
empty or non-bireachable location becomes Nothing; otherwise the empty
locations are filled with the remaining items in order. -/
def finishModel (ids : ItemIdsM) (stopEarly : Bool)
    (state : RandomizationStateM) : RandomizationStateM :=
  if stopEarly then
    let newIls := state.item_location_state.map (fun s =>
      if s.placed_item.isNone || !s.bireachable then
        { s with placed_item := some ids.nothing }
      else s)
    { state with item_location_state := newIls }
  else
    let newIls := finishFillNones state.item_location_state
      (remainingItemsList state.items_remaining)
    { state with item_location_state := newIls }

/-- The multiset of placed items, as per-item counts. -/
def placedCount (ils : List ItemLocationStateM) (item : ItemM) : ℕ :=
  (ils.filterMap (fun s => s.placed_item)).count item

/-- Claim language for C2: some item location is bireachable in the new
state that was not even (one-way) reachable in the old state, pairing
locations by index. -/
def NewlyBireachable (old new : RandomizationStateM) : Prop :=
  ∃ p ∈ new.item_location_state.zip old.item_location_state,
    p.1.bireachable = true ∧ p.2.reachable = false

/-- Every item location is bireachable. -/
def AllItemsBireachable (st : RandomizationStateM) : Prop :=
  ∀ s ∈ st.item_location_state, s.bireachable = true

/-- The number of one-way-reachable item locations: reachable but not
bireachable. -/
def oneWayReachableCount (st : RandomizationStateM) : ℕ :=
  (st.item_location_state.filter (fun x => x.reachable && !x.bireachable)).length

/-- Pointwise order on global states: every set bit stays set.  This is
the monotonicity relation of claim C7. -/
def GlobalStateLe (g₁ g₂ : GlobalStateM) : Prop :=
  (∀ i, g₁.items.getD i false = true → g₂.items.getD i false = true) ∧
  (∀ i, g₁.flags.getD i false = true → g₂.flags.getD i false = true) ∧
  (∀ i, g₁.doorsUnlocked.getD i false = true → g₂.doorsUnlocked.getD i false = true)

/-! ## Definitions: concrete instances used by witnesses and
counterexamples -/

/-- An oracle whose bireachability answer flips once item 0 is collected
(the traversal's cost heuristic can stop pairing forward and reverse
paths as resource use changes). -/
def c10Oracle : ReachOracle :=
  { fwdFinite := fun _ _ => true,
    biOk := fun g _ => !(g.items.getD 0 false) }

/-- Static data with a single item location at vertex 0. -/
def c10Gd : GameStaticData :=
  { item_vertex_ids := [[0]], flag_vertex_ids := [], locked_door_vertex_ids := [],
    save_vertex_ids := [], flag_ids := [], mother_brain_defeated_flag_id := 0 }

/-- A fresh one-item-location state. -/
def c10State : RandomizationStateM :=
  { item_precedence := [],
    item_location_state :=
      [{ placed_item := none, collected := false, reachable := false, bireachable := false,
         bireachable_vertex_id := none, difficulty_tier := none }],
    flag_location_state := [], save_location_state := [], door_state := [],
    items_remaining := [],
    global_state := { items := [false], flags := [], doorsUnlocked := [] } }

/-- The default item-location record (used as a `getD` default in
concrete statements). -/
def defaultItemLocationState : ItemLocationStateM :=
  { placed_item := none, collected := false, reachable := false, bireachable := false,
    bireachable_vertex_id := none, difficulty_tier := none }

/-- Static data with one flag location carrying the Mother Brain flag
(id 3). -/
def c4Gd : GameStaticData :=
  { item_vertex_ids := [], flag_vertex_ids := [[0]], locked_door_vertex_ids := [],
    save_vertex_ids := [], flag_ids := [3], mother_brain_defeated_flag_id := 3 }

/-- A state whose flag 3 is already set in `global_state`. -/
def c4State : RandomizationStateM :=
  { item_precedence := [],
    item_location_state := [],
    flag_location_state :=
      [{ reachable := false, reachable_vertex_id := none, bireachable := false,
         bireachable_vertex_id := none }],
    save_location_state := [], door_state := [],
    items_remaining := [],
    global_state := { items := [], flags := [false, false, false, true],
                      doorsUnlocked := [] } }

/-- Static data for the C2 counterexample: one item location, one flag
location whose flag id 5 differs from the Mother Brain flag id 7. -/
def c2Gd : GameStaticData :=
  { item_vertex_ids := [[0]], flag_vertex_ids := [[1]], locked_door_vertex_ids := [],
    save_vertex_ids := [], flag_ids := [5], mother_brain_defeated_flag_id := 7 }

/-- An oracle answering yes everywhere. -/
def c2Oracle : ReachOracle :=
  { fwdFinite := fun _ _ => true, biOk := fun _ _ => true }

/-- Concrete item ids for the C1 instances: Nothing 0, Missile 1, ETank 2,
Reserve 3, Super 4, PowerBomb 5, Spazer 6, Plasma 7 (WallJump is 8). -/
def c1Ids : ItemIdsM :=
  { nothing := 0, missile := 1, etank := 2, reserveTank := 3, sup := 4, powerBomb := 5,
    spazer := 6, plasma := 7 }

/-- The old step state for the C2 counterexample: the single item
location is already reachable and bireachable. -/
def c2Old : RandomizationStateM :=
  { item_precedence := [],
    item_location_state :=
      [{ placed_item := none, collected := false, reachable := true, bireachable := true,
         bireachable_vertex_id := some 0, difficulty_tier := none }],
    flag_location_state :=
      [{ reachable := false, reachable_vertex_id := none, bireachable := false,
         bireachable_vertex_id := none }],
    save_location_state := [], door_state := [],
    items_remaining := [],
    global_state := { items := [false], flags := [], doorsUnlocked := [] } }

/-- A minimal difficulty configuration for the C7 witness run. -/
def c7Diff : DifficultyM :=
  { progression_rate := .Slow, stop_item_placement_early := false,
    spazer_before_plasma := false, early_filler_items := [], filler_items := [],
    semi_filler_items := [] }

/-- One concrete `step` of the placement engine (trivial shuffles, no
forced mode, fuel 1). -/
def c7Step : RandomizationStateM → RandomizationStateM :=
  stepModel c10Gd c2Oracle c1Ids c7Diff [] id id id false (fun _ => 0) 1 1

/-- The concrete run of successive steps used by the C7 witness. -/
def c7States (k : ℕ) : RandomizationStateM := c7Step^[k] c10State

/-! ## Definitions: pool-accounting views of the selection functions
(extracted verbatim from `select_key_items` and `select_filler_items` so
that the conservation arguments can name their internal buckets). -/

/-- The number of item locations carrying a placed item. -/
def somesCount (ils : List ItemLocationStateM) : ℕ :=
  (ils.filterMap (fun s => s.placed_item)).length

/-- The placed-item column of the item-location states (placement and
collection bookkeeping never touches anything else of it). -/
def placedList (ils : List ItemLocationStateM) : List (Option ItemM) :=
  ils.map (fun s => s.placed_item)

/-- The bucket fold body of `select_key_items` (randomize.rs 3066-3094),
with the state's `items_remaining` abstracted as `remaining`. -/
def keyBucketStep (ids : ItemIdsM) (diff : DifficultyM)
    (initialItemsRemaining remaining : List ℕ)
    (acc : List ItemM × List ItemM × List ItemM) (item : ItemM) :
    List ItemM × List ItemM × List ItemM :=
  if 0 < remaining.getD item 0 ∨
      (diff.stop_item_placement_early ∧ item = ids.nothing) then
    let acc1 :=
      if diff.progression_rate = .Slow then
        (acc.1 ++ [item], acc.2.1, acc.2.2)
      else if remaining.getD item 0 = initialItemsRemaining.getD item 0 then
        (acc.1 ++ [item], acc.2.1, acc.2.2)
      else
        (acc.1, acc.2.1 ++ [item], acc.2.2)
    if 2 ≤ remaining.getD item 0 then
      (acc1.1, acc1.2.1,
        acc1.2.2 ++ List.replicate (remaining.getD item 0 - 1) item)
    else acc1
  else acc

/-- The buckets of `select_key_items`: items at full count / partially
used items / duplicate copies. -/
def keyBuckets (ids : ItemIdsM) (diff : DifficultyM)
    (initialItemsRemaining remaining : List ℕ) (precedence : List ItemM) :
    List ItemM × List ItemM × List ItemM :=
  precedence.foldl (keyBucketStep ids diff initialItemsRemaining remaining) ([], [], [])

/-- `remaining_items` of `select_key_items`: the flattened key pool. -/
def keyPool (ids : ItemIdsM) (diff : DifficultyM)
    (initialItemsRemaining remaining : List ℕ) (precedence : List ItemM) : List ItemM :=
  (keyBuckets ids diff initialItemsRemaining remaining precedence).1 ++
    (keyBuckets ids diff initialItemsRemaining remaining precedence).2.1 ++
    (keyBuckets ids diff initialItemsRemaining remaining precedence).2.2

/-- `cnt_different_items_remaining` of `select_key_items`. -/
def keyCntDifferent (ids : ItemIdsM) (diff : DifficultyM)
    (initialItemsRemaining remaining : List ℕ) (precedence : List ItemM) : ℕ :=
  (keyBuckets ids diff initialItemsRemaining remaining precedence).1.length +
    (keyBuckets ids diff initialItemsRemaining remaining precedence).2.1.length

/-- The bucket fold body of `select_filler_items` (randomize.rs
2984-3020), with `items_remaining` abstracted as `remaining`. -/
def fillerBucketStep (ids : ItemIdsM) (diff : DifficultyM)
    (initialItemsRemaining remaining : List ℕ)
    (acc : List ItemM × List ItemM × List ItemM × List ItemM) (item : ItemM) :
    List ItemM × List ItemM × List ItemM × List ItemM :=
  if item = ids.missile ∨ item = ids.nothing ∨ remaining.getD item 0 = 0 then
    acc
  else if item ∈ diff.early_filler_items ∧
      remaining.getD item 0 = initialItemsRemaining.getD item 0 then
    (acc.1 ++ [item], acc.2.1 ++ [item], acc.2.2.1, acc.2.2.2)
  else if item ∈ diff.filler_items ∨ (item ∈ diff.semi_filler_items ∧
      remaining.getD item 0 < initialItemsRemaining.getD item 0) then
    (acc.1, acc.2.1 ++ [item], acc.2.2.1, acc.2.2.2)
  else if item ∈ [ids.etank, ids.reserveTank, ids.sup, ids.powerBomb] then
    (acc.1, acc.2.1, acc.2.2.1 ++ [item], acc.2.2.2)
  else
    (acc.1, acc.2.1, acc.2.2.1, acc.2.2.2 ++ [item])

/-- The buckets of `select_filler_items`: early filler / mix sources /
delayed expansion items / extra-delayed items. -/
def fillerBuckets (ids : ItemIdsM) (diff : DifficultyM)
    (initialItemsRemaining remaining : List ℕ) (precedence : List ItemM) :
    List ItemM × List ItemM × List ItemM × List ItemM :=
  precedence.foldl (fillerBucketStep ids diff initialItemsRemaining remaining)
    ([], [ids.missile, ids.nothing], [], [])

/-- The full filler list of `select_filler_items` before the final
`take`. -/
def fillerItemsAll (ids : ItemIdsM) (diff : DifficultyM)
    (initialItemsRemaining remaining : List ℕ)
    (shuffleMix : List ItemM → List ItemM) (precedence : List ItemM) : List ItemM :=
  let buckets := fillerBuckets ids diff initialItemsRemaining remaining precedence
  let itemsToMix := (buckets.2.1.map (fun item =>
    List.replicate (remaining.getD item 0 -
      (if item ∈ buckets.1 then 1 else 0)) item)).flatten
  let itemsToDelay := (buckets.2.2.1.map (fun item =>
    List.replicate (remaining.getD item 0) item)).flatten
  let itemsToExtraDelay := (buckets.2.2.2.map (fun item =>
    List.replicate (remaining.getD item 0)
      (if diff.stop_item_placement_early then ids.nothing else item))).flatten
  let itemsToPlace :=
    buckets.1 ++ shuffleMix itemsToMix ++ itemsToDelay ++ itemsToExtraDelay
  if diff.spazer_before_plasma then applySpazerPlasma ids itemsToPlace else itemsToPlace

/-- The invariant of the `select_key_items` bucket fold: the two
one-copy buckets are duplicate-free and disjoint, hold only items with a
positive count, and the duplicate bucket holds at most `count - 1`
copies of an item, none for untouched items. -/
def KeyInv (remaining : List ℕ) (acc : List ItemM × List ItemM × List ItemM) : Prop :=
  acc.1.Nodup ∧ acc.2.1.Nodup ∧
  (∀ x ∈ acc.1, x ∉ acc.2.1 ∧ 0 < remaining.getD x 0) ∧
  (∀ x ∈ acc.2.1, 0 < remaining.getD x 0) ∧
  (∀ x, acc.2.2.count x ≤ remaining.getD x 0 - 1) ∧
  (∀ x, x ∉ acc.1 → x ∉ acc.2.1 → acc.2.2.count x = 0)

/-- The invariant of the `select_filler_items` bucket fold: each bucket
is duplicate-free, the early bucket is contained in the mix bucket and
holds only positive-count items, and the mix / delay / extra-delay
buckets are pairwise disjoint. -/
def FillerInv (remaining : List ℕ)
    (acc : List ItemM × List ItemM × List ItemM × List ItemM) : Prop :=
  acc.1.Nodup ∧ acc.2.1.Nodup ∧ acc.2.2.1.Nodup ∧ acc.2.2.2.Nodup ∧
  (∀ x ∈ acc.1, x ∈ acc.2.1 ∧ 0 < remaining.getD x 0) ∧
  (∀ x ∈ acc.2.1, x ∉ acc.2.2.1 ∧ x ∉ acc.2.2.2) ∧
  (∀ x ∈ acc.2.2.1, x ∉ acc.2.2.2)

/-- The side conditions under which one `step` conserves the item pool:
no stop-early, the static vertex-id table as long as the location table,
the abstracted shuffles are permutations (`rng.shuffle` is one), distinct
Missile/Nothing ids and a duplicate-free precedence order (the source
shuffles a list of distinct items), the key-item count within the pool
(the source would panic on the out-of-range index otherwise), enough
attempt fuel for the bounded retry loop, and in-range hard-swap indices
(`find_hard_location` returns indices into the remaining list). -/
def StepOk (gd : GameStaticData) (oracle : ReachOracle) (ids : ItemIdsM)
    (diff : DifficultyM) (init : List ℕ) (shuffleMix : List ItemM → List ItemM)
    (shuffleBireach shuffleOneway : List ℕ → List ℕ) (hardIdx : ℕ → ℕ)
    (closureFuel attemptFuel : ℕ) (s : RandomizationStateM) : Prop :=
  diff.stop_item_placement_early = false ∧
  gd.item_vertex_ids.length = s.item_location_state.length ∧
  (∀ l, (shuffleBireach l).Perm l) ∧
  (∀ l, (shuffleOneway l).Perm l) ∧
  (∀ l, (shuffleMix l).Perm l) ∧
  ids.missile ≠ ids.nothing ∧
  s.item_precedence.Nodup ∧
  (let state1 := closureLoop gd oracle closureFuel s
   let ub := shuffleBireach ((state1.item_location_state.enum.filter
     (fun p => p.2.placed_item.isNone && p.2.bireachable)).map (fun p => p.1))
   let uo := shuffleOneway ((state1.item_location_state.enum.filter
     (fun p => p.2.placed_item.isNone && !p.2.bireachable && p.2.reachable)).map
       (fun p => p.1))
   let split := determineItemSplit diff init state1 ub.length uo.length
   let nsfRem := decrementItems state1.items_remaining
     (selectFillerItems ids diff init state1 shuffleMix (ub.length - split.1)
       (split.2 - (ub.length - split.1)))
   split.1 ≤ (keyPool ids diff init nsfRem state1.item_precedence).length ∧
   keyCntDifferent ids diff init nsfRem state1.item_precedence + 2 ≤ attemptFuel ∧
   (∀ m < split.1, m + hardIdx m < ub.length))

/-- The difficulty configuration of the stop-early conservation
counterexample. -/
def c1Diff : DifficultyM :=
  { progression_rate := .Slow, stop_item_placement_early := true,
    spazer_before_plasma := false, early_filler_items := [], filler_items := [],
    semi_filler_items := [] }

/-- Static data with a single item location at vertex 0 and no flags. -/
def c1Gd : GameStaticData :=
  { item_vertex_ids := [[0]], flag_vertex_ids := [], locked_door_vertex_ids := [],
    save_vertex_ids := [], flag_ids := [], mother_brain_defeated_flag_id := 0 }

/-- An oracle that never reports reachability (every tentative selection
is rejected). -/
def c1Oracle : ReachOracle :=
  { fwdFinite := fun _ _ => false, biOk := fun _ _ => false }

/-- A state with one empty bireachable location, one key item (id 2)
remaining and no Nothing items left. -/
def c1StepState : RandomizationStateM :=
  { item_precedence := [2],
    item_location_state :=
      [{ placed_item := none, collected := false, reachable := true, bireachable := true,
         bireachable_vertex_id := some 0, difficulty_tier := none }],
    flag_location_state := [], save_location_state := [], door_state := [],
    items_remaining := [0, 0, 1],
    global_state := { items := [false, false, false], flags := [], doorsUnlocked := [] } }

/-- One stop-early step on `c1StepState`: the exhausted key selection is
forced to Nothing, which is placed without a matching decrement. -/
def c1StepOut : RandomizationStateM :=
  stepModel c1Gd c1Oracle c1Ids c1Diff [0, 0, 1] id id id false (fun _ => 0) 1 2 c1StepState

/-- The difficulty configuration of the conservation witness run (no
stop-early). -/
def c1RunDiff : DifficultyM :=
  { progression_rate := .Slow, stop_item_placement_early := false,
    spazer_before_plasma := false, early_filler_items := [], filler_items := [],
    semi_filler_items := [] }

/-- An oracle that always reports reachability (the first tentative
selection is accepted). -/
def c1RunOracle : ReachOracle :=
  { fwdFinite := fun _ _ => true, biOk := fun _ _ => true }

/-- The start state of the conservation witness run. -/
def c1RunState : RandomizationStateM :=
  { item_precedence := [2],
    item_location_state :=
      [{ placed_item := none, collected := false, reachable := true, bireachable := true,
         bireachable_vertex_id := some 0, difficulty_tier := none }],
    flag_location_state := [], save_location_state := [], door_state := [],
    items_remaining := [0, 0, 1],
    global_state := { items := [false, false, false], flags := [], doorsUnlocked := [] } }

/-- The states of the one-step conservation witness run. -/
def c1Run : ℕ → RandomizationStateM
  | 0 => c1RunState
  | _ + 1 => stepModel c1Gd c1RunOracle c1Ids c1RunDiff [0, 0, 1] id id id false
      (fun _ => 0) 1 3 c1RunState

/-! ## Theorems -/

/-- On the first branch, frames are at most the value at the breakpoint `t = 7`. -/
lemma runFrames_piece1_le (t : ℚ) (h : t ≤ 7) : (⌈9 + 4 * t⌉ : ℤ) ≤ 37 := by
  rw [Int.ceil_le]
  push_cast
  linarith

lemma runFrames_piece2_ge (t : ℚ) (h : 7 < t) : (37 : ℤ) ≤ ⌈15 + 3 * t⌉ := by
  have : (36 : ℤ) < ⌈15 + 3 * t⌉ := by
    rw [Int.lt_ceil]
    push_cast
    linarith
  omega

lemma runFrames_piece2_le (t : ℚ) (h : t ≤ 16) : (⌈15 + 3 * t⌉ : ℤ) ≤ 63 := by
  rw [Int.ceil_le]
  push_cast
  linarith

lemma runFrames_piece3_ge (t : ℚ) (h : 16 < t) : (63 : ℤ) ≤ ⌈32 + 2 * t⌉ := by
  have : (62 : ℤ) < ⌈32 + 2 * t⌉ := by
    rw [Int.lt_ceil]
    push_cast
    linarith
  omega

lemma runFrames_piece3_le (t : ℚ) (h : t ≤ 42) : (⌈32 + 2 * t⌉ : ℤ) ≤ 116 := by
  rw [Int.ceil_le]
  push_cast
  linarith

lemma runFrames_piece4_ge (t : ℚ) (h : 42 < t) : (116 : ℤ) ≤ ⌈47 + 64 / 39 * t⌉ := by
  have : (115 : ℤ) < ⌈47 + 64 / 39 * t⌉ := by
    rw [Int.lt_ceil]
    push_cast
    linarith
  omega

lemma computeRunFrames_mono {t₁ t₂ : ℚ} (_h0 : 0 ≤ t₁) (h12 : t₁ ≤ t₂) :
    computeRunFrames t₁ ≤ computeRunFrames t₂ := by
  unfold computeRunFrames
  by_cases ha1 : t₁ ≤ 7
  · by_cases hb1 : t₂ ≤ 7
    · simp only [if_pos ha1, if_pos hb1]
      exact Int.ceil_le_ceil (by linarith)
    · push_neg at hb1
      by_cases hb2 : t₂ ≤ 16
      · simp only [if_pos ha1, if_neg (not_le.mpr hb1), if_pos hb2]
        exact le_trans (runFrames_piece1_le t₁ ha1) (runFrames_piece2_ge t₂ hb1)
      · push_neg at hb2
        by_cases hb3 : t₂ ≤ 42
        · simp only [if_pos ha1, if_neg (not_le.mpr hb1), if_neg (not_le.mpr hb2), if_pos hb3]
          refine le_trans (runFrames_piece1_le t₁ ha1) (le_trans ?_ (runFrames_piece3_ge t₂ hb2))
          norm_num
        · push_neg at hb3
          simp only [if_pos ha1, if_neg (not_le.mpr hb1), if_neg (not_le.mpr hb2),
            if_neg (not_le.mpr hb3)]
          refine le_trans (runFrames_piece1_le t₁ ha1) (le_trans ?_ (runFrames_piece4_ge t₂ hb3))
          norm_num
  · push_neg at ha1
    have hb1 : ¬ t₂ ≤ 7 := not_le.mpr (lt_of_lt_of_le ha1 h12)
    by_cases ha2 : t₁ ≤ 16
    · by_cases hb2 : t₂ ≤ 16
      · simp only [if_neg (not_le.mpr ha1), if_pos ha2, if_neg hb1, if_pos hb2]
        exact Int.ceil_le_ceil (by linarith)
      · push_neg at hb2
        by_cases hb3 : t₂ ≤ 42
        · simp only [if_neg (not_le.mpr ha1), if_pos ha2, if_neg hb1,
            if_neg (not_le.mpr hb2), if_pos hb3]
          exact le_trans (runFrames_piece2_le t₁ ha2) (runFrames_piece3_ge t₂ hb2)
        · push_neg at hb3
          simp only [if_neg (not_le.mpr ha1), if_pos ha2, if_neg hb1,
            if_neg (not_le.mpr hb2), if_neg (not_le.mpr hb3)]
          refine le_trans (runFrames_piece2_le t₁ ha2) (le_trans ?_ (runFrames_piece4_ge t₂ hb3))
          norm_num
    · push_neg at ha2
      have hb2 : ¬ t₂ ≤ 16 := not_le.mpr (lt_of_lt_of_le ha2 h12)
      by_cases ha3 : t₁ ≤ 42
      · by_cases hb3 : t₂ ≤ 42
        · simp only [if_neg (not_le.mpr ha1), if_neg (not_le.mpr ha2), if_pos ha3,
            if_neg hb1, if_neg hb2, if_pos hb3]
          exact Int.ceil_le_ceil (by linarith)
        · push_neg at hb3
          simp only [if_neg (not_le.mpr ha1), if_neg (not_le.mpr ha2), if_pos ha3,
            if_neg hb1, if_neg hb2, if_neg (not_le.mpr hb3)]
          exact le_trans (runFrames_piece3_le t₁ ha3) (runFrames_piece4_ge t₂ hb3)
      · push_neg at ha3
        have hb3 : ¬ t₂ ≤ 42 := not_le.mpr (lt_of_lt_of_le ha3 h12)
        simp only [if_neg (not_le.mpr ha1), if_neg (not_le.mpr ha2), if_neg (not_le.mpr ha3),
          if_neg hb1, if_neg hb2, if_neg hb3]
        exact Int.ceil_le_ceil (by nlinarith)

/-- **C8.** `compute_run_frames` is non-decreasing in `t ≥ 0` and coincides with
`⌈9 + 4t⌉` on `[0, 7]`, `⌈15 + 3t⌉` on `(7, 16]`, `⌈32 + 2t⌉` on `(16, 42]`,
and `⌈47 + 64t/39⌉` above `42`. -/
theorem compute_run_frames_piecewise_monotone :
    (∀ t : ℚ, 0 ≤ t → t ≤ 7 → computeRunFrames t = ⌈9 + 4 * t⌉) ∧
    (∀ t : ℚ, 7 < t → t ≤ 16 → computeRunFrames t = ⌈15 + 3 * t⌉) ∧
    (∀ t : ℚ, 16 < t → t ≤ 42 → computeRunFrames t = ⌈32 + 2 * t⌉) ∧
    (∀ t : ℚ, 42 < t → computeRunFrames t = ⌈47 + 64 / 39 * t⌉) ∧
    (∀ t₁ t₂ : ℚ, 0 ≤ t₁ → t₁ ≤ t₂ → computeRunFrames t₁ ≤ computeRunFrames t₂) := by
  refine ⟨?_, ?_, ?_, ?_, ?_⟩
  · intro t _ h7
    simp [computeRunFrames, if_pos h7]
  · intro t h7 h16
    simp [computeRunFrames, if_neg (not_le.mpr h7), if_pos h16]
  · intro t h16 h42
    have h7 : ¬ t ≤ 7 := by push_neg; linarith
    simp [computeRunFrames, if_neg h7, if_neg (not_le.mpr h16), if_pos h42]
  · intro t h42
    have h7 : ¬ t ≤ 7 := by push_neg; linarith
    have h16 : ¬ t ≤ 16 := by push_neg; linarith
    simp [computeRunFrames, if_neg h7, if_neg h16, if_neg (not_le.mpr h42)]
  · intro t₁ t₂ h0 h12
    exact computeRunFrames_mono h0 h12

/-- Witness for C8 at concrete inputs: `t = 3` is on the first piece and
monotonicity holds between `3` and `20`. -/
theorem compute_run_frames_piecewise_monotone_witness :
    computeRunFrames 3 = ⌈(9 : ℚ) + 4 * 3⌉ ∧ computeRunFrames 3 ≤ computeRunFrames 20 := by
  constructor
  · exact compute_run_frames_piecewise_monotone.1 3 (by norm_num) (by norm_num)
  · exact compute_run_frames_piecewise_monotone.2.2.2.2 3 20 (by norm_num) (by norm_num)

/-- **C9.** For nonnegative runway lengths `a`, `b` with `L = a + b`: when
`L > 31.3` the result is `(compute_run_frames a, compute_run_frames L -
compute_run_frames a)`; when `L ≤ 31.3` the two components sum to 85.
This holds for every interpretation `sqrtFn` of the `f32::sqrt` primitive. -/
theorem compute_shinecharge_frames_spec (sqrtFn : ℚ → ℚ) (a b : ℚ)
    (_ha : 0 ≤ a) (_hb : 0 ≤ b) :
    (313 / 10 < a + b →
      computeShinechargeFrames sqrtFn a b =
        (computeRunFrames a, computeRunFrames (a + b) - computeRunFrames a)) ∧
    (a + b ≤ 313 / 10 →
      (computeShinechargeFrames sqrtFn a b).1 + (computeShinechargeFrames sqrtFn a b).2 = 85) := by
  constructor
  · intro h
    simp [computeShinechargeFrames, if_pos h]
  · intro h
    simp [computeShinechargeFrames, if_neg (not_lt.mpr h)]

/-- Witness for C9: at `a = 40, b = 10` the long branch applies, and at
`a = 1, b = 1` the short branch components sum to 85 (with `sqrtFn = id`). -/
theorem compute_shinecharge_frames_spec_witness :
    computeShinechargeFrames id 40 10 =
      (computeRunFrames 40, computeRunFrames (40 + 10) - computeRunFrames 40) ∧
    (computeShinechargeFrames id 1 1).1 + (computeShinechargeFrames id 1 1).2 = 85 := by
  constructor
  · exact (compute_shinecharge_frames_spec id 40 10 (by norm_num) (by norm_num)).1 (by norm_num)
  · exact (compute_shinecharge_frames_spec id 1 1 (by norm_num) (by norm_num)).2 (by norm_num)

lemma selectDoorsLoop_length_le (g : DoorPtrPairM → TileLoc)
    (l : List (DoorTypeM × DoorPtrPairM × DoorPtrPairM)) (st : DoorSelState) :
    (selectDoorsLoop g l st).lockedDoors.length ≤ st.lockedDoors.length + l.length := by
  induction l generalizing st with
  | nil => simp [selectDoorsLoop]
  | cons x rest ih =>
    obtain ⟨dt, conn⟩ := x
    simp only [selectDoorsLoop]
    split_ifs with h1 h2 hb
    · exact le_trans (ih st) (by simp)
    · exact le_trans (ih st) (by simp)
    · refine le_trans (ih _) ?_
      simp only [List.length_append, List.length_cons, List.length_nil]
      omega
    · refine le_trans (ih _) ?_
      simp only [List.length_append, List.length_cons, List.length_nil]
      omega

lemma selectDoorsLoop_count_le (g : DoorPtrPairM → TileLoc) (dt₀ : DoorTypeM)
    (l : List (DoorTypeM × DoorPtrPairM × DoorPtrPairM)) (st : DoorSelState) :
    ((selectDoorsLoop g l st).lockedDoors.map (fun d => d.door_type)).count dt₀ ≤
      (st.lockedDoors.map (fun d => d.door_type)).count dt₀ +
        (l.map (fun x => x.1)).count dt₀ := by
  induction l generalizing st with
  | nil => simp [selectDoorsLoop]
  | cons x rest ih =>
    obtain ⟨dt, conn⟩ := x
    simp only [selectDoorsLoop]
    split_ifs with h1 h2 hb
    · refine le_trans (ih st) ?_
      simp only [List.map_cons, List.count_cons]
      omega
    · refine le_trans (ih st) ?_
      simp only [List.map_cons, List.count_cons]
      omega
    · refine le_trans (ih _) ?_
      simp only [List.map_cons, List.count_cons, List.map_append, List.count_append,
        List.map_nil, List.count_nil]
      omega
    · refine le_trans (ih _) ?_
      simp only [List.map_cons, List.count_cons, List.map_append, List.count_append,
        List.map_nil, List.count_nil]
      omega

lemma selectDoorsLoop_no_skip (g : DoorPtrPairM → TileLoc)
    (l : List (DoorTypeM × DoorPtrPairM × DoorPtrPairM)) (st : DoorSelState)
    (hnb : ∀ x ∈ l, x.1.isBeam = false)
    (hnodup : (connLocs g l).Nodup)
    (hfresh : ∀ loc ∈ connLocs g l, loc ∉ st.usedLocs) :
    (selectDoorsLoop g l st).lockedDoors =
      st.lockedDoors ++ l.map (fun x =>
        { src_ptr_pair := x.2.1, dst_ptr_pair := x.2.2, door_type := x.1,
          bidirectional := true }) := by
  induction l generalizing st with
  | nil => simp [selectDoorsLoop]
  | cons x rest ih =>
    obtain ⟨dt, conn⟩ := x
    have hsrc : g conn.1 ∉ st.usedLocs := hfresh _ (by simp [connLocs])
    have hdst : g conn.2 ∉ st.usedLocs := hfresh _ (by simp [connLocs])
    have hbeam : dt.isBeam = false := hnb (dt, conn) (List.mem_cons_self _ _)
    simp only [selectDoorsLoop]
    rw [if_neg (by push_neg; exact ⟨hsrc, hdst⟩), if_neg (by simp [hbeam])]
    have hnodup' : (connLocs g rest).Nodup := by
      simp only [connLocs, List.nodup_cons] at hnodup
      exact hnodup.2.2
    have hne1 : g conn.1 ∉ connLocs g rest := by
      simp only [connLocs, List.nodup_cons, List.mem_cons] at hnodup
      exact fun hmem => hnodup.1 (Or.inr hmem)
    have hne2 : g conn.2 ∉ connLocs g rest := by
      simp only [connLocs, List.nodup_cons] at hnodup
      exact hnodup.2.1
    have hfresh' : ∀ loc ∈ connLocs g rest, loc ∉ (g conn.2 :: g conn.1 :: st.usedLocs) := by
      intro loc hloc
      simp only [List.mem_cons]
      push_neg
      refine ⟨?_, ?_, hfresh loc (List.mem_cons_of_mem _ (List.mem_cons_of_mem _ hloc))⟩
      · intro hcontra
        exact hne2 (hcontra ▸ hloc)
      · intro hcontra
        exact hne1 (hcontra ▸ hloc)
    rw [ih _ (fun x hx => hnb x (List.mem_cons_of_mem _ hx)) hnodup' hfresh']
    simp

lemma selectDoorsLoop_mem (g : DoorPtrPairM → TileLoc)
    (l : List (DoorTypeM × DoorPtrPairM × DoorPtrPairM)) (st : DoorSelState) :
    ∀ d ∈ (selectDoorsLoop g l st).lockedDoors,
      d ∈ st.lockedDoors ∨ ∃ x ∈ l,
        d = { src_ptr_pair := x.2.1, dst_ptr_pair := x.2.2, door_type := x.1,
              bidirectional := true } := by
  induction l generalizing st with
  | nil =>
    intro d hd
    exact Or.inl hd
  | cons x rest ih =>
    obtain ⟨dt, conn⟩ := x
    intro d hd
    simp only [selectDoorsLoop] at hd
    split_ifs at hd with h1 h2 hb
    · rcases ih st d hd with h | ⟨y, hy, rfl⟩
      · exact Or.inl h
      · exact Or.inr ⟨y, List.mem_cons_of_mem _ hy, rfl⟩
    · rcases ih st d hd with h | ⟨y, hy, rfl⟩
      · exact Or.inl h
      · exact Or.inr ⟨y, List.mem_cons_of_mem _ hy, rfl⟩
    · rcases ih _ d hd with h | ⟨y, hy, rfl⟩
      · rcases List.mem_append.mp h with h | h
        · exact Or.inl h
        · simp only [List.mem_singleton] at h
          exact Or.inr ⟨(dt, conn), List.mem_cons_self _ _, h⟩
      · exact Or.inr ⟨y, List.mem_cons_of_mem _ hy, rfl⟩
    · rcases ih _ d hd with h | ⟨y, hy, rfl⟩
      · rcases List.mem_append.mp h with h | h
        · exact Or.inl h
        · simp only [List.mem_singleton] at h
          exact Or.inr ⟨(dt, conn), List.mem_cons_self _ _, h⟩
      · exact Or.inr ⟨y, List.mem_cons_of_mem _ hy, rfl⟩

lemma selectDoorsLoop_locDisjoint_aux (g : DoorPtrPairM → TileLoc)
    (l : List (DoorTypeM × DoorPtrPairM × DoorPtrPairM)) :
    ∀ st : DoorSelState,
      (∀ d ∈ st.lockedDoors, ∀ loc ∈ doorLocs g d, loc ∈ st.usedLocs) →
      st.lockedDoors.Pairwise (LocDisjoint g) →
      ((selectDoorsLoop g l st).lockedDoors.Pairwise (LocDisjoint g) ∧
        ∀ d ∈ (selectDoorsLoop g l st).lockedDoors, ∀ loc ∈ doorLocs g d,
          loc ∈ (selectDoorsLoop g l st).usedLocs) := by
  induction l with
  | nil =>
    intro st hinv hpw
    exact ⟨hpw, hinv⟩
  | cons x rest ih =>
    obtain ⟨dt, conn⟩ := x
    intro st hinv hpw
    simp only [selectDoorsLoop]
    split_ifs with h1 h2 hb
    · exact ih st hinv hpw
    · exact ih st hinv hpw
    all_goals {
      push_neg at h1
      apply ih
      · intro d hd loc hloc
        rcases List.mem_append.mp hd with hd | hd
        · exact List.mem_cons_of_mem _ (List.mem_cons_of_mem _ (hinv d hd loc hloc))
        · simp only [List.mem_singleton] at hd
          subst hd
          simp only [doorLocs, List.mem_cons, List.mem_singleton] at hloc
          rcases hloc with rfl | rfl | hfalse
          · simp
          · simp
          · exact absurd hfalse (List.not_mem_nil _)
      · rw [List.pairwise_append]
        refine ⟨hpw, List.pairwise_singleton _ _, ?_⟩
        intro d hd d' hd'
        simp only [List.mem_singleton] at hd'
        subst hd'
        intro loc hloc hloc'
        have hused : loc ∈ st.usedLocs := hinv d hd loc hloc
        simp only [doorLocs, List.mem_cons, List.mem_singleton] at hloc'
        rcases hloc' with rfl | rfl | hfalse
        · exact h1.1 hused
        · exact h1.2 hused
        · exact absurd hfalse (List.not_mem_nil _)
    }

lemma selectDoorsLoop_beamDisjoint_aux (g : DoorPtrPairM → TileLoc)
    (l : List (DoorTypeM × DoorPtrPairM × DoorPtrPairM)) :
    ∀ st : DoorSelState,
      (∀ d ∈ st.lockedDoors, d.door_type.isBeam = true →
        ∀ r ∈ doorRooms g d, r ∈ st.usedBeamRooms) →
      st.lockedDoors.Pairwise (fun d₁ d₂ =>
        d₁.door_type.isBeam = true → d₂.door_type.isBeam = true → RoomDisjoint g d₁ d₂) →
      ((selectDoorsLoop g l st).lockedDoors.Pairwise (fun d₁ d₂ =>
        d₁.door_type.isBeam = true → d₂.door_type.isBeam = true → RoomDisjoint g d₁ d₂) ∧
        ∀ d ∈ (selectDoorsLoop g l st).lockedDoors, d.door_type.isBeam = true →
          ∀ r ∈ doorRooms g d, r ∈ (selectDoorsLoop g l st).usedBeamRooms) := by
  induction l with
  | nil =>
    intro st hinv hpw
    exact ⟨hpw, hinv⟩
  | cons x rest ih =>
    obtain ⟨dt, conn⟩ := x
    intro st hinv hpw
    simp only [selectDoorsLoop]
    split_ifs with h1 h2 hb
    · exact ih st hinv hpw
    · exact ih st hinv hpw
    · apply ih
      · intro d hd hbeam r hr
        rcases List.mem_append.mp hd with hd | hd
        · exact List.mem_cons_of_mem _ (List.mem_cons_of_mem _ (hinv d hd hbeam r hr))
        · simp only [List.mem_singleton] at hd
          subst hd
          simp only [doorRooms, List.mem_cons, List.mem_singleton] at hr
          rcases hr with rfl | rfl | hfalse
          · simp
          · simp
          · exact absurd hfalse (List.not_mem_nil _)
      · rw [List.pairwise_append]
        refine ⟨hpw, List.pairwise_singleton _ _, ?_⟩
        intro d hd d' hd'
        simp only [List.mem_singleton] at hd'
        subst hd'
        intro hbeamd hbeamd' r hr hr'
        have hnotmem : ¬((g conn.1).1 ∈ st.usedBeamRooms ∨ (g conn.2).1 ∈ st.usedBeamRooms) :=
          fun hmem => h2 ⟨hb, hmem⟩
        push_neg at hnotmem
        have hused : r ∈ st.usedBeamRooms := hinv d hd hbeamd r hr
        simp only [doorRooms, List.mem_cons, List.mem_singleton] at hr'
        rcases hr' with rfl | rfl | hfalse
        · exact hnotmem.1 hused
        · exact hnotmem.2 hused
        · exact absurd hfalse (List.not_mem_nil _)
    · apply ih
      · intro d hd hbeam r hr
        rcases List.mem_append.mp hd with hd | hd
        · exact hinv d hd hbeam r hr
        · simp only [List.mem_singleton] at hd
          subst hd
          simp only at hbeam
          exact absurd hbeam (by simp [hb])
      · rw [List.pairwise_append]
        refine ⟨hpw, List.pairwise_singleton _ _, ?_⟩
        intro d hd d' hd'
        simp only [List.mem_singleton] at hd'
        subst hd'
        intro _ hbeamd'
        simp only at hbeamd'
        exact absurd hbeamd' (by simp [hb])

lemma mem_getRandomizableDoors_not_deny {roomDoors : List GeometryDoor}
    {objectives : List ObjectiveM} {p : DoorPtrPairM}
    (hp : p ∈ getRandomizableDoors roomDoors objectives) :
    p ∉ nonRandomizableDoors objectives := by
  simp only [getRandomizableDoors, List.mem_map, List.mem_filter] at hp
  obtain ⟨d, ⟨_, hcond⟩, rfl⟩ := hp
  have h2 := (Bool.and_eq_true _ _).mp hcond |>.2
  simpa using h2

lemma mem_conns_endpoints {mapDoors : List (DoorPtrPairM × DoorPtrPairM × Bool)}
    {roomDoors : List GeometryDoor} {objectives : List ObjectiveM}
    {c : DoorPtrPairM × DoorPtrPairM}
    (hc : c ∈ getRandomizableDoorConnections mapDoors roomDoors objectives) :
    c.1 ∈ getRandomizableDoors roomDoors objectives ∧
    c.2 ∈ getRandomizableDoors roomDoors objectives := by
  simp only [getRandomizableDoorConnections, List.mem_map, List.mem_filter] at hc
  obtain ⟨md, ⟨_, hcond⟩, rfl⟩ := hc
  have h1 := (Bool.and_eq_true _ _).mp hcond |>.1
  have h2 := (Bool.and_eq_true _ _).mp hcond |>.2
  exact ⟨by simpa using h1, by simpa using h2⟩

lemma mem_doorsToProcess_conn {doorConns : List (DoorPtrPairM × DoorPtrPairM)}
    {doorTypes : List DoorTypeM} {idxs : List ℕ}
    (hidx : ∀ i ∈ idxs, i < doorConns.length)
    {x : DoorTypeM × DoorPtrPairM × DoorPtrPairM}
    (hx : x ∈ doorsToProcess doorConns doorTypes idxs) :
    x.2 ∈ doorConns := by
  obtain ⟨dt, conn⟩ := x
  have hconn : conn ∈ idxs.map (fun i => doorConns.getD i ((none, none), (none, none))) :=
    (List.of_mem_zip hx).2
  simp only [List.mem_map] at hconn
  obtain ⟨i, hi, rfl⟩ := hconn
  have hlt := hidx i hi
  rw [List.getD_eq_getElem _ _ hlt]
  exact List.getElem_mem _

/-- **C5.** In the `LockedDoorData` produced by `randomize_doors`: no map
tile (keyed on `(room_idx, x, y)`) holds endpoints of two distinct
ammo-type locked doors; no room holds endpoints of two distinct beam-type
locked doors; and no locked door lies on a door pair of the explicit
deny-list (gray, save, map, refill, pants and item-adjacent doors, plus
objective-marked tiles).  `idxs` ranges over any index sequence produced
by `rand::seq::index::sample` (all indices in range). -/
theorem door_lock_exclusions (getLoc : DoorPtrPairM → TileLoc)
    (mapDoors : List (DoorPtrPairM × DoorPtrPairM × Bool)) (roomDoors : List GeometryDoor)
    (objectives : List ObjectiveM) (doorTypes : List DoorTypeM) (idxs : List ℕ)
    (hidx : ∀ i ∈ idxs,
      i < (getRandomizableDoorConnections mapDoors roomDoors objectives).length) :
    AmmoTileExclusion getLoc (randomizeDoorsLockedDoors getLoc
      (getRandomizableDoorConnections mapDoors roomDoors objectives) doorTypes idxs) ∧
    BeamRoomExclusion getLoc (randomizeDoorsLockedDoors getLoc
      (getRandomizableDoorConnections mapDoors roomDoors objectives) doorTypes idxs) ∧
    DenyListExclusion objectives (randomizeDoorsLockedDoors getLoc
      (getRandomizableDoorConnections mapDoors roomDoors objectives) doorTypes idxs) := by
  refine ⟨?_, ?_, ?_⟩
  · have hfull := (selectDoorsLoop_locDisjoint_aux getLoc
      (doorsToProcess (getRandomizableDoorConnections mapDoors roomDoors objectives)
        doorTypes idxs)
      { usedLocs := [], usedBeamRooms := [], lockedDoors := [] }
      (by intro d hd; exact absurd hd (List.not_mem_nil _))
      List.Pairwise.nil).1
    exact hfull.imp (fun h _ _ => h)
  · exact (selectDoorsLoop_beamDisjoint_aux getLoc _
      { usedLocs := [], usedBeamRooms := [], lockedDoors := [] }
      (by intro d hd; exact absurd hd (List.not_mem_nil _))
      List.Pairwise.nil).1
  · intro d hd
    rcases selectDoorsLoop_mem getLoc _ _ d hd with h | ⟨x, hx, rfl⟩
    · exact absurd h (List.not_mem_nil _)
    · have hconn := mem_doorsToProcess_conn hidx hx
      have hends := mem_conns_endpoints hconn
      exact ⟨mem_getRandomizableDoors_not_deny hends.1,
        mem_getRandomizableDoors_not_deny hends.2⟩

/-- Witness for C5 at a concrete instance: one map connection between two
randomizable doors, one red lock requested. -/
theorem door_lock_exclusions_witness :
    AmmoTileExclusion allDistinctGetLoc (randomizeDoorsLockedDoors allDistinctGetLoc
      (getRandomizableDoorConnections c5MapDoors c5RoomDoors []) [.Red] [0]) ∧
    BeamRoomExclusion allDistinctGetLoc (randomizeDoorsLockedDoors allDistinctGetLoc
      (getRandomizableDoorConnections c5MapDoors c5RoomDoors []) [.Red] [0]) ∧
    DenyListExclusion [] (randomizeDoorsLockedDoors allDistinctGetLoc
      (getRandomizableDoorConnections c5MapDoors c5RoomDoors []) [.Red] [0]) :=
  door_lock_exclusions allDistinctGetLoc c5MapDoors c5RoomDoors [] [.Red] [0] (by decide)

/-- Counterexample to C6 as stated: a valid 55-index sample over 55
randomizable connections in Ammo mode on which `randomize_doors` returns
only 54 locked doors, because the second sampled connection shares a map
tile with the first and is skipped. -/
theorem randomize_doors_exact_count_counterexample :
    (List.range 55).Nodup ∧ (∀ i ∈ List.range 55, i < cexConns.length) ∧
    (List.range 55).length = ammoDoorTypes.length ∧
    (randomizeDoorsLockedDoors cexGetLoc cexConns ammoDoorTypes (List.range 55)).length = 54 :=
  ⟨by decide, by decide, by decide, by decide⟩

/-- **C6 (amended).** In Ammo mode, `randomize_doors` returns at most 55
locked doors with at most 30 red, 15 green and 10 yellow; the counts are
exactly 55 = 30 + 15 + 10 when no sampled connection is skipped, i.e. when
the sampled connections' map tiles are pairwise distinct.  (Determinism —
identical inputs giving identical output — holds because the embedding is
a pure function of `(doorConns, idxs)`.) -/
theorem randomize_doors_ammo_counts (getLoc : DoorPtrPairM → TileLoc)
    (doorConns : List (DoorPtrPairM × DoorPtrPairM)) (idxs : List ℕ)
    (hlen : idxs.length = 55) :
    AmmoCountBounds (randomizeDoorsLockedDoors getLoc doorConns ammoDoorTypes idxs) ∧
    ((connLocs getLoc (doorsToProcess doorConns ammoDoorTypes idxs)).Nodup →
      AmmoCountExact (randomizeDoorsLockedDoors getLoc doorConns ammoDoorTypes idxs)) := by
  have hammo : ammoDoorTypes.length = 55 := by decide
  have hlenproc : (doorsToProcess doorConns ammoDoorTypes idxs).length = 55 := by
    simp [doorsToProcess, hlen, hammo]
  have hmapfst : (doorsToProcess doorConns ammoDoorTypes idxs).map Prod.fst = ammoDoorTypes := by
    apply List.map_fst_zip
    simp [hlen, hammo]
  constructor
  · have hcount : ∀ dt₀ : DoorTypeM,
        ((randomizeDoorsLockedDoors getLoc doorConns ammoDoorTypes idxs).map
          (fun d => d.door_type)).count dt₀ ≤ ammoDoorTypes.count dt₀ := by
      intro dt₀
      have h := selectDoorsLoop_count_le getLoc dt₀
        (doorsToProcess doorConns ammoDoorTypes idxs)
        { usedLocs := [], usedBeamRooms := [], lockedDoors := [] }
      rw [randomizeDoorsLockedDoors]
      refine le_trans h ?_
      rw [show (doorsToProcess doorConns ammoDoorTypes idxs).map (fun x => x.1) =
        ammoDoorTypes from hmapfst]
      simp
    refine ⟨?_, ?_, ?_, ?_⟩
    · have h := selectDoorsLoop_length_le getLoc
        (doorsToProcess doorConns ammoDoorTypes idxs)
        { usedLocs := [], usedBeamRooms := [], lockedDoors := [] }
      simpa [randomizeDoorsLockedDoors, hlenproc] using h
    · exact le_trans (hcount .Red) (by decide)
    · exact le_trans (hcount .Green) (by decide)
    · exact le_trans (hcount .Yellow) (by decide)
  · intro hnodup
    have hnb : ∀ x ∈ doorsToProcess doorConns ammoDoorTypes idxs, x.1.isBeam = false := by
      intro x hx
      have hfst : x.1 ∈ ammoDoorTypes := (List.of_mem_zip hx).1
      have : ∀ dt ∈ ammoDoorTypes, dt.isBeam = false := by decide
      exact this x.1 hfst
    have hout := selectDoorsLoop_no_skip getLoc
      (doorsToProcess doorConns ammoDoorTypes idxs)
      { usedLocs := [], usedBeamRooms := [], lockedDoors := [] }
      hnb hnodup (by intro loc _ hmem; exact absurd hmem (List.not_mem_nil _))
    have houtdoors : randomizeDoorsLockedDoors getLoc doorConns ammoDoorTypes idxs =
        (doorsToProcess doorConns ammoDoorTypes idxs).map (fun x =>
          { src_ptr_pair := x.2.1, dst_ptr_pair := x.2.2, door_type := x.1,
            bidirectional := true }) := by
      rw [randomizeDoorsLockedDoors, hout]
      simp
    have hmaptypes : (randomizeDoorsLockedDoors getLoc doorConns ammoDoorTypes idxs).map
        (fun d => d.door_type) = ammoDoorTypes := by
      rw [houtdoors, List.map_map]
      exact hmapfst
    refine ⟨?_, ?_, ?_, ?_⟩
    · rw [houtdoors, List.length_map, hlenproc]
    all_goals {
      rw [hmaptypes]
      decide
    }

/-- Witness for the amended C6 claim: with 55 connections whose tiles are
all distinct, exactly 30 red, 15 green and 10 yellow doors are placed. -/
theorem randomize_doors_ammo_counts_witness :
    AmmoCountExact (randomizeDoorsLockedDoors allDistinctGetLoc cexConns ammoDoorTypes
      (List.range 55)) :=
  (randomize_doors_ammo_counts allDistinctGetLoc cexConns (List.range 55) (by decide)).2
    (by decide)

lemma updateReachability_item_getElem (gd : GameStaticData) (oracle : ReachOracle)
    (st : RandomizationStateM) (i : ℕ) (vs : List ℕ) (s : ItemLocationStateM)
    (hv : gd.item_vertex_ids[i]? = some vs)
    (hs : st.item_location_state[i]? = some s) :
    (updateReachability gd oracle st).item_location_state[i]? =
      some (updateItemLocation oracle st.global_state vs s) := by
  simp only [updateReachability]
  rw [List.getElem?_zipWith_eq_some]
  exact ⟨vs, s, hv, hs, rfl⟩

lemma updateReachability_flag_getElem (gd : GameStaticData) (oracle : ReachOracle)
    (st : RandomizationStateM) (i : ℕ) (vs : List ℕ) (f : FlagLocationStateM)
    (hv : gd.flag_vertex_ids[i]? = some vs)
    (hf : st.flag_location_state[i]? = some f) :
    (updateReachability gd oracle st).flag_location_state[i]? =
      some (updateFlagLocation oracle st.global_state vs f) := by
  simp only [updateReachability]
  rw [List.getElem?_zipWith_eq_some]
  exact ⟨vs, f, hv, hf, rfl⟩

/-- **C10.** In `update_reachability`: the `reachable` field of an item
location is sticky — its new value is its old value OR-ed with the fresh
forward-reachability answer, so once true it stays true across calls —
while `bireachable`/`bireachable_vertex_id` of item, flag, door and save
states and `reachable` of flag states are recomputed from the oracle
alone, independent of their previous values.  Consequently (last
conjunct, a concrete run) a location bireachable after one call can be
non-bireachable after a later call while its `reachable` flag stays
set. -/
theorem update_reachability_sticky_reachable :
    (∀ (gd : GameStaticData) (oracle : ReachOracle) (st : RandomizationStateM)
      (i : ℕ) (vs : List ℕ) (s : ItemLocationStateM),
      gd.item_vertex_ids[i]? = some vs →
      st.item_location_state[i]? = some s →
      (updateReachability gd oracle st).item_location_state[i]? =
        some (updateItemLocation oracle st.global_state vs s)) ∧
    (∀ (oracle : ReachOracle) (g : GlobalStateM) (vs : List ℕ) (s : ItemLocationStateM),
      (updateItemLocation oracle g vs s).reachable =
        (s.reachable || vs.any (fun v => oracle.fwdFinite g v)) ∧
      (updateItemLocation oracle g vs s).bireachable =
        (vs.find? (fun v => oracle.fwdFinite g v && oracle.biOk g v)).isSome) ∧
    (∀ (oracle : ReachOracle) (g : GlobalStateM) (vs : List ℕ)
      (f f' : FlagLocationStateM),
      updateFlagLocation oracle g vs f = updateFlagLocation oracle g vs f' ∧
      (updateFlagLocation oracle g vs f).reachable =
        (vs.find? (fun v => oracle.fwdFinite g v)).isSome) ∧
    (∀ (oracle : ReachOracle) (g : GlobalStateM) (vs : List ℕ) (d d' : DoorStateM),
      updateDoorState oracle g vs d = updateDoorState oracle g vs d') ∧
    (∀ (oracle : ReachOracle) (g : GlobalStateM) (v : ℕ) (s s' : SaveLocationStateM),
      updateSaveLocation oracle g v s = updateSaveLocation oracle g v s') ∧
    (((updateReachability c10Gd c10Oracle c10State).item_location_state.getD 0
        defaultItemLocationState).bireachable = true ∧
      (let st₁ := updateReachability c10Gd c10Oracle c10State
       let st₂ := updateReachability c10Gd c10Oracle
         { st₁ with global_state := st₁.global_state.collect 0 }
       (st₂.item_location_state.getD 0 defaultItemLocationState).bireachable = false ∧
       (st₂.item_location_state.getD 0 defaultItemLocationState).reachable = true)) := by
  refine ⟨?_, ?_, ?_, ?_, ?_, ?_⟩
  · intro gd oracle st i vs s hv hs
    exact updateReachability_item_getElem gd oracle st i vs s hv hs
  · intro oracle g vs s
    exact ⟨rfl, rfl⟩
  · intro oracle g vs f f'
    exact ⟨rfl, rfl⟩
  · intro oracle g vs d d'
    rfl
  · intro oracle g v s s'
    rfl
  · exact ⟨by decide, by decide, by decide⟩

/-- Witness for C10 at the concrete one-location instance. -/
theorem update_reachability_sticky_reachable_witness :
    (updateReachability c10Gd c10Oracle c10State).item_location_state[0]? =
      some (updateItemLocation c10Oracle c10State.global_state [0]
        { placed_item := none, collected := false, reachable := false, bireachable := false,
          bireachable_vertex_id := none, difficulty_tier := none }) :=
  update_reachability_sticky_reachable.1 c10Gd c10Oracle c10State 0 [0]
    { placed_item := none, collected := false, reachable := false, bireachable := false,
      bireachable_vertex_id := none, difficulty_tier := none } (by decide) (by decide)

lemma getD_set_true_of (l : List Bool) (i j : ℕ) (h : l.getD j false = true) :
    (l.set i true).getD j false = true := by
  by_cases hij : i = j
  · subst hij
    by_cases hlen : i < l.length
    · rw [List.getD_eq_getElem?_getD, List.getElem?_set, if_pos rfl, if_pos hlen]
      rfl
    · rw [List.getD_eq_getElem?_getD, List.getElem?_set, if_pos rfl, if_neg hlen]
      rw [List.getD_eq_getElem?_getD, List.getElem?_eq_none (le_of_not_lt hlen)] at h
      exact h
  · rwa [List.getD_eq_getElem?_getD, List.getElem?_set_ne hij, ← List.getD_eq_getElem?_getD]

lemma getD_set_true_cases (l : List Bool) (i j : ℕ)
    (h : (l.set i true).getD j false = true) : l.getD j false = true ∨ i = j := by
  by_cases hij : i = j
  · exact Or.inr hij
  · left
    rwa [List.getD_eq_getElem?_getD, List.getElem?_set_ne hij,
      ← List.getD_eq_getElem?_getD] at h

lemma closureDoorStep_flags (acc : GlobalStateM × Bool) (p : ℕ × DoorStateM) :
    (closureDoorStep acc p).1.flags = acc.1.flags := by
  unfold closureDoorStep
  split_ifs <;> rfl

lemma closureDoorsFold_flags (ps : List (ℕ × DoorStateM)) :
    ∀ acc : GlobalStateM × Bool, (ps.foldl closureDoorStep acc).1.flags = acc.1.flags := by
  induction ps with
  | nil => intro acc; rfl
  | cons p ps ih =>
    intro acc
    rw [List.foldl_cons, ih, closureDoorStep_flags]

lemma closureDoorsPass_flags (st : RandomizationStateM) (g : GlobalStateM) (b : Bool) :
    (closureDoorsPass st g b).1.flags = g.flags :=
  closureDoorsFold_flags st.door_state.enum (g, b)

lemma closureFlagsFold_sets (gd : GameStaticData) (pairs : List (ℕ × FlagLocationStateM)) :
    ∀ (acc : GlobalStateM × Bool) (flagId : ℕ),
      (pairs.foldl (closureFlagStep gd) acc).1.flags.getD flagId false = true →
      acc.1.flags.getD flagId false = true ∨
        ∃ p ∈ pairs, p.1 = flagId ∧
          ((flagId = gd.mother_brain_defeated_flag_id ∧ p.2.reachable = true) ∨
            p.2.bireachable = true) := by
  induction pairs with
  | nil =>
    intro acc flagId h
    exact Or.inl h
  | cons p ps ih =>
    intro acc flagId h
    rw [List.foldl_cons] at h
    rcases ih _ flagId h with h' | ⟨q, hq, hcond⟩
    · unfold closureFlagStep at h'
      split_ifs at h' with h1 h2 h3
      · exact Or.inl h'
      · rcases getD_set_true_cases _ _ _ h' with hacc | hij
        · exact Or.inl hacc
        · exact Or.inr ⟨p, List.mem_cons_self _ _, hij,
            Or.inl ⟨hij ▸ h2.2, h2.1⟩⟩
      · rcases getD_set_true_cases _ _ _ h' with hacc | hij
        · exact Or.inl hacc
        · exact Or.inr ⟨p, List.mem_cons_self _ _, hij, Or.inr h3⟩
      · exact Or.inl h'
    · exact Or.inr ⟨q, List.mem_cons_of_mem _ hq, hcond⟩

lemma updateReachability_global (gd : GameStaticData) (oracle : ReachOracle)
    (st : RandomizationStateM) :
    (updateReachability gd oracle st).global_state = st.global_state := rfl

lemma closureLoop_flag_only_if (gd : GameStaticData) (oracle : ReachOracle) :
    ∀ (fuel : ℕ) (state : RandomizationStateM) (flagId : ℕ),
      (closureLoop gd oracle fuel state).global_state.flags.getD flagId false = true →
      state.global_state.flags.getD flagId false = true ∨
        ∃ st' ∈ closureStates gd oracle fuel state,
          ∃ p ∈ gd.flag_ids.zip st'.flag_location_state,
            p.1 = flagId ∧
              ((flagId = gd.mother_brain_defeated_flag_id ∧ p.2.reachable = true) ∨
                p.2.bireachable = true) := by
  intro fuel
  induction fuel with
  | zero =>
    intro state flagId h
    exact Or.inl h
  | succ fuel ih =>
    intro state flagId h
    rw [closureLoop] at h
    by_cases hupd : (closureDoorsPass state (closureFlagsPass gd state).1
        (closureFlagsPass gd state).2).2
    · rw [if_pos hupd] at h
      rcases ih _ flagId h with h' | ⟨st', hmem, hrest⟩
      · rw [updateReachability_global] at h'
        have h'' : (closureDoorsPass state (closureFlagsPass gd state).1
            (closureFlagsPass gd state).2).1.flags.getD flagId false = true := h'
        rw [closureDoorsPass_flags] at h''
        rcases closureFlagsFold_sets gd _ _ flagId h'' with hinit | ⟨p, hp, hcond⟩
        · exact Or.inl hinit
        · refine Or.inr ⟨state, ?_, p, hp, hcond⟩
          rw [closureStates, if_pos hupd]
          exact List.mem_cons_self _ _
      · refine Or.inr ⟨st', ?_, hrest⟩
        rw [closureStates, if_pos hupd]
        exact List.mem_cons_of_mem _ hmem
    · rw [if_neg hupd] at h
      have h'' : (closureDoorsPass state (closureFlagsPass gd state).1
          (closureFlagsPass gd state).2).1.flags.getD flagId false = true := h
      rw [closureDoorsPass_flags] at h''
      rcases closureFlagsFold_sets gd _ _ flagId h'' with hinit | ⟨p, hp, hcond⟩
      · exact Or.inl hinit
      · refine Or.inr ⟨state, ?_, p, hp, hcond⟩
        rw [closureStates, if_neg hupd]
        exact List.mem_cons_self _ _

/-- **C4.** In the flag/door closure phase of `step`, a flag is newly set
in `global_state` only when — at one of the loop's iteration states —
either it is the Mother Brain defeated flag and its location is (one-way)
forward-reachable, or its location is bireachable; in particular a flag
other than the Mother Brain one is set only when its location is
bireachable.  And `is_game_beatable` holds iff some flag location carries
the Mother Brain flag and is forward-reachable (bireachability is not
required). -/
theorem flag_closure_mother_brain_special :
    (∀ (gd : GameStaticData) (oracle : ReachOracle) (fuel : ℕ)
      (state : RandomizationStateM) (flagId : ℕ),
      (closureLoop gd oracle fuel state).global_state.flags.getD flagId false = true →
      state.global_state.flags.getD flagId false = true ∨
        ∃ st' ∈ closureStates gd oracle fuel state,
          ∃ p ∈ gd.flag_ids.zip st'.flag_location_state,
            p.1 = flagId ∧
              ((flagId = gd.mother_brain_defeated_flag_id ∧ p.2.reachable = true) ∨
                p.2.bireachable = true)) ∧
    (∀ (gd : GameStaticData) (state : RandomizationStateM),
      isGameBeatable gd state = true ↔
        ∃ p ∈ gd.flag_ids.zip state.flag_location_state,
          p.1 = gd.mother_brain_defeated_flag_id ∧ p.2.reachable = true) := by
  constructor
  · intro gd oracle fuel state flagId h
    exact closureLoop_flag_only_if gd oracle fuel state flagId h
  · intro gd state
    simp [isGameBeatable, List.any_eq_true, Bool.and_eq_true, beq_iff_eq]

/-- Witness for C4 at a concrete instance: flag 3 is set before the loop,
so the only-if disjunction holds with its left branch at fuel 0. -/
theorem flag_closure_mother_brain_special_witness :
    c4State.global_state.flags.getD 3 false = true ∨
      ∃ st' ∈ closureStates c4Gd c10Oracle 0 c4State,
        ∃ p ∈ c4Gd.flag_ids.zip st'.flag_location_state,
          p.1 = 3 ∧
            ((3 = c4Gd.mother_brain_defeated_flag_id ∧ p.2.reachable = true) ∨
              p.2.bireachable = true) :=
  flag_closure_mother_brain_special.1 c4Gd c10Oracle 0 c4State 3 (by decide)

lemma mem_zipWith {α β γ : Type} {f : α → β → γ} :
    ∀ {l₁ : List α} {l₂ : List β} {x : γ}, x ∈ List.zipWith f l₁ l₂ →
      ∃ a b, a ∈ l₁ ∧ b ∈ l₂ ∧ x = f a b := by
  intro l₁
  induction l₁ with
  | nil =>
    intro l₂ x hx
    simp at hx
  | cons a l₁ ih =>
    intro l₂ x hx
    cases l₂ with
    | nil => simp at hx
    | cons b l₂ =>
      rw [List.zipWith_cons_cons] at hx
      rcases List.mem_cons.mp hx with rfl | hx
      · exact ⟨a, b, List.mem_cons_self _ _, List.mem_cons_self _ _, rfl⟩
      · obtain ⟨a', b', ha, hb, rfl⟩ := ih hx
        exact ⟨a', b', List.mem_cons_of_mem _ ha, List.mem_cons_of_mem _ hb, rfl⟩

lemma countP_split {α : Type} (l : List α) (p q : α → Bool) :
    l.countP p = l.countP (fun x => p x && q x) + l.countP (fun x => p x && !q x) := by
  induction l with
  | nil => simp
  | cons a l ih =>
    rw [List.countP_cons, List.countP_cons, List.countP_cons]
    cases hp : p a <;> cases hq : q a <;> simp [hp, hq] <;> omega

lemma updateReachability_bi_imp_reach (gd : GameStaticData) (oracle : ReachOracle)
    (st : RandomizationStateM) :
    ∀ s ∈ (updateReachability gd oracle st).item_location_state,
      s.bireachable = true → s.reachable = true := by
  intro s hs hbi
  obtain ⟨vs, s₀, _, _, rfl⟩ := mem_zipWith hs
  simp only [updateItemLocation] at hbi ⊢
  rw [Option.isSome_iff_exists] at hbi
  obtain ⟨v, hv⟩ := hbi
  have hmem := List.mem_of_find?_eq_some hv
  have hpred := List.find?_some hv
  rw [Bool.and_eq_true] at hpred
  rw [Bool.or_eq_true]
  right
  rw [List.any_eq_true]
  exact ⟨v, hmem, hpred.1⟩

/-- Counterexample to C2 as stated: a state in which every item location
is already bireachable (and was already reachable before), the game is
not beatable, and no location newly became bireachable — yet
`provides_progression` accepts, through the `all_items_bireachable`
disjunct of `gives_expansion` (randomize.rs 3364-3374), which the claimed
biconditional omits. -/
theorem provides_progression_counterexample :
    (providesProgression c2Gd c2Oracle c2Old c2Old [] [] [] 0).2 = true ∧
    ¬((NewlyBireachable c2Old (providesProgression c2Gd c2Oracle c2Old c2Old [] [] [] 0).1 ∧
        oneWayReachableCount (providesProgression c2Gd c2Oracle c2Old c2Old [] [] [] 0).1 < 20) ∨
      isGameBeatable c2Gd (providesProgression c2Gd c2Oracle c2Old c2Old [] [] [] 0).1 = true) :=
  ⟨by decide, by unfold NewlyBireachable oneWayReachableCount; decide⟩

/-- **C2 (amended).** A tentative key-item selection is accepted exactly
when `provides_progression` holds, and `provides_progression` holds iff
((some item location is bireachable in the updated new state that was not
even one-way-reachable in the old state, OR every item location is
bireachable in the updated new state) AND the number of one-way-reachable
item locations in the updated new state is below 20), OR the game is
beatable in the updated new state. -/
theorem provides_progression_iff (gd : GameStaticData) (oracle : ReachOracle)
    (oldState newState : RandomizationStateM)
    (keyItems fillerItems placedUncollected : List ItemM) (n : ℕ) :
    (providesProgression gd oracle oldState newState keyItems fillerItems
        placedUncollected n).2 = true ↔
      (((NewlyBireachable oldState
          (providesProgression gd oracle oldState newState keyItems fillerItems
            placedUncollected n).1 ∨
        AllItemsBireachable
          (providesProgression gd oracle oldState newState keyItems fillerItems
            placedUncollected n).1) ∧
        oneWayReachableCount
          (providesProgression gd oracle oldState newState keyItems fillerItems
            placedUncollected n).1 < 20) ∨
      isGameBeatable gd
        (providesProgression gd oracle oldState newState keyItems fillerItems
          placedUncollected n).1 = true) := by
  have hbr := updateReachability_bi_imp_reach gd oracle
    (collectItemsState newState
      (placedUncollected ++ (keyItems ++ fillerItems).take n))
  simp only [providesProgression]
  generalize hu : updateReachability gd oracle
    (collectItemsState newState
      (placedUncollected ++ (keyItems ++ fillerItems).take n)) = u at hbr ⊢
  rw [Bool.or_eq_true, Bool.and_eq_true, decide_eq_true_iff]
  have hcount : (u.item_location_state.filter (fun x => x.reachable)).length -
      (u.item_location_state.filter (fun x => x.bireachable)).length =
      oneWayReachableCount u := by
    rw [oneWayReachableCount, ← List.countP_eq_length_filter, ← List.countP_eq_length_filter,
      ← List.countP_eq_length_filter]
    rw [countP_split u.item_location_state (fun x => x.reachable) (fun x => x.bireachable)]
    have hcong : u.item_location_state.countP (fun x => x.reachable && x.bireachable) =
        u.item_location_state.countP (fun x => x.bireachable) := by
      apply List.countP_congr
      intro x hx
      constructor
      · intro hrb
        exact (Bool.and_eq_true _ _ ▸ hrb).2
      · intro hb
        rw [Bool.and_eq_true]
        exact ⟨hbr x hx hb, hb⟩
    have hcong2 : u.item_location_state.countP (fun x => x.reachable && !x.bireachable) =
        u.item_location_state.countP (fun x => x.reachable && !x.bireachable) := rfl
    omega
  have hall : ((u.item_location_state.filter (fun x => x.bireachable)).length ==
      u.item_location_state.length) = true ↔ AllItemsBireachable u := by
    rw [beq_iff_eq, ← List.countP_eq_length_filter, List.countP_eq_length]
    exact Iff.rfl
  have hany : ((u.item_location_state.zip oldState.item_location_state).any
      (fun p => p.1.bireachable && !p.2.reachable)) = true ↔ NewlyBireachable oldState u := by
    rw [List.any_eq_true, NewlyBireachable]
    constructor
    · rintro ⟨p, hp, hcond⟩
      rw [Bool.and_eq_true, Bool.not_eq_true'] at hcond
      exact ⟨p, hp, hcond⟩
    · rintro ⟨p, hp, h1, h2⟩
      exact ⟨p, hp, by rw [Bool.and_eq_true, Bool.not_eq_true']; exact ⟨h1, h2⟩⟩
  rw [hcount]
  by_cases hb : ((u.item_location_state.filter (fun x => x.bireachable)).length ==
      u.item_location_state.length) = true
  · rw [if_pos hb]
    have hA : AllItemsBireachable u := hall.mp hb
    constructor
    · rintro (⟨hlt, _⟩ | hbeat)
      · exact Or.inl ⟨Or.inr hA, hlt⟩
      · exact Or.inr hbeat
    · rintro (⟨_, hlt⟩ | hbeat)
      · exact Or.inl ⟨hlt, rfl⟩
      · exact Or.inr hbeat
  · rw [if_neg hb]
    have hnA : ¬ AllItemsBireachable u := fun hA => hb (hall.mpr hA)
    constructor
    · rintro (⟨hlt, hany'⟩ | hbeat)
      · exact Or.inl ⟨Or.inl (hany.mp hany'), hlt⟩
      · exact Or.inr hbeat
    · rintro (⟨hnew | hA, hlt⟩ | hbeat)
      · exact Or.inl ⟨hlt, hany.mpr hnew⟩
      · exact absurd hA hnA
      · exact Or.inr hbeat

lemma length_swapAt (l : List ℕ) (i j : ℕ) : (swapAt l i j).length = l.length := by
  rw [swapAt, List.length_set, List.length_set]

lemma mem_swapAt (l : List ℕ) (i j : ℕ) (hi : i < l.length) (hj : j < l.length)
    {x : ℕ} (hx : x ∈ swapAt l i j) : x ∈ l := by
  rw [swapAt] at hx
  rcases List.mem_or_eq_of_mem_set hx with hx | rfl
  · rcases List.mem_or_eq_of_mem_set hx with hx | rfl
    · exact hx
    · rw [List.getD_eq_getElem _ _ hj]
      exact List.getElem_mem _
  · rw [List.getD_eq_getElem _ _ hi]
    exact List.getElem_mem _

lemma hardSwapAux_length (hardIdx : ℕ → ℕ) :
    ∀ (k i : ℕ) (l : List ℕ), (hardSwapAux hardIdx i k l).length = l.length := by
  intro k
  induction k with
  | zero => intro i l; rfl
  | succ k ih =>
    intro i l
    rw [hardSwapAux, ih, length_swapAt]

lemma hardSwapAux_mem (hardIdx : ℕ → ℕ) :
    ∀ (k i : ℕ) (l : List ℕ),
      (∀ m, i ≤ m → m < i + k → m + hardIdx m < l.length) →
      ∀ x ∈ hardSwapAux hardIdx i k l, x ∈ l := by
  intro k
  induction k with
  | zero =>
    intro i l _ x hx
    exact hx
  | succ k ih =>
    intro i l hb x hx
    rw [hardSwapAux] at hx
    have hbi : i + hardIdx i < l.length := hb i le_rfl (by omega)
    have hii : i < l.length := by omega
    have hb' : ∀ m, i + 1 ≤ m → m < (i + 1) + k →
        m + hardIdx m < (swapAt l i (i + hardIdx i)).length := by
      intro m h1 h2
      rw [length_swapAt]
      exact hb m (by omega) (by omega)
    exact mem_swapAt l i (i + hardIdx i) hii hbi (ih (i + 1) _ hb' x hx)

lemma newBireachableLocs_subset (forced : Bool) (hardIdx : ℕ → ℕ) (keyLen : ℕ)
    (bireachLocs : List ℕ)
    (hb : ∀ m < keyLen, m + hardIdx m < bireachLocs.length) :
    ∀ x ∈ newBireachableLocs forced hardIdx keyLen bireachLocs, x ∈ bireachLocs := by
  intro x hx
  rw [newBireachableLocs] at hx
  cases forced with
  | false => exact hx
  | true =>
    rw [if_pos rfl] at hx
    exact hardSwapAux_mem hardIdx keyLen 0 bireachLocs
      (fun m _ h2 => hb m (by omega)) x hx

lemma newBireachableLocs_length (forced : Bool) (hardIdx : ℕ → ℕ) (keyLen : ℕ)
    (bireachLocs : List ℕ) :
    (newBireachableLocs forced hardIdx keyLen bireachLocs).length = bireachLocs.length := by
  rw [newBireachableLocs]
  cases forced with
  | false => rfl
  | true =>
    rw [if_pos rfl, hardSwapAux_length]

lemma zip_append_split {A B : List ℕ} {C D : List ItemM} (hk : C.length ≤ A.length) :
    (A ++ B).zip (C ++ D) =
      (A.take C.length).zip C ++ ((A.drop C.length) ++ B).zip D := by
  conv in (A ++ B) => rw [← List.take_append_drop C.length A]
  rw [List.append_assoc]
  apply List.zip_append
  rw [List.length_take]
  omega

lemma foldl_modify_placed (pairs : List (ℕ × ItemM)) :
    ∀ (ils : List ItemLocationStateM) (loc : ℕ),
      ((pairs.foldl
        (fun ils p => List.modify (fun s => { s with placed_item := some p.2 }) p.1 ils)
        ils)[loc]?.map (fun s => s.placed_item)) =
        (ils[loc]?.map (fun s => s.placed_item)) ∨
      ∃ item, (loc, item) ∈ pairs ∧
        ((pairs.foldl
          (fun ils p => List.modify (fun s => { s with placed_item := some p.2 }) p.1 ils)
          ils)[loc]?.map (fun s => s.placed_item)) = some (some item) := by
  induction pairs with
  | nil =>
    intro ils loc
    exact Or.inl rfl
  | cons p ps ih =>
    intro ils loc
    rw [List.foldl_cons]
    rcases ih (List.modify (fun s => { s with placed_item := some p.2 }) p.1 ils) loc with
      h | ⟨item, hmem, hval⟩
    · rw [h, List.getElem?_modify]
      by_cases hpl : p.1 = loc
      · subst hpl
        cases hils : ils[p.1]? with
        | none => exact Or.inl (by simp)
        | some s =>
          refine Or.inr ⟨p.2, List.mem_cons_self _ _, ?_⟩
          simp
      · simp only [if_neg hpl]
        exact Or.inl (by cases ils[loc]? <;> simp)
    · exact Or.inr ⟨item, List.mem_cons_of_mem _ hmem, hval⟩

/-- **C3.** (1) `determine_item_split` caps the number of key items by the
number of unfilled bireachable locations.  (2) In `place_items`, the
hard-location swaps only permute within the bireachable location list;
the placement zip decomposes into key pairs — which pair each key item
with a location of the bireachable list — followed by filler pairs; and
consequently the placed item of a location outside the bireachable list
(in particular a merely one-way-reachable one) is either unchanged or one
of the filler items, never a key item. -/
theorem key_items_only_bireachable :
    (∀ (diff : DifficultyM) (initialItemsRemaining : List ℕ)
      (state : RandomizationStateM) (numBireachable numOneway : ℕ),
      (determineItemSplit diff initialItemsRemaining state numBireachable numOneway).1 ≤
        numBireachable) ∧
    (∀ (forced : Bool) (hardIdx : ℕ → ℕ) (state : RandomizationStateM)
      (bireachLocs otherLocs : List ℕ) (keyItems otherItems : List ItemM),
      keyItems.length ≤ bireachLocs.length →
      (∀ m < keyItems.length, m + hardIdx m < bireachLocs.length) →
      ((∀ x ∈ newBireachableLocs forced hardIdx keyItems.length bireachLocs,
          x ∈ bireachLocs) ∧
        ((newBireachableLocs forced hardIdx keyItems.length bireachLocs ++ otherLocs).zip
            (keyItems ++ otherItems) =
          ((newBireachableLocs forced hardIdx keyItems.length bireachLocs).take
              keyItems.length).zip keyItems ++
            (((newBireachableLocs forced hardIdx keyItems.length bireachLocs).drop
              keyItems.length) ++ otherLocs).zip otherItems) ∧
        (∀ loc : ℕ, loc ∉ bireachLocs →
          ((placeItems forced hardIdx state bireachLocs otherLocs keyItems
              otherItems).item_location_state[loc]?.map (fun s => s.placed_item)) =
            (state.item_location_state[loc]?.map (fun s => s.placed_item)) ∨
          ∃ item ∈ otherItems,
            ((placeItems forced hardIdx state bireachLocs otherLocs keyItems
              otherItems).item_location_state[loc]?.map (fun s => s.placed_item)) =
              some (some item)))) := by
  constructor
  · intro diff initialItemsRemaining state numBireachable numOneway
    rw [determineItemSplit]
    exact le_trans (min_le_right _ _) (min_le_left _ _)
  · intro forced hardIdx state bireachLocs otherLocs keyItems otherItems hk hb
    have hsub := newBireachableLocs_subset forced hardIdx keyItems.length bireachLocs hb
    have hlen := newBireachableLocs_length forced hardIdx keyItems.length bireachLocs
    have hk' : keyItems.length ≤
        (newBireachableLocs forced hardIdx keyItems.length bireachLocs).length := by
      omega
    refine ⟨hsub, zip_append_split hk', ?_⟩
    intro loc hloc
    rcases foldl_modify_placed
      ((newBireachableLocs forced hardIdx keyItems.length bireachLocs ++ otherLocs).zip
        (keyItems ++ otherItems)) state.item_location_state loc with h | ⟨item, hmem, hval⟩
    · exact Or.inl h
    · rw [zip_append_split hk'] at hmem
      rcases List.mem_append.mp hmem with hmem | hmem
      · exfalso
        have hlocmem := (List.of_mem_zip hmem).1
        exact hloc (hsub loc (List.take_subset _ _ hlocmem))
      · exact Or.inr ⟨item, (List.of_mem_zip hmem).2, hval⟩

/-- Witness for C3 at a concrete instance: two locations, one key item to
the bireachable location 0, one filler item; location 5 is outside the
bireachable list. -/
theorem key_items_only_bireachable_witness :
    (∀ x ∈ newBireachableLocs false (fun _ => 0) 1 [0], x ∈ [0]) ∧
    ((newBireachableLocs false (fun _ => 0) 1 [0] ++ [1]).zip ([7] ++ [9]) =
      ((newBireachableLocs false (fun _ => 0) 1 [0]).take 1).zip [7] ++
        (((newBireachableLocs false (fun _ => 0) 1 [0]).drop 1) ++ [1]).zip [9]) ∧
    (∀ loc : ℕ, loc ∉ [0] →
      ((placeItems false (fun _ => 0) c2Old [0] [1] [7]
          [9]).item_location_state[loc]?.map (fun s => s.placed_item)) =
        (c2Old.item_location_state[loc]?.map (fun s => s.placed_item)) ∨
      ∃ item ∈ [9],
        ((placeItems false (fun _ => 0) c2Old [0] [1] [7]
          [9]).item_location_state[loc]?.map (fun s => s.placed_item)) =
          some (some item)) :=
  key_items_only_bireachable.2 false (fun _ => 0) c2Old [0] [1] [7] [9]
    (by decide) (by decide)

lemma sum_set_add_getD (l : List ℕ) (i a : ℕ) (h : i < l.length) :
    (l.set i a).sum + l.getD i 0 = l.sum + a := by
  rw [List.sum_set, if_pos h, List.getD_eq_getElem _ _ h]
  have hdrop : (List.drop i l).sum = l[i] + (List.drop (i + 1) l).sum := by
    rw [List.drop_eq_getElem_cons h, List.sum_cons]
  have htake := List.sum_take_add_sum_drop l i
  omega

lemma getD_set_ne_nat (l : List ℕ) (i j a : ℕ) (h : i ≠ j) :
    (l.set i a).getD j 0 = l.getD j 0 := by
  rw [List.getD_eq_getElem?_getD, List.getElem?_set_ne h, ← List.getD_eq_getElem?_getD]

lemma getD_set_self_nat (l : List ℕ) (i a : ℕ) :
    (l.set i a).getD i 0 = if i < l.length then a else l.getD i 0 := by
  by_cases h : i < l.length
  · rw [if_pos h, List.getD_eq_getElem?_getD, List.getElem?_set, if_pos rfl, if_pos h]
    rfl
  · rw [if_neg h, List.set_eq_of_length_le (le_of_not_lt h)]

lemma foldl_set_getD_ne (i : ℕ) :
    ∀ (pool : List (ItemM × ℕ)) (v : List ℕ), (∀ p ∈ pool, p.1 ≠ i) →
      (pool.foldl (fun acc p => acc.set p.1 p.2) v).getD i 0 = v.getD i 0 := by
  intro pool
  induction pool with
  | nil =>
    intro v _
    rfl
  | cons p ps ih =>
    intro v hpool
    rw [List.foldl_cons, ih _ (fun q hq => hpool q (List.mem_cons_of_mem _ hq)),
      getD_set_ne_nat _ _ _ _ (hpool p (List.mem_cons_self _ _))]

lemma foldl_set_length :
    ∀ (pool : List (ItemM × ℕ)) (v : List ℕ),
      (pool.foldl (fun acc p => acc.set p.1 p.2) v).length = v.length := by
  intro pool
  induction pool with
  | nil =>
    intro v
    rfl
  | cons p ps ih =>
    intro v
    rw [List.foldl_cons, ih, List.length_set]

lemma set_le_sum_le (v : List ℕ) (i a : ℕ) (ha : a ≤ v.getD i 0) :
    (v.set i a).sum ≤ v.sum := by
  by_cases h : i < v.length
  · have := sum_set_add_getD v i a h
    omega
  · rw [List.set_eq_of_length_le (le_of_not_lt h)]

lemma getD_set_le (v : List ℕ) (i j a : ℕ) (ha : a ≤ v.getD i 0) :
    (v.set i a).getD j 0 ≤ v.getD j 0 := by
  by_cases hij : i = j
  · subst hij
    rw [getD_set_self_nat]
    split_ifs
    · exact ha
    · exact le_rfl
  · rw [getD_set_ne_nat _ _ _ _ hij]

lemma startFold_sum_le :
    ∀ (startingItems : List (ItemM × ℕ)) (v : List ℕ),
      (startingItems.foldl
        (fun acc p => acc.set p.1 (acc.getD p.1 0 - min p.2 (acc.getD p.1 0))) v).sum ≤
        v.sum := by
  intro startingItems
  induction startingItems with
  | nil =>
    intro v
    exact le_rfl
  | cons p ps ih =>
    intro v
    rw [List.foldl_cons]
    exact le_trans (ih _) (set_le_sum_le _ _ _ (Nat.sub_le _ _))

lemma startFold_getD_le (j : ℕ) :
    ∀ (startingItems : List (ItemM × ℕ)) (v : List ℕ),
      (startingItems.foldl
        (fun acc p => acc.set p.1 (acc.getD p.1 0 - min p.2 (acc.getD p.1 0))) v).getD j 0 ≤
        v.getD j 0 := by
  intro startingItems
  induction startingItems with
  | nil =>
    intro v
    exact le_rfl
  | cons p ps ih =>
    intro v
    rw [List.foldl_cons]
    exact le_trans (ih _) (getD_set_le _ _ _ _ (Nat.sub_le _ _))

lemma startFold_length :
    ∀ (startingItems : List (ItemM × ℕ)) (v : List ℕ),
      (startingItems.foldl
        (fun acc p => acc.set p.1 (acc.getD p.1 0 - min p.2 (acc.getD p.1 0))) v).length =
        v.length := by
  intro startingItems
  induction startingItems with
  | nil =>
    intro v
    rfl
  | cons p ps ih =>
    intro v
    rw [List.foldl_cons, ih, List.length_set]

lemma ensureEnoughTanks_getD_ne (ids : ItemIdsM) (rp : ℚ) (v : List ℕ) (i : ℕ)
    (h : ids.etank ≠ i) :
    (ensureEnoughTanks ids rp v).getD i 0 = v.getD i 0 := by
  rw [ensureEnoughTanks]
  split_ifs <;> first | rfl | exact getD_set_ne_nat _ _ _ _ h

lemma ensureEnoughTanks_length (ids : ItemIdsM) (rp : ℚ) (v : List ℕ) :
    (ensureEnoughTanks ids rp v).length = v.length := by
  rw [ensureEnoughTanks]
  split_ifs <;> first | rfl | exact List.length_set _ _ _

lemma ensureEnoughTanks_one (ids : ItemIdsM) (v : List ℕ) :
    ensureEnoughTanks ids 1 v =
      if v.getD ids.etank 0 + v.getD ids.reserveTank 0 < 3 then
        v.set ids.etank (3 - v.getD ids.reserveTank 0)
      else v := by
  simp only [ensureEnoughTanks]
  norm_num

lemma preCap_length (ids : ItemIdsM) (numItems numLocations : ℕ)
    (wallJumpCollectible : Bool) (iWallJump : ItemM)
    (itemPool : List (ItemM × ℕ)) (rp : ℚ) :
    (preCapItemsRemaining ids numItems numLocations wallJumpCollectible iWallJump
      itemPool rp).length = numItems := by
  rw [preCapItemsRemaining, ensureEnoughTanks_length, foldl_set_length]
  simp [List.length_set, List.length_replicate]

lemma preCap_nothing_zero (ids : ItemIdsM) (numItems numLocations : ℕ)
    (wallJumpCollectible : Bool) (iWallJump : ItemM)
    (itemPool : List (ItemM × ℕ)) (rp : ℚ)
    (h1 : iWallJump ≠ ids.nothing) (h2 : ids.sup ≠ ids.nothing)
    (h3 : ids.powerBomb ≠ ids.nothing) (h4 : ids.etank ≠ ids.nothing)
    (h5 : ids.reserveTank ≠ ids.nothing) (h6 : ids.missile ≠ ids.nothing)
    (hpool : ∀ p ∈ itemPool, p.1 ≠ ids.nothing)
    (hlt : ids.nothing < numItems) :
    (preCapItemsRemaining ids numItems numLocations wallJumpCollectible iWallJump
      itemPool rp).getD ids.nothing 0 = 0 := by
  rw [preCapItemsRemaining, ensureEnoughTanks_getD_ne _ _ _ _ h4,
    foldl_set_getD_ne _ _ _ hpool,
    getD_set_ne_nat _ _ _ _ h6, getD_set_ne_nat _ _ _ _ h5, getD_set_ne_nat _ _ _ _ h4,
    getD_set_ne_nat _ _ _ _ h3, getD_set_ne_nat _ _ _ _ h2, getD_set_ne_nat _ _ _ _ h1,
    getD_set_self_nat]
  rw [if_pos]
  rwa [List.length_replicate]

lemma placedCount_cons_some {s : ItemLocationStateM} {a : ItemM}
    (h : s.placed_item = some a) (L : List ItemLocationStateM) (item : ItemM) :
    placedCount (s :: L) item = placedCount L item + if a = item then 1 else 0 := by
  rw [placedCount, placedCount, List.filterMap_cons, h]
  rw [List.count_cons]
  simp [beq_iff_eq]

lemma placedCount_cons_none {s : ItemLocationStateM}
    (h : s.placed_item = none) (L : List ItemLocationStateM) (item : ItemM) :
    placedCount (s :: L) item = placedCount L item := by
  rw [placedCount, placedCount, List.filterMap_cons, h]

lemma remainingItemsAux_count_lt :
    ∀ (l : List ℕ) (k item : ℕ), item < k → (remainingItemsAux k l).count item = 0 := by
  intro l
  induction l with
  | nil =>
    intro k item _
    rfl
  | cons cnt rest ih =>
    intro k item hlt
    rw [remainingItemsAux, List.count_append, List.count_replicate,
      ih (k + 1) item (by omega), if_neg]
    simp only [beq_iff_eq]
    omega

lemma remainingItemsAux_count_ge :
    ∀ (l : List ℕ) (k item : ℕ), k ≤ item →
      (remainingItemsAux k l).count item = l.getD (item - k) 0 := by
  intro l
  induction l with
  | nil =>
    intro k item _
    rfl
  | cons cnt rest ih =>
    intro k item hk
    rw [remainingItemsAux, List.count_append, List.count_replicate]
    by_cases he : item = k
    · subst he
      rw [if_pos (by simp), remainingItemsAux_count_lt rest (item + 1) item (by omega)]
      simp
    · have hk1 : k + 1 ≤ item := by omega
      rw [if_neg (by simp only [beq_iff_eq]; omega), ih (k + 1) item hk1]
      have hik : item - k = (item - (k + 1)) + 1 := by omega
      rw [hik]
      simp [List.getD_cons_succ]

lemma remainingItemsList_count (itemsRemaining : List ℕ) (item : ItemM) :
    (remainingItemsList itemsRemaining).count item = itemsRemaining.getD item 0 := by
  rw [remainingItemsList, remainingItemsAux_count_ge itemsRemaining 0 item (Nat.zero_le _)]
  rfl

lemma finishFillNones_all_some :
    ∀ (ils : List ItemLocationStateM) (rem : List ItemM),
      ∀ s ∈ finishFillNones ils rem, s.placed_item.isSome = true := by
  intro ils
  induction ils with
  | nil =>
    intro rem s hs
    simp [finishFillNones] at hs
  | cons s₀ rest ih =>
    intro rem s hs
    cases hpi : s₀.placed_item with
    | some a =>
      simp only [finishFillNones, hpi] at hs
      rcases List.mem_cons.mp hs with rfl | hs
      · rw [hpi]
        rfl
      · exact ih rem s hs
    | none =>
      simp only [finishFillNones, hpi] at hs
      rcases List.mem_cons.mp hs with rfl | hs
      · rfl
      · exact ih rem.tail s hs

lemma finishFillNones_placedCount :
    ∀ (ils : List ItemLocationStateM) (rem : List ItemM),
      nonesCount ils = rem.length →
      ∀ item, placedCount (finishFillNones ils rem) item =
        placedCount ils item + rem.count item := by
  intro ils
  induction ils with
  | nil =>
    intro rem hn item
    have hrem : rem = [] := List.eq_nil_of_length_eq_zero (by
      simpa [nonesCount] using hn.symm)
    subst hrem
    rfl
  | cons s₀ rest ih =>
    intro rem hn item
    cases hpi : s₀.placed_item with
    | some a =>
      have hn' : nonesCount rest = rem.length := by
        simpa [nonesCount, List.filter_cons, hpi] using hn
      simp only [finishFillNones, hpi]
      rw [placedCount_cons_some hpi, placedCount_cons_some hpi, ih rem hn' item]
      omega
    | none =>
      have hlen : rem.length = nonesCount rest + 1 := by
        simp only [nonesCount, List.filter_cons, hpi, Option.isNone_none, if_pos,
          List.length_cons] at hn
        simp only [nonesCount]
        omega
      cases rem with
      | nil => simp at hlen
      | cons r rem' =>
        have hn' : nonesCount rest = rem'.length := by
          simp only [List.length_cons] at hlen
          omega
        simp only [finishFillNones, hpi]
        rw [placedCount_cons_some (show ({ s₀ with placed_item := some ((r :: rem').headD 0)
            } : ItemLocationStateM).placed_item = some r from rfl),
          placedCount_cons_none hpi]
        rw [show (r :: rem').tail = rem' from rfl, ih rem' hn' item, List.count_cons]
        simp only [beq_iff_eq]
        by_cases hr : r = item
        · simp [hr]
          omega
        · simp [hr]

lemma selectKeyItems_eq (ids : ItemIdsM) (diff : DifficultyM) (init : List ℕ)
    (state : RandomizationStateM) (numKey a : ℕ) :
    selectKeyItems ids diff init state numKey a =
      if 1 ≤ numKey then
        if 0 < a ∧ keyCntDifferent ids diff init state.items_remaining
            state.item_precedence ≤ numKey - 1 + a then none
        else
          some (((keyPool ids diff init state.items_remaining state.item_precedence).take
              (numKey - 1)) ++
            [(keyPool ids diff init state.items_remaining state.item_precedence).getD
              (numKey - 1 + a) 0])
      else if 0 < a then none else some [] := rfl

lemma selectFillerItems_eq (ids : ItemIdsM) (diff : DifficultyM) (init : List ℕ)
    (state : RandomizationStateM) (shuffleMix : List ItemM → List ItemM) (a b : ℕ) :
    selectFillerItems ids diff init state shuffleMix a b =
      (fillerItemsAll ids diff init state.items_remaining shuffleMix
        state.item_precedence).take (a + b) := rfl

lemma getD_pos_lt_length (l : List ℕ) (i : ℕ) (h : 0 < l.getD i 0) : i < l.length := by
  by_contra hge
  rw [List.getD_eq_getElem?_getD, List.getElem?_eq_none (by omega)] at h
  exact absurd h (by simp)

lemma count_flatten_replicate (c : ItemM → ℕ) :
    ∀ l : List ItemM, l.Nodup → ∀ x : ItemM,
      ((l.map (fun i => List.replicate (c i) i)).flatten).count x =
        if x ∈ l then c x else 0 := by
  intro l
  induction l with
  | nil =>
    intro _ x
    simp
  | cons a t ih =>
    intro hnd x
    rw [List.map_cons, List.flatten_cons, List.count_append, List.count_replicate,
      ih (List.Nodup.of_cons hnd) x]
    by_cases hx : x = a
    · subst hx
      have hxt : x ∉ t := (List.nodup_cons.mp hnd).1
      simp [hxt]
    · simp [hx, Ne.symm hx]

lemma count_take_getD_le (l : List ItemM) (m n : ℕ) (x : ItemM)
    (hmn : m ≤ n) (hn : n < l.length) :
    (l.take m).count x + (if l.getD n 0 = x then 1 else 0) ≤ l.count x := by
  conv_rhs => rw [← List.take_append_drop m l]
  rw [List.count_append]
  have hx : (if l.getD n 0 = x then 1 else 0) ≤ (l.drop m).count x := by
    split_ifs with hl
    · have hdl : n - m < (l.drop m).length := by
        rw [List.length_drop]
        omega
      have hget : (l.drop m).get ⟨n - m, hdl⟩ = l[n] := by
        simp only [List.get_eq_getElem, List.getElem_drop]
        congr 1
        omega
      have hgd : l.getD n 0 = l[n] := List.getD_eq_getElem l 0 hn
      have hmem : x ∈ l.drop m := by
        rw [← hl, hgd, ← hget]
        exact List.get_mem _ _ hdl
      exact List.count_pos_iff.mpr hmem
    · exact Nat.zero_le _
  omega

lemma count_singleton_getD (l : List ItemM) (n : ℕ) (x : ItemM) :
    List.count x [l.getD n 0] = if l.getD n 0 = x then 1 else 0 := by
  rw [List.count_singleton']

lemma keyBucketStep_inv (ids : ItemIdsM) (diff : DifficultyM) (init remaining : List ℕ)
    (hse : diff.stop_item_placement_early = false)
    (acc : List ItemM × List ItemM × List ItemM) (i : ItemM)
    (hfresh1 : i ∉ acc.1) (hfresh2 : i ∉ acc.2.1) (hinv : KeyInv remaining acc) :
    KeyInv remaining (keyBucketStep ids diff init remaining acc i) ∧
    (∀ j, j ∉ acc.1 → j ∉ acc.2.1 → j ≠ i →
      j ∉ (keyBucketStep ids diff init remaining acc i).1 ∧
      j ∉ (keyBucketStep ids diff init remaining acc i).2.1) := by
  obtain ⟨h1, h2, h3, h4, h5, h6⟩ := hinv
  by_cases hg : 0 < remaining.getD i 0 ∨
      (diff.stop_item_placement_early ∧ i = ids.nothing)
  · have hpos : 0 < remaining.getD i 0 := by
      rcases hg with h | h
      · exact h
      · rw [hse] at h
        exact absurd h.1 (by simp)
    have hcnt0 : acc.2.2.count i = 0 := h6 i hfresh1 hfresh2
    have hkey1 : KeyInv remaining (acc.1 ++ [i], acc.2.1, acc.2.2) := by
      refine ⟨?_, h2, ?_, h4, h5, ?_⟩
      · rw [List.nodup_append]
        refine ⟨h1, List.nodup_singleton i, ?_⟩
        intro a ha hai
        rw [List.mem_singleton] at hai
        subst hai
        exact hfresh1 ha
      · intro x hx
        rcases List.mem_append.mp hx with hx | hx
        · exact h3 x hx
        · rw [List.mem_singleton] at hx
          subst hx
          exact ⟨hfresh2, hpos⟩
      · intro x hx1 hx2
        exact h6 x (fun hmem => hx1 (List.mem_append_left _ hmem)) hx2
    have hkey2 : KeyInv remaining (acc.1, acc.2.1 ++ [i], acc.2.2) := by
      refine ⟨h1, ?_, ?_, ?_, h5, ?_⟩
      · rw [List.nodup_append]
        refine ⟨h2, List.nodup_singleton i, ?_⟩
        intro a ha hai
        rw [List.mem_singleton] at hai
        subst hai
        exact hfresh2 ha
      · intro x hx
        refine ⟨fun hmem => ?_, (h3 x hx).2⟩
        rcases List.mem_append.mp hmem with hm | hm
        · exact (h3 x hx).1 hm
        · rw [List.mem_singleton] at hm
          subst hm
          exact hfresh1 hx
      · intro x hx
        rcases List.mem_append.mp hx with hx | hx
        · exact h4 x hx
        · rw [List.mem_singleton] at hx
          subst hx
          exact hpos
      · intro x hx1 hx2
        exact h6 x hx1 (fun hmem => hx2 (List.mem_append_left _ hmem))
    have hdup : ∀ b : List ItemM × List ItemM × List ItemM, KeyInv remaining b →
        b.2.2.count i = 0 → (i ∈ b.1 ∨ i ∈ b.2.1) →
        KeyInv remaining (if 2 ≤ remaining.getD i 0 then
          (b.1, b.2.1, b.2.2 ++ List.replicate (remaining.getD i 0 - 1) i) else b) := by
      intro b hb hb0 hbi
      obtain ⟨g1, g2, g3, g4, g5, g6⟩ := hb
      split_ifs with h2le
      · refine ⟨g1, g2, g3, g4, ?_, ?_⟩
        · intro x
          rw [List.count_append, List.count_replicate]
          by_cases hx : x = i
          · subst hx
            rw [hb0, if_pos (by simp)]
            omega
          · rw [if_neg (by simpa using Ne.symm hx)]
            simpa using g5 x
        · intro x hx1 hx2
          have hxi : x ≠ i := by
            intro hxe
            subst hxe
            rcases hbi with h | h
            · exact hx1 h
            · exact hx2 h
          rw [List.count_append, List.count_replicate,
            if_neg (by simpa using Ne.symm hxi), g6 x hx1 hx2]
      · exact ⟨g1, g2, g3, g4, g5, g6⟩
    have hfr1 : ∀ j, j ∉ acc.1 → j ∉ acc.2.1 → j ≠ i →
        j ∉ acc.1 ++ [i] ∧ j ∉ acc.2.1 := by
      intro j hj1 hj2 hji
      refine ⟨?_, hj2⟩
      intro hmem
      rcases List.mem_append.mp hmem with hm | hm
      · exact hj1 hm
      · rw [List.mem_singleton] at hm
        exact hji hm
    have hfr2 : ∀ j, j ∉ acc.1 → j ∉ acc.2.1 → j ≠ i →
        j ∉ acc.1 ∧ j ∉ acc.2.1 ++ [i] := by
      intro j hj1 hj2 hji
      refine ⟨hj1, ?_⟩
      intro hmem
      rcases List.mem_append.mp hmem with hm | hm
      · exact hj2 hm
      · rw [List.mem_singleton] at hm
        exact hji hm
    have hd1 := hdup _ hkey1 hcnt0 (Or.inl (by simp))
    have hd2 := hdup _ hkey2 hcnt0 (Or.inr (by simp))
    by_cases h2le : 2 ≤ remaining.getD i 0
    · rw [if_pos h2le] at hd1 hd2
      by_cases hslow : diff.progression_rate = .Slow
      · have e : keyBucketStep ids diff init remaining acc i =
            (acc.1 ++ [i], acc.2.1, acc.2.2 ++ List.replicate (remaining.getD i 0 - 1) i) := by
          rw [keyBucketStep, if_pos hg, if_pos h2le, if_pos hslow]
        rw [e]
        exact ⟨hd1, hfr1⟩
      · by_cases hfull : remaining.getD i 0 = init.getD i 0
        · have e : keyBucketStep ids diff init remaining acc i =
              (acc.1 ++ [i], acc.2.1, acc.2.2 ++
                List.replicate (remaining.getD i 0 - 1) i) := by
            rw [keyBucketStep, if_pos hg, if_pos h2le, if_neg hslow, if_pos hfull]
          rw [e]
          exact ⟨hd1, hfr1⟩
        · have e : keyBucketStep ids diff init remaining acc i =
              (acc.1, acc.2.1 ++ [i], acc.2.2 ++
                List.replicate (remaining.getD i 0 - 1) i) := by
            rw [keyBucketStep, if_pos hg, if_pos h2le, if_neg hslow, if_neg hfull]
          rw [e]
          exact ⟨hd2, hfr2⟩
    · rw [if_neg h2le] at hd1 hd2
      by_cases hslow : diff.progression_rate = .Slow
      · have e : keyBucketStep ids diff init remaining acc i =
            (acc.1 ++ [i], acc.2.1, acc.2.2) := by
          rw [keyBucketStep, if_pos hg, if_neg h2le, if_pos hslow]
        rw [e]
        exact ⟨hd1, hfr1⟩
      · by_cases hfull : remaining.getD i 0 = init.getD i 0
        · have e : keyBucketStep ids diff init remaining acc i =
              (acc.1 ++ [i], acc.2.1, acc.2.2) := by
            rw [keyBucketStep, if_pos hg, if_neg h2le, if_neg hslow, if_pos hfull]
          rw [e]
          exact ⟨hd1, hfr1⟩
        · have e : keyBucketStep ids diff init remaining acc i =
              (acc.1, acc.2.1 ++ [i], acc.2.2) := by
            rw [keyBucketStep, if_pos hg, if_neg h2le, if_neg hslow, if_neg hfull]
          rw [e]
          exact ⟨hd2, hfr2⟩
  · have hstep : keyBucketStep ids diff init remaining acc i = acc := by
      rw [keyBucketStep, if_neg hg]
    rw [hstep]
    exact ⟨⟨h1, h2, h3, h4, h5, h6⟩, fun j hj1 hj2 _ => ⟨hj1, hj2⟩⟩

lemma keyBuckets_fold_inv (ids : ItemIdsM) (diff : DifficultyM) (init remaining : List ℕ)
    (hse : diff.stop_item_placement_early = false) :
    ∀ (pre : List ItemM) (acc : List ItemM × List ItemM × List ItemM),
      pre.Nodup → (∀ i ∈ pre, i ∉ acc.1 ∧ i ∉ acc.2.1) → KeyInv remaining acc →
      KeyInv remaining (pre.foldl (keyBucketStep ids diff init remaining) acc) := by
  intro pre
  induction pre with
  | nil =>
    intro acc _ _ hinv
    exact hinv
  | cons i t ih =>
    intro acc hnd hfresh hinv
    rw [List.foldl_cons]
    obtain ⟨hstep, htrans⟩ := keyBucketStep_inv ids diff init remaining hse acc i
      (hfresh i (List.mem_cons_self i t)).1 (hfresh i (List.mem_cons_self i t)).2 hinv
    refine ih _ (List.Nodup.of_cons hnd) ?_ hstep
    intro j hj
    have hji : j ≠ i := by
      intro he
      subst he
      exact (List.nodup_cons.mp hnd).1 hj
    exact htrans j (hfresh j (List.mem_cons_of_mem _ hj)).1
      (hfresh j (List.mem_cons_of_mem _ hj)).2 hji

lemma keyPool_count_le (ids : ItemIdsM) (diff : DifficultyM) (init remaining : List ℕ)
    (pre : List ItemM) (hse : diff.stop_item_placement_early = false)
    (hnd : pre.Nodup) (x : ItemM) :
    (keyPool ids diff init remaining pre).count x ≤ remaining.getD x 0 := by
  have hinv := keyBuckets_fold_inv ids diff init remaining hse pre ([], [], [])
    hnd (fun i _ => ⟨by simp, by simp⟩)
    ⟨List.nodup_nil, List.nodup_nil, fun x hx => absurd hx (by simp),
      fun x hx => absurd hx (by simp), fun x => by simp, fun x _ _ => by simp⟩
  obtain ⟨h1, h2, h3, h4, h5, h6⟩ := hinv
  rw [keyPool, keyBuckets, List.count_append, List.count_append]
  set kb := List.foldl (keyBucketStep ids diff init remaining) ([], [], []) pre with hkb
  by_cases hx1 : x ∈ kb.1
  · have h3x := h3 x hx1
    rw [List.count_eq_one_of_mem h1 hx1, List.count_eq_zero_of_not_mem h3x.1]
    have := h5 x
    omega
  · rw [List.count_eq_zero_of_not_mem hx1]
    by_cases hx2 : x ∈ kb.2.1
    · rw [List.count_eq_one_of_mem h2 hx2]
      have := h4 x hx2
      have := h5 x
      omega
    · rw [List.count_eq_zero_of_not_mem hx2, h6 x hx1 hx2]
      omega

lemma keyCnt_le_pool_length (ids : ItemIdsM) (diff : DifficultyM)
    (init remaining : List ℕ) (pre : List ItemM) :
    keyCntDifferent ids diff init remaining pre ≤
      (keyPool ids diff init remaining pre).length := by
  rw [keyCntDifferent, keyPool, List.length_append, List.length_append]
  omega

lemma selectKeyItems_some_spec (ids : ItemIdsM) (diff : DifficultyM) (init : List ℕ)
    (state : RandomizationStateM) (numKey a : ℕ) (keys : List ItemM)
    (hse : diff.stop_item_placement_early = false)
    (hnd : state.item_precedence.Nodup)
    (h0 : numKey ≤
      (keyPool ids diff init state.items_remaining state.item_precedence).length)
    (hsel : selectKeyItems ids diff init state numKey a = some keys) :
    (∀ x, keys.count x ≤ state.items_remaining.getD x 0) ∧ keys.length = numKey := by
  rw [selectKeyItems_eq] at hsel
  by_cases h1 : 1 ≤ numKey
  · rw [if_pos h1] at hsel
    by_cases hguard : 0 < a ∧ keyCntDifferent ids diff init state.items_remaining
        state.item_precedence ≤ numKey - 1 + a
    · rw [if_pos hguard] at hsel
      exact absurd hsel (by simp)
    · rw [if_neg hguard] at hsel
      have hkeys := Option.some.inj hsel
      have hcnt := keyCnt_le_pool_length ids diff init state.items_remaining
        state.item_precedence
      have hidx : numKey - 1 + a <
          (keyPool ids diff init state.items_remaining state.item_precedence).length := by
        rcases Nat.eq_zero_or_pos a with ha | ha
        · subst ha
          omega
        · have : ¬(keyCntDifferent ids diff init state.items_remaining
              state.item_precedence ≤ numKey - 1 + a) := fun hc => hguard ⟨ha, hc⟩
          omega
      subst hkeys
      constructor
      · intro x
        rw [List.count_append, count_singleton_getD]
        exact le_trans (count_take_getD_le _ _ _ _ (by omega) hidx)
          (keyPool_count_le ids diff init state.items_remaining state.item_precedence
            hse hnd x)
      · rw [List.length_append, List.length_take]
        simp only [List.length_singleton]
        omega
  · rw [if_neg h1] at hsel
    by_cases ha : 0 < a
    · rw [if_pos ha] at hsel
      exact absurd hsel (by simp)
    · rw [if_neg ha] at hsel
      have hkeys := Option.some.inj hsel
      subst hkeys
      exact ⟨fun x => by simp, by simp; omega⟩

lemma selectKeyItems_none_of_ge (ids : ItemIdsM) (diff : DifficultyM) (init : List ℕ)
    (state : RandomizationStateM) (numKey a : ℕ)
    (ha : keyCntDifferent ids diff init state.items_remaining
      state.item_precedence + 1 ≤ a) :
    selectKeyItems ids diff init state numKey a = none := by
  rw [selectKeyItems_eq]
  by_cases h1 : 1 ≤ numKey
  · rw [if_pos h1, if_pos ⟨by omega, by omega⟩]
  · rw [if_neg h1, if_pos (by omega)]

lemma selectKeyItems_zero_isSome (ids : ItemIdsM) (diff : DifficultyM) (init : List ℕ)
    (state : RandomizationStateM) (numKey : ℕ) :
    (selectKeyItems ids diff init state numKey 0).isSome = true := by
  rw [selectKeyItems_eq]
  by_cases h1 : 1 ≤ numKey
  · rw [if_pos h1, if_neg (by simp)]
    rfl
  · rw [if_neg h1, if_neg (by simp)]
    rfl

lemma not_mem_append_singleton {j i : ItemM} {l : List ItemM} (hj : j ∉ l) (hji : j ≠ i) :
    j ∉ l ++ [i] := by
  intro hmem
  rcases List.mem_append.mp hmem with hm | hm
  · exact hj hm
  · rw [List.mem_singleton] at hm
    exact hji hm

lemma nodup_append_singleton {i : ItemM} {l : List ItemM} (hl : l.Nodup) (hi : i ∉ l) :
    (l ++ [i]).Nodup := by
  rw [List.nodup_append]
  refine ⟨hl, List.nodup_singleton i, ?_⟩
  intro a ha hai
  rw [List.mem_singleton] at hai
  subst hai
  exact hi ha

lemma fillerBucketStep_inv (ids : ItemIdsM) (diff : DifficultyM) (init remaining : List ℕ)
    (acc : List ItemM × List ItemM × List ItemM × List ItemM) (i : ItemM)
    (hfresh : i ≠ ids.missile → i ≠ ids.nothing →
      i ∉ acc.2.1 ∧ i ∉ acc.2.2.1 ∧ i ∉ acc.2.2.2)
    (hinv : FillerInv remaining acc) :
    FillerInv remaining (fillerBucketStep ids diff init remaining acc i) ∧
    (∀ j, j ≠ i → j ∉ acc.2.1 → j ∉ acc.2.2.1 → j ∉ acc.2.2.2 →
      j ∉ (fillerBucketStep ids diff init remaining acc i).2.1 ∧
      j ∉ (fillerBucketStep ids diff init remaining acc i).2.2.1 ∧
      j ∉ (fillerBucketStep ids diff init remaining acc i).2.2.2) := by
  obtain ⟨h1, h2, h3, h4, h5, h6, h7⟩ := hinv
  rw [fillerBucketStep]
  split_ifs with hc0 hc1 hc2 hc3
  · exact ⟨⟨h1, h2, h3, h4, h5, h6, h7⟩, fun j _ hj1 hj2 hj3 => ⟨hj1, hj2, hj3⟩⟩
  · rw [not_or, not_or] at hc0
    obtain ⟨him, hin, hrem⟩ := hc0
    obtain ⟨hf1, hf2, hf3⟩ := hfresh him hin
    have hib1 : i ∉ acc.1 := fun hmem => hf1 (h5 i hmem).1
    have hpos : 0 < remaining.getD i 0 := Nat.pos_of_ne_zero hrem
    refine ⟨⟨nodup_append_singleton h1 hib1, nodup_append_singleton h2 hf1, h3, h4,
      ?_, ?_, h7⟩, ?_⟩
    · intro x hx
      rcases List.mem_append.mp hx with hx | hx
      · exact ⟨List.mem_append_left _ (h5 x hx).1, (h5 x hx).2⟩
      · rw [List.mem_singleton] at hx
        subst hx
        exact ⟨List.mem_append_right _ (by simp), hpos⟩
    · intro x hx
      rcases List.mem_append.mp hx with hx | hx
      · exact h6 x hx
      · rw [List.mem_singleton] at hx
        subst hx
        exact ⟨hf2, hf3⟩
    · intro j hji hj1 hj2 hj3
      exact ⟨not_mem_append_singleton hj1 hji, hj2, hj3⟩
  · rw [not_or, not_or] at hc0
    obtain ⟨him, hin, hrem⟩ := hc0
    obtain ⟨hf1, hf2, hf3⟩ := hfresh him hin
    refine ⟨⟨h1, nodup_append_singleton h2 hf1, h3, h4, ?_, ?_, h7⟩, ?_⟩
    · intro x hx
      exact ⟨List.mem_append_left _ (h5 x hx).1, (h5 x hx).2⟩
    · intro x hx
      rcases List.mem_append.mp hx with hx | hx
      · exact h6 x hx
      · rw [List.mem_singleton] at hx
        subst hx
        exact ⟨hf2, hf3⟩
    · intro j hji hj1 hj2 hj3
      exact ⟨not_mem_append_singleton hj1 hji, hj2, hj3⟩
  · rw [not_or, not_or] at hc0
    obtain ⟨him, hin, hrem⟩ := hc0
    obtain ⟨hf1, hf2, hf3⟩ := hfresh him hin
    refine ⟨⟨h1, h2, nodup_append_singleton h3 hf2, h4, h5, ?_, ?_⟩, ?_⟩
    · intro x hx
      have hxi : x ≠ i := fun he => hf1 (he ▸ hx)
      exact ⟨not_mem_append_singleton (h6 x hx).1 hxi, (h6 x hx).2⟩
    · intro x hx
      rcases List.mem_append.mp hx with hx | hx
      · exact h7 x hx
      · rw [List.mem_singleton] at hx
        subst hx
        exact hf3
    · intro j hji hj1 hj2 hj3
      exact ⟨hj1, not_mem_append_singleton hj2 hji, hj3⟩
  · rw [not_or, not_or] at hc0
    obtain ⟨him, hin, hrem⟩ := hc0
    obtain ⟨hf1, hf2, hf3⟩ := hfresh him hin
    refine ⟨⟨h1, h2, h3, nodup_append_singleton h4 hf3, h5, ?_, ?_⟩, ?_⟩
    · intro x hx
      have hxi : x ≠ i := fun he => hf1 (he ▸ hx)
      exact ⟨(h6 x hx).1, not_mem_append_singleton (h6 x hx).2 hxi⟩
    · intro x hx
      have hxi : x ≠ i := fun he => hf2 (he ▸ hx)
      exact not_mem_append_singleton (h7 x hx) hxi
    · intro j hji hj1 hj2 hj3
      exact ⟨hj1, hj2, not_mem_append_singleton hj3 hji⟩

lemma fillerBuckets_fold_inv (ids : ItemIdsM) (diff : DifficultyM)
    (init remaining : List ℕ) :
    ∀ (pre : List ItemM) (acc : List ItemM × List ItemM × List ItemM × List ItemM),
      pre.Nodup →
      (∀ i ∈ pre, i ≠ ids.missile → i ≠ ids.nothing →
        i ∉ acc.2.1 ∧ i ∉ acc.2.2.1 ∧ i ∉ acc.2.2.2) →
      FillerInv remaining acc →
      FillerInv remaining
        (pre.foldl (fillerBucketStep ids diff init remaining) acc) := by
  intro pre
  induction pre with
  | nil =>
    intro acc _ _ hinv
    exact hinv
  | cons i t ih =>
    intro acc hnd hfresh hinv
    rw [List.foldl_cons]
    obtain ⟨hstep, htrans⟩ := fillerBucketStep_inv ids diff init remaining acc i
      (hfresh i (List.mem_cons_self i t)) hinv
    refine ih _ (List.Nodup.of_cons hnd) ?_ hstep
    intro j hj hjm hjn
    have hji : j ≠ i := by
      intro he
      subst he
      exact (List.nodup_cons.mp hnd).1 hj
    have hold := hfresh j (List.mem_cons_of_mem _ hj) hjm hjn
    exact htrans j hji hold.1 hold.2.1 hold.2.2

lemma findIdx_beq_spec {l : List ItemM} {v : ItemM} {i : ℕ}
    (h : l.findIdx? (fun y => y == v) = some i) : ∃ hi : i < l.length, l[i] = v := by
  rw [List.findIdx?_eq_some_iff_findIdx_eq] at h
  obtain ⟨hlt, hidx⟩ := h
  subst hidx
  refine ⟨hlt, ?_⟩
  have hp := @List.findIdx_getElem _ (fun y => y == v) l hlt
  simpa using hp

lemma count_set_set_swap (l : List ItemM) (p s : ℕ) (hp : p < l.length)
    (hs : s < l.length) (hps : p ≠ s) (x : ItemM) :
    ((l.set p (l.get ⟨s, hs⟩)).set s (l.get ⟨p, hp⟩)).count x = l.count x := by
  have hs' : s < (l.set p (l.get ⟨s, hs⟩)).length := by
    rw [List.length_set]
    exact hs
  rw [List.count_set _ _ _ _ hs', List.count_set _ _ _ _ hp]
  have hgs : (l.set p (l.get ⟨s, hs⟩))[s] = l.get ⟨s, hs⟩ := by
    rw [List.getElem_set_ne hps]
    rfl
  rw [hgs]
  have hpm : l.get ⟨p, hp⟩ ∈ l := List.get_mem _ _ _
  have hsm : l.get ⟨s, hs⟩ ∈ l := List.get_mem _ _ _
  have hgp : l[p] = l.get ⟨p, hp⟩ := rfl
  rw [hgp]
  by_cases hxp : (l.get ⟨p, hp⟩ == x) = true
  · have hcp : 1 ≤ l.count x := by
      refine List.count_pos_iff.mpr ?_
      have he : l.get ⟨p, hp⟩ = x := by simpa using hxp
      rwa [he] at hpm
    by_cases hxs : (l.get ⟨s, hs⟩ == x) = true
    · rw [if_pos hxp, if_pos hxs]
      omega
    · rw [if_pos hxp, if_neg hxs]
      omega
  · by_cases hxs : (l.get ⟨s, hs⟩ == x) = true
    · rw [if_neg hxp, if_pos hxs]
      omega
    · rw [if_neg hxp, if_neg hxs]
      omega

lemma applySpazerPlasma_count (ids : ItemIdsM) (l : List ItemM) (x : ItemM) :
    (applySpazerPlasma ids l).count x = l.count x := by
  rw [applySpazerPlasma]
  cases hs : l.findIdx? (fun y => y == ids.spazer) with
  | none => rfl
  | some s =>
    cases hp : l.findIdx? (fun y => y == ids.plasma) with
    | none => rfl
    | some p =>
      show List.count x
        (if p < s then (l.set p ids.spazer).set s ids.plasma else l) = List.count x l
      by_cases hlt : p < s
      · rw [if_pos hlt]
        obtain ⟨hsl, hsv⟩ := findIdx_beq_spec hs
        obtain ⟨hpl, hpv⟩ := findIdx_beq_spec hp
        have hps : p ≠ s := Nat.ne_of_lt hlt
        have he1 : ids.spazer = l.get ⟨s, hsl⟩ := hsv.symm
        have he2 : ids.plasma = l.get ⟨p, hpl⟩ := hpv.symm
        rw [he1, he2]
        exact count_set_set_swap l p s hpl hsl hps x
      · rw [if_neg hlt]

lemma fillerItemsAll_count_le (ids : ItemIdsM) (diff : DifficultyM)
    (init remaining : List ℕ) (sm : List ItemM → List ItemM) (pre : List ItemM)
    (hse : diff.stop_item_placement_early = false)
    (hsm : ∀ l, (sm l).Perm l) (hmn : ids.missile ≠ ids.nothing)
    (hnd : pre.Nodup) (x : ItemM) :
    (fillerItemsAll ids diff init remaining sm pre).count x ≤ remaining.getD x 0 := by
  have hinv : FillerInv remaining (fillerBuckets ids diff init remaining pre) :=
    fillerBuckets_fold_inv ids diff init remaining pre
      ([], [ids.missile, ids.nothing], [], []) hnd
      (fun i _ him hin => ⟨by simp [him, hin], by simp, by simp⟩)
      ⟨List.nodup_nil, by simp [hmn], List.nodup_nil, List.nodup_nil,
        fun y hy => absurd hy (by simp),
        fun y _ => ⟨by simp, by simp⟩, fun y hy => absurd hy (by simp)⟩
  obtain ⟨h1, h2, h3, h4, h5, h6, h7⟩ := hinv
  simp only [fillerItemsAll]
  set b := fillerBuckets ids diff init remaining pre with hb
  have hext : (fun item => List.replicate (remaining.getD item 0)
      (if diff.stop_item_placement_early then ids.nothing else item)) =
      (fun item => List.replicate (remaining.getD item 0) item) := by
    funext item
    rw [hse]
    simp
  rw [hext]
  have hcore : (b.1 ++ sm ((b.2.1.map (fun item =>
      List.replicate (remaining.getD item 0 -
        (if item ∈ b.1 then 1 else 0)) item)).flatten) ++
      (b.2.2.1.map (fun item => List.replicate (remaining.getD item 0) item)).flatten ++
      (b.2.2.2.map (fun item =>
        List.replicate (remaining.getD item 0) item)).flatten).count x ≤
      remaining.getD x 0 := by
    rw [List.count_append, List.count_append, List.count_append,
      (hsm _).count_eq,
      count_flatten_replicate _ _ h2 x,
      count_flatten_replicate _ _ h3 x,
      count_flatten_replicate _ _ h4 x]
    by_cases hx1 : x ∈ b.1
    · have h5x := h5 x hx1
      have h6x := h6 x h5x.1
      rw [List.count_eq_one_of_mem h1 hx1, if_pos h5x.1, if_pos hx1,
        if_neg h6x.1, if_neg h6x.2]
      have := h5x.2
      omega
    · rw [List.count_eq_zero_of_not_mem hx1]
      by_cases hx2 : x ∈ b.2.1
      · have h6x := h6 x hx2
        rw [if_pos hx2, if_neg hx1, if_neg h6x.1, if_neg h6x.2]
        omega
      · rw [if_neg hx2]
        by_cases hx3 : x ∈ b.2.2.1
        · rw [if_pos hx3, if_neg (h7 x hx3)]
          omega
        · rw [if_neg hx3]
          by_cases hx4 : x ∈ b.2.2.2
          · rw [if_pos hx4]
            omega
          · rw [if_neg hx4]
            omega
  split_ifs with hsp
  · rw [applySpazerPlasma_count]
    exact hcore
  · exact hcore

lemma decrementItems_exact :
    ∀ (items : List ItemM) (rem : List ℕ),
      (∀ x, items.count x ≤ rem.getD x 0) →
      (∀ x, (decrementItems rem items).getD x 0 = rem.getD x 0 - items.count x) ∧
      (decrementItems rem items).sum + items.length = rem.sum ∧
      (decrementItems rem items).length = rem.length := by
  intro items
  induction items with
  | nil =>
    intro rem _
    refine ⟨fun x => ?_, ?_, ?_⟩
    · simp [decrementItems]
    · simp [decrementItems]
    · simp [decrementItems]
  | cons i t ih =>
    intro rem hbound
    have hipos : 0 < rem.getD i 0 := by
      have := hbound i
      rw [List.count_cons_self] at this
      omega
    have hilt : i < rem.length := getD_pos_lt_length rem i hipos
    have hstep : decrementItems rem (i :: t) =
        decrementItems (rem.set i (rem.getD i 0 - 1)) t := by
      rw [decrementItems, List.foldl_cons, if_pos hipos]
      rfl
    have hb' : ∀ x, t.count x ≤ (rem.set i (rem.getD i 0 - 1)).getD x 0 := by
      intro x
      by_cases hxi : x = i
      · subst hxi
        rw [getD_set_self_nat, if_pos hilt]
        have := hbound x
        rw [List.count_cons_self] at this
        omega
      · rw [getD_set_ne_nat _ _ _ _ (Ne.symm hxi)]
        have := hbound x
        rw [List.count_cons_of_ne hxi] at this
        exact this
    obtain ⟨ihg, ihs, ihl⟩ := ih _ hb'
    have hsum := sum_set_add_getD rem i (rem.getD i 0 - 1) hilt
    refine ⟨fun x => ?_, ?_, ?_⟩
    · rw [hstep, ihg x]
      by_cases hxi : x = i
      · subst hxi
        rw [getD_set_self_nat, if_pos hilt, List.count_cons_self]
        omega
      · rw [getD_set_ne_nat _ _ _ _ (Ne.symm hxi), List.count_cons_of_ne hxi]
    · rw [hstep, List.length_cons]
      omega
    · rw [hstep, ihl, List.length_set]

lemma placedCount_eq_placedList (ils : List ItemLocationStateM) (x : ItemM) :
    placedCount ils x = ((placedList ils).filterMap id).count x := by
  rw [placedCount, placedList, List.filterMap_map]
  rfl

lemma somesCount_eq_placedList (ils : List ItemLocationStateM) :
    somesCount ils = ((placedList ils).filterMap id).length := by
  rw [somesCount, placedList, List.filterMap_map]
  rfl

lemma nonesCount_eq_placedList (ils : List ItemLocationStateM) :
    nonesCount ils = (placedList ils).countP (fun o => o.isNone) := by
  rw [nonesCount, ← List.countP_eq_length_filter, placedList, List.countP_map]
  rfl

lemma length_placedList (ils : List ItemLocationStateM) :
    (placedList ils).length = ils.length := List.length_map _ _

lemma placedList_facts {ils ils' : List ItemLocationStateM}
    (h : placedList ils = placedList ils') :
    (∀ x, placedCount ils x = placedCount ils' x) ∧ somesCount ils = somesCount ils' ∧
      nonesCount ils = nonesCount ils' ∧ ils.length = ils'.length := by
  refine ⟨fun x => ?_, ?_, ?_, ?_⟩
  · rw [placedCount_eq_placedList, placedCount_eq_placedList, h]
  · rw [somesCount_eq_placedList, somesCount_eq_placedList, h]
  · rw [nonesCount_eq_placedList, nonesCount_eq_placedList, h]
  · rw [← length_placedList ils, ← length_placedList ils', h]

lemma map_zipWith_right {α β δ : Type} (g : β → δ) (f : α → β → β)
    (hgf : ∀ a b, g (f a b) = g b) :
    ∀ (l₁ : List α) (l₂ : List β), l₁.length = l₂.length →
      (List.zipWith f l₁ l₂).map g = l₂.map g := by
  intro l₁
  induction l₁ with
  | nil =>
    intro l₂ h
    rw [List.length_nil] at h
    rw [List.length_eq_zero.mp h.symm]
    rfl
  | cons a t ih =>
    intro l₂ h
    cases l₂ with
    | nil => simp at h
    | cons b t₂ =>
      rw [List.zipWith_cons_cons, List.map_cons, List.map_cons, hgf,
        ih t₂ (by simpa using h)]

lemma updateReachability_placedList (gd : GameStaticData) (oracle : ReachOracle)
    (s : RandomizationStateM)
    (hlen : gd.item_vertex_ids.length = s.item_location_state.length) :
    placedList (updateReachability gd oracle s).item_location_state =
      placedList s.item_location_state := by
  show placedList (List.zipWith (updateItemLocation oracle s.global_state)
    gd.item_vertex_ids s.item_location_state) = placedList s.item_location_state
  rw [placedList, placedList]
  have hgf : ∀ (a : List ℕ) (b : ItemLocationStateM),
      (updateItemLocation oracle s.global_state a b).placed_item = b.placed_item :=
    fun a b => rfl
  exact map_zipWith_right (fun st => st.placed_item)
    (updateItemLocation oracle s.global_state) hgf _ _ hlen

lemma updateReachability_ils_length (gd : GameStaticData) (oracle : ReachOracle)
    (s : RandomizationStateM)
    (hlen : gd.item_vertex_ids.length = s.item_location_state.length) :
    (updateReachability gd oracle s).item_location_state.length =
      s.item_location_state.length := by
  show (List.zipWith (updateItemLocation oracle s.global_state)
    gd.item_vertex_ids s.item_location_state).length = s.item_location_state.length
  rw [List.length_zipWith]
  omega

lemma closureLoop_state_facts (gd : GameStaticData) (oracle : ReachOracle) :
    ∀ (fuel : ℕ) (s : RandomizationStateM),
      gd.item_vertex_ids.length = s.item_location_state.length →
      placedList (closureLoop gd oracle fuel s).item_location_state =
        placedList s.item_location_state ∧
      (closureLoop gd oracle fuel s).item_location_state.length =
        s.item_location_state.length ∧
      (closureLoop gd oracle fuel s).items_remaining = s.items_remaining ∧
      (closureLoop gd oracle fuel s).item_precedence = s.item_precedence := by
  intro fuel
  induction fuel with
  | zero =>
    intro s _
    exact ⟨rfl, rfl, rfl, rfl⟩
  | succ fuel ih =>
    intro s hlen
    rw [closureLoop]
    by_cases hupd : (closureDoorsPass s (closureFlagsPass gd s).1
        (closureFlagsPass gd s).2).2
    · rw [if_pos hupd]
      have hur_p := updateReachability_placedList gd oracle
        { s with global_state := (closureDoorsPass s (closureFlagsPass gd s).1
          (closureFlagsPass gd s).2).1 } hlen
      have hur_l := updateReachability_ils_length gd oracle
        { s with global_state := (closureDoorsPass s (closureFlagsPass gd s).1
          (closureFlagsPass gd s).2).1 } hlen
      have hlen2 : gd.item_vertex_ids.length =
          (updateReachability gd oracle { s with global_state :=
            (closureDoorsPass s (closureFlagsPass gd s).1
              (closureFlagsPass gd s).2).1 }).item_location_state.length := by
        rw [hur_l]
        exact hlen
      obtain ⟨p1, p2, p3, p4⟩ := ih _ hlen2
      refine ⟨?_, ?_, ?_, ?_⟩
      · rw [p1, hur_p]
      · rw [p2, hur_l]
      · rw [p3]
        rfl
      · rw [p4]
        rfl
    · rw [if_neg hupd]
      exact ⟨rfl, rfl, rfl, rfl⟩

lemma map_modify {α β : Type} (g : α → β) (f : α → α) (h : ∀ a, g (f a) = g a) :
    ∀ (n : ℕ) (l : List α), (l.modify f n).map g = l.map g := by
  intro n
  induction n with
  | zero =>
    intro l
    cases l with
    | nil => rfl
    | cons a t =>
      rw [List.modify_zero_cons, List.map_cons, List.map_cons, h]
  | succ n ih =>
    intro l
    cases l with
    | nil => rfl
    | cons a t =>
      rw [List.modify_succ_cons, List.map_cons, List.map_cons, ih]

lemma markCollected_placedList (ils : List ItemLocationStateM) :
    ∀ locs : List ℕ, placedList (markCollected ils locs) = placedList ils := by
  suffices h : ∀ (locs : List ℕ) (ils₀ : List ItemLocationStateM),
      placedList (locs.foldl
        (fun acc loc => List.modify (fun s => { s with collected := true }) loc acc) ils₀) =
        placedList ils₀ by
    intro locs
    exact h locs ils
  intro locs
  induction locs with
  | nil =>
    intro ils₀
    rfl
  | cons loc t ih =>
    intro ils₀
    rw [List.foldl_cons, ih, placedList, placedList]
    exact map_modify (fun s => s.placed_item)
      (fun s => { s with collected := true }) (fun a => rfl) loc ils₀

lemma providesProgression_state_facts (gd : GameStaticData) (oracle : ReachOracle)
    (oldState newState : RandomizationStateM)
    (keyItems fillerItems placedUncollected : List ItemM) (numUnplacedBireachable : ℕ)
    (hlen : gd.item_vertex_ids.length = newState.item_location_state.length) :
    placedList (providesProgression gd oracle oldState newState keyItems fillerItems
        placedUncollected numUnplacedBireachable).1.item_location_state =
      placedList newState.item_location_state ∧
    (providesProgression gd oracle oldState newState keyItems fillerItems
        placedUncollected numUnplacedBireachable).1.item_location_state.length =
      newState.item_location_state.length ∧
    (providesProgression gd oracle oldState newState keyItems fillerItems
        placedUncollected numUnplacedBireachable).1.items_remaining =
      newState.items_remaining ∧
    (providesProgression gd oracle oldState newState keyItems fillerItems
        placedUncollected numUnplacedBireachable).1.item_precedence =
      newState.item_precedence := by
  have hp := updateReachability_placedList gd oracle
    (collectItemsState newState (placedUncollected ++
      (keyItems ++ fillerItems).take numUnplacedBireachable)) hlen
  have hl := updateReachability_ils_length gd oracle
    (collectItemsState newState (placedUncollected ++
      (keyItems ++ fillerItems).take numUnplacedBireachable)) hlen
  exact ⟨hp, hl, rfl, rfl⟩

lemma enum_filter_map_fst_nodup {α : Type} (p : ℕ × α → Bool) (l : List α) :
    ((l.enum.filter p).map Prod.fst).Nodup := by
  have hsub : List.Sublist ((l.enum.filter p).map Prod.fst) (l.enum.map Prod.fst) :=
    (List.filter_sublist _).map Prod.fst
  exact (List.nodup_enum_map_fst l).sublist hsub

lemma mem_enum_filter_map_fst {α : Type} {p : ℕ × α → Bool} {l : List α} {i : ℕ}
    (h : i ∈ (l.enum.filter p).map Prod.fst) :
    ∃ a, l[i]? = some a ∧ p (i, a) = true := by
  rw [List.mem_map] at h
  obtain ⟨q, hq, hfst⟩ := h
  rw [List.mem_filter] at hq
  obtain ⟨hqm, hqp⟩ := hq
  have hget := List.mem_enum_iff_get?.mp hqm
  refine ⟨q.2, ?_, ?_⟩
  · rw [← hfst, ← List.get?_eq_getElem?]
    exact hget
  · rw [← hfst]
    simpa using hqp

lemma swapAt_count (l : List ℕ) (i j : ℕ) (hi : i < l.length) (hj : j < l.length)
    (x : ℕ) : (swapAt l i j).count x = l.count x := by
  by_cases hij : i = j
  · subst hij
    rw [swapAt, List.set_set]
    have hmem : l[i] ∈ l := List.getElem_mem hi
    rw [List.count_set _ _ _ _ hi, List.getD_eq_getElem l 0 hi]
    by_cases hx : (l[i] == x) = true
    · have hc : 1 ≤ l.count x := by
        refine List.count_pos_iff.mpr ?_
        have he : l[i] = x := by simpa using hx
        rwa [he] at hmem
      rw [if_pos hx]
      omega
    · rw [if_neg hx]
      omega
  · rw [swapAt, List.getD_eq_getElem l 0 hi, List.getD_eq_getElem l 0 hj]
    have he1 : l[j] = l.get ⟨j, hj⟩ := rfl
    have he2 : l[i] = l.get ⟨i, hi⟩ := rfl
    rw [he1, he2]
    exact count_set_set_swap l i j hi hj hij x

lemma swapAt_perm (l : List ℕ) (i j : ℕ) (hi : i < l.length) (hj : j < l.length) :
    (swapAt l i j).Perm l := by
  rw [List.perm_iff_count]
  intro x
  exact swapAt_count l i j hi hj x

lemma hardSwapAux_perm (hardIdx : ℕ → ℕ) :
    ∀ (k i : ℕ) (l : List ℕ), (∀ m < k, (i + m) + hardIdx (i + m) < l.length) →
      i + k ≤ l.length → (hardSwapAux hardIdx i k l).Perm l := by
  intro k
  induction k with
  | zero =>
    intro i l _ _
    exact List.Perm.refl _
  | succ k ih =>
    intro i l hm hik
    rw [hardSwapAux]
    have hi : i < l.length := by omega
    have hj : i + hardIdx i < l.length := by
      have := hm 0 (by omega)
      simpa using this
    have hswlen : (swapAt l i (i + hardIdx i)).length = l.length := length_swapAt _ _ _
    refine (ih (i + 1) _ ?_ ?_).trans (swapAt_perm l i _ hi hj)
    · intro m hmk
      rw [hswlen]
      have hx := hm (m + 1) (by omega)
      have he : i + (m + 1) = (i + 1) + m := by omega
      rwa [he] at hx
    · rw [hswlen]
      omega

lemma newBireachableLocs_perm (forced : Bool) (hardIdx : ℕ → ℕ) (keyLen : ℕ)
    (bl : List ℕ) (hm : ∀ m < keyLen, m + hardIdx m < bl.length)
    (hk : keyLen ≤ bl.length) :
    (newBireachableLocs forced hardIdx keyLen bl).Perm bl := by
  rw [newBireachableLocs]
  split_ifs
  · refine hardSwapAux_perm hardIdx keyLen 0 bl ?_ (by omega)
    intro m hmk
    simpa using hm m hmk
  · exact List.Perm.refl _

lemma getD_set_ne_opt (l : List (Option ItemM)) (i j : ℕ) (a : Option ItemM)
    (h : i ≠ j) : (l.set i a).getD j none = l.getD j none := by
  rw [List.getD_eq_getElem?_getD, List.getElem?_set_ne h, ← List.getD_eq_getElem?_getD]

lemma placedList_modify_set (ils : List ItemLocationStateM) (loc : ℕ) (it : ItemM)
    (hloc : loc < ils.length) :
    placedList (List.modify (fun s => { s with placed_item := some it }) loc ils) =
      (placedList ils).set loc (some it) := by
  rw [placedList, placedList, List.modify_eq_take_cons_drop hloc, List.map_append,
    List.map_cons]
  have hlm : loc < (List.map (fun s => s.placed_item) ils).length := by
    rw [List.length_map]
    exact hloc
  rw [List.set_eq_take_cons_drop _ hlm, ← List.map_take, ← List.map_drop]

lemma count_filterMap_id_set_some (m : List (Option ItemM)) (loc : ℕ) (v : ItemM)
    (hloc : loc < m.length) (hnone : m[loc] = none) :
    (∀ x, ((m.set loc (some v)).filterMap id).count x =
      (m.filterMap id).count x + List.count x [v]) ∧
    ((m.set loc (some v)).filterMap id).length = (m.filterMap id).length + 1 := by
  have hm : m = m.take loc ++ m[loc] :: m.drop (loc + 1) := by
    conv_lhs => rw [← List.take_append_drop loc m, List.drop_eq_getElem_cons hloc]
  have hL : (m.set loc (some v)).filterMap id =
      (m.take loc).filterMap id ++ v :: (m.drop (loc + 1)).filterMap id := by
    rw [List.set_eq_take_cons_drop _ hloc, List.filterMap_append]
    rfl
  have hR : m.filterMap id =
      (m.take loc).filterMap id ++ (m.drop (loc + 1)).filterMap id := by
    conv_lhs => rw [hm]
    rw [List.filterMap_append, hnone]
    rfl
  constructor
  · intro x
    rw [hL, hR]
    simp only [List.count_append, List.count_cons, List.count_nil]
    omega
  · rw [hL, hR, List.length_append, List.length_append, List.length_cons]
    omega

lemma placeFold_facts :
    ∀ (pairs : List (ℕ × ItemM)) (ils : List ItemLocationStateM),
      (pairs.map Prod.fst).Nodup →
      (∀ p ∈ pairs, p.1 < ils.length ∧ (placedList ils).getD p.1 none = none) →
      (∀ x, placedCount (pairs.foldl
          (fun acc p => List.modify (fun s => { s with placed_item := some p.2 }) p.1 acc)
          ils) x = placedCount ils x + (pairs.map Prod.snd).count x) ∧
      somesCount (pairs.foldl
        (fun acc p => List.modify (fun s => { s with placed_item := some p.2 }) p.1 acc)
        ils) = somesCount ils + pairs.length ∧
      (pairs.foldl
        (fun acc p => List.modify (fun s => { s with placed_item := some p.2 }) p.1 acc)
        ils).length = ils.length := by
  intro pairs
  induction pairs with
  | nil =>
    intro ils _ _
    exact ⟨fun x => by simp, by simp, rfl⟩
  | cons p t ih =>
    intro ils hnd hcond
    obtain ⟨hloc, hnone⟩ := hcond p (List.mem_cons_self p t)
    have hlocm : p.1 < (placedList ils).length := by
      rw [length_placedList]
      exact hloc
    have hnone' : (placedList ils)[p.1] = none := by
      rw [← List.getD_eq_getElem (placedList ils) none hlocm]
      exact hnone
    have hpl := placedList_modify_set ils p.1 p.2 hloc
    obtain ⟨hcnt, hlen⟩ := count_filterMap_id_set_some (placedList ils) p.1 p.2 hlocm hnone'
    have hlen' : (List.modify (fun s => { s with placed_item := some p.2 })
        p.1 ils).length = ils.length := by
      rw [← length_placedList, hpl, List.length_set, length_placedList]
    have hcond' : ∀ q ∈ t, q.1 < (List.modify
        (fun s => { s with placed_item := some p.2 }) p.1 ils).length ∧
        (placedList (List.modify (fun s => { s with placed_item := some p.2 })
          p.1 ils)).getD q.1 none = none := by
      intro q hq
      have hqp : q.1 ≠ p.1 := by
        intro he
        have : q.1 ∈ (t.map Prod.fst) := List.mem_map_of_mem _ hq
        rw [he] at this
        exact (List.nodup_cons.mp (by simpa using hnd)).1 this
      refine ⟨by rw [hlen']; exact (hcond q (List.mem_cons_of_mem _ hq)).1, ?_⟩
      rw [hpl, getD_set_ne_opt _ _ _ _ (Ne.symm hqp)]
      exact (hcond q (List.mem_cons_of_mem _ hq)).2
    obtain ⟨ihc, ihs, ihl⟩ := ih _ (List.Nodup.of_cons (by simpa using hnd)) hcond'
    refine ⟨fun x => ?_, ?_, ?_⟩
    · rw [List.foldl_cons, ihc x]
      have hc : placedCount (List.modify (fun s => { s with placed_item := some p.2 })
          p.1 ils) x = placedCount ils x + List.count x [p.2] := by
        rw [placedCount_eq_placedList, placedCount_eq_placedList, hpl]
        exact hcnt x
      rw [hc]
      simp only [List.map_cons, List.count_cons, List.count_nil]
      omega
    · rw [List.foldl_cons, ihs]
      have hs : somesCount (List.modify (fun s => { s with placed_item := some p.2 })
          p.1 ils) = somesCount ils + 1 := by
        rw [somesCount_eq_placedList, somesCount_eq_placedList, hpl]
        exact hlen
      rw [hs, List.length_cons]
      omega
    · rw [List.foldl_cons, ihl]
      exact hlen'

lemma count_take_le (l : List ItemM) (n : ℕ) (x : ItemM) :
    (l.take n).count x ≤ l.count x := by
  conv_rhs => rw [← List.take_append_drop n l]
  rw [List.count_append]
  omega

lemma map_fst_zip_of_le {α β : Type} :
    ∀ (l₁ : List α) (l₂ : List β), l₂.length ≤ l₁.length →
      (l₁.zip l₂).map Prod.fst = l₁.take l₂.length := by
  intro l₁
  induction l₁ with
  | nil =>
    intro l₂ h
    have h2 : l₂ = [] := List.length_eq_zero.mp (by simpa using h)
    subst h2
    rfl
  | cons a t ih =>
    intro l₂ h
    cases l₂ with
    | nil => simp
    | cons b bs =>
      simp only [List.zip_cons_cons, List.map_cons, List.length_cons, List.take_succ_cons]
      rw [ih bs (by simpa using h)]

lemma determineItemSplit_fst_le (diff : DifficultyM) (init : List ℕ)
    (state : RandomizationStateM) (nb no : ℕ) :
    (determineItemSplit diff init state nb no).1 ≤ nb := by
  simp only [determineItemSplit]
  exact le_trans (min_le_right _ _) (min_le_left _ _)

lemma determineItemSplit_snd_eq (diff : DifficultyM) (init : List ℕ)
    (state : RandomizationStateM) (nb no : ℕ) :
    (determineItemSplit diff init state nb no).2 =
      nb + no - (determineItemSplit diff init state nb no).1 := rfl

lemma multiAttemptLoop_good (gd : GameStaticData) (oracle : ReachOracle) (ids : ItemIdsM)
    (diff : DifficultyM) (init : List ℕ) (state nsf : RandomizationStateM)
    (selectedFiller placedUncollected : List ItemM) (nub numKey : ℕ)
    (hse : diff.stop_item_placement_early = false)
    (hlen : gd.item_vertex_ids.length = nsf.item_location_state.length)
    (hnd : nsf.item_precedence.Nodup)
    (h0 : numKey ≤
      (keyPool ids diff init nsf.items_remaining nsf.item_precedence).length) :
    ∀ (fuel a : ℕ) (keys : List ItemM), 1 ≤ fuel →
      keyCntDifferent ids diff init nsf.items_remaining nsf.item_precedence + 2 ≤
        fuel + a →
      (∀ x, keys.count x ≤ nsf.items_remaining.getD x 0) →
      keys.length = numKey →
      (multiAttemptLoop gd oracle ids diff init state nsf selectedFiller placedUncollected
          nub numKey fuel a keys).1.2 = selectedFiller ∧
      (∀ x, (multiAttemptLoop gd oracle ids diff init state nsf selectedFiller
          placedUncollected nub numKey fuel a keys).1.1.count x ≤
        nsf.items_remaining.getD x 0) ∧
      (multiAttemptLoop gd oracle ids diff init state nsf selectedFiller placedUncollected
          nub numKey fuel a keys).1.1.length = numKey ∧
      (multiAttemptLoop gd oracle ids diff init state nsf selectedFiller placedUncollected
          nub numKey fuel a keys).2.items_remaining =
        decrementItems nsf.items_remaining
          (multiAttemptLoop gd oracle ids diff init state nsf selectedFiller
            placedUncollected nub numKey fuel a keys).1.1 ∧
      placedList (multiAttemptLoop gd oracle ids diff init state nsf selectedFiller
          placedUncollected nub numKey fuel a keys).2.item_location_state =
        placedList nsf.item_location_state ∧
      (multiAttemptLoop gd oracle ids diff init state nsf selectedFiller placedUncollected
          nub numKey fuel a keys).2.item_precedence = nsf.item_precedence := by
  intro fuel
  induction fuel with
  | zero =>
    intro a keys h1 _ _ _
    exact absurd h1 (by omega)
  | succ f ih =>
    intro a keys _ hcnt hkb hkl
    by_cases hacc : (providesProgression gd oracle state
        { nsf with items_remaining := decrementItems nsf.items_remaining keys }
        keys selectedFiller placedUncollected nub).2 = true
    · simp only [multiAttemptLoop]
      rw [if_pos hacc]
      obtain ⟨hp, _hl, hr, hpre⟩ := providesProgression_state_facts gd oracle state
        { nsf with items_remaining := decrementItems nsf.items_remaining keys }
        keys selectedFiller placedUncollected nub hlen
      exact ⟨rfl, hkb, hkl, by rw [hr], by rw [hp], by rw [hpre]⟩
    · simp only [multiAttemptLoop]
      rw [if_neg hacc]
      cases hselk : selectKeyItems ids diff init nsf numKey a with
      | some newKeys =>
        simp only [hselk]
        rcases Nat.eq_zero_or_pos f with hf0 | hfpos
        · subst hf0
          have hnone := selectKeyItems_none_of_ge ids diff init nsf numKey a (by omega)
          rw [hnone] at hselk
          exact absurd hselk (by simp)
        · obtain ⟨hb2, hl2⟩ := selectKeyItems_some_spec ids diff init nsf numKey a newKeys
            hse hnd h0 hselk
          exact ih (a + 1) newKeys hfpos (by omega) hb2 hl2
      | none =>
        simp only [hselk]
        rw [if_neg (by simp [hse])]
        obtain ⟨hp, _hl, hr, hpre⟩ := providesProgression_state_facts gd oracle state
          { nsf with items_remaining := decrementItems nsf.items_remaining keys }
          keys selectedFiller placedUncollected nub hlen
        exact ⟨rfl, hkb, hkl, by rw [hr], by rw [hp], by rw [hpre]⟩

lemma multiAttemptSelectItems_good (gd : GameStaticData) (oracle : ReachOracle)
    (ids : ItemIdsM) (diff : DifficultyM) (init : List ℕ) (state : RandomizationStateM)
    (placedUncollected : List ItemM) (nb no : ℕ) (shuffleMix : List ItemM → List ItemM)
    (af : ℕ)
    (hse : diff.stop_item_placement_early = false)
    (hlen : gd.item_vertex_ids.length = state.item_location_state.length)
    (hnd : state.item_precedence.Nodup)
    (h0 : (determineItemSplit diff init state nb no).1 ≤
      (keyPool ids diff init
        (decrementItems state.items_remaining (selectFillerItems ids diff init state
          shuffleMix (nb - (determineItemSplit diff init state nb no).1)
          ((determineItemSplit diff init state nb no).2 -
            (nb - (determineItemSplit diff init state nb no).1))))
        state.item_precedence).length)
    (h8 : keyCntDifferent ids diff init
        (decrementItems state.items_remaining (selectFillerItems ids diff init state
          shuffleMix (nb - (determineItemSplit diff init state nb no).1)
          ((determineItemSplit diff init state nb no).2 -
            (nb - (determineItemSplit diff init state nb no).1))))
        state.item_precedence + 2 ≤ af) :
    (multiAttemptSelectItems gd oracle ids diff init state placedUncollected nb no
        shuffleMix af).1.2 =
      selectFillerItems ids diff init state shuffleMix
        (nb - (determineItemSplit diff init state nb no).1)
        ((determineItemSplit diff init state nb no).2 -
          (nb - (determineItemSplit diff init state nb no).1)) ∧
    (∀ x, (multiAttemptSelectItems gd oracle ids diff init state placedUncollected nb no
        shuffleMix af).1.1.count x ≤
      (decrementItems state.items_remaining (selectFillerItems ids diff init state
        shuffleMix (nb - (determineItemSplit diff init state nb no).1)
        ((determineItemSplit diff init state nb no).2 -
          (nb - (determineItemSplit diff init state nb no).1)))).getD x 0) ∧
    (multiAttemptSelectItems gd oracle ids diff init state placedUncollected nb no
        shuffleMix af).1.1.length = (determineItemSplit diff init state nb no).1 ∧
    (multiAttemptSelectItems gd oracle ids diff init state placedUncollected nb no
        shuffleMix af).2.items_remaining =
      decrementItems
        (decrementItems state.items_remaining (selectFillerItems ids diff init state
          shuffleMix (nb - (determineItemSplit diff init state nb no).1)
          ((determineItemSplit diff init state nb no).2 -
            (nb - (determineItemSplit diff init state nb no).1))))
        (multiAttemptSelectItems gd oracle ids diff init state placedUncollected nb no
          shuffleMix af).1.1 ∧
    placedList (multiAttemptSelectItems gd oracle ids diff init state placedUncollected
        nb no shuffleMix af).2.item_location_state =
      placedList state.item_location_state ∧
    (multiAttemptSelectItems gd oracle ids diff init state placedUncollected nb no
        shuffleMix af).2.item_precedence = state.item_precedence := by
  have hkey : multiAttemptSelectItems gd oracle ids diff init state placedUncollected
      nb no shuffleMix af =
    multiAttemptLoop gd oracle ids diff init state
      { state with items_remaining := (decrementItems state.items_remaining
          (selectFillerItems ids diff init state shuffleMix
            (nb - (determineItemSplit diff init state nb no).1)
            ((determineItemSplit diff init state nb no).2 -
              (nb - (determineItemSplit diff init state nb no).1)))) }
      (selectFillerItems ids diff init state shuffleMix
        (nb - (determineItemSplit diff init state nb no).1)
        ((determineItemSplit diff init state nb no).2 -
          (nb - (determineItemSplit diff init state nb no).1)))
      placedUncollected nb (determineItemSplit diff init state nb no).1 af 0
      ((selectKeyItems ids diff init
        { state with items_remaining := (decrementItems state.items_remaining
            (selectFillerItems ids diff init state shuffleMix
              (nb - (determineItemSplit diff init state nb no).1)
              ((determineItemSplit diff init state nb no).2 -
                (nb - (determineItemSplit diff init state nb no).1)))) }
        (determineItemSplit diff init state nb no).1 0).getD []) := rfl
  rw [hkey]
  cases hk0 : selectKeyItems ids diff init
      { state with items_remaining := (decrementItems state.items_remaining
          (selectFillerItems ids diff init state shuffleMix
            (nb - (determineItemSplit diff init state nb no).1)
            ((determineItemSplit diff init state nb no).2 -
              (nb - (determineItemSplit diff init state nb no).1)))) }
      (determineItemSplit diff init state nb no).1 0 with
  | none =>
    have hsome := selectKeyItems_zero_isSome ids diff init
      { state with items_remaining := (decrementItems state.items_remaining
          (selectFillerItems ids diff init state shuffleMix
            (nb - (determineItemSplit diff init state nb no).1)
            ((determineItemSplit diff init state nb no).2 -
              (nb - (determineItemSplit diff init state nb no).1)))) }
      (determineItemSplit diff init state nb no).1
    rw [hk0] at hsome
    exact absurd hsome (by simp)
  | some ks =>
    simp only [Option.getD_some]
    obtain ⟨hb0, hl0⟩ := selectKeyItems_some_spec ids diff init
      { state with items_remaining := (decrementItems state.items_remaining
          (selectFillerItems ids diff init state shuffleMix
            (nb - (determineItemSplit diff init state nb no).1)
            ((determineItemSplit diff init state nb no).2 -
              (nb - (determineItemSplit diff init state nb no).1)))) }
      (determineItemSplit diff init state nb no).1 0 ks hse hnd h0 hk0
    obtain ⟨L1, L2, L3, L4, L5, L6⟩ := multiAttemptLoop_good gd oracle ids diff init state
      { state with items_remaining := (decrementItems state.items_remaining
          (selectFillerItems ids diff init state shuffleMix
            (nb - (determineItemSplit diff init state nb no).1)
            ((determineItemSplit diff init state nb no).2 -
              (nb - (determineItemSplit diff init state nb no).1)))) }
      (selectFillerItems ids diff init state shuffleMix
        (nb - (determineItemSplit diff init state nb no).1)
        ((determineItemSplit diff init state nb no).2 -
          (nb - (determineItemSplit diff init state nb no).1)))
      placedUncollected nb (determineItemSplit diff init state nb no).1
      hse hlen hnd h0 af 0 ks (by omega) (by rw [Nat.add_zero]; exact h8) hb0 hl0
    exact ⟨L1, L2, L3, L4, L5, L6⟩

lemma stepModel_conserves (gd : GameStaticData) (oracle : ReachOracle) (ids : ItemIdsM)
    (diff : DifficultyM) (init : List ℕ) (shuffleMix : List ItemM → List ItemM)
    (shB shO : List ℕ → List ℕ) (forced : Bool) (hardIdx : ℕ → ℕ) (cf af : ℕ)
    (s : RandomizationStateM)
    (hok : StepOk gd oracle ids diff init shuffleMix shB shO hardIdx cf af s) :
    (∀ x, placedCount (stepModel gd oracle ids diff init shuffleMix shB shO forced
          hardIdx cf af s).item_location_state x +
        (stepModel gd oracle ids diff init shuffleMix shB shO forced hardIdx cf af
          s).items_remaining.getD x 0 =
      placedCount s.item_location_state x + s.items_remaining.getD x 0) ∧
    somesCount (stepModel gd oracle ids diff init shuffleMix shB shO forced hardIdx cf af
        s).item_location_state +
      (stepModel gd oracle ids diff init shuffleMix shB shO forced hardIdx cf af
        s).items_remaining.sum =
      somesCount s.item_location_state + s.items_remaining.sum ∧
    (stepModel gd oracle ids diff init shuffleMix shB shO forced hardIdx cf af
      s).item_location_state.length = s.item_location_state.length := by
  rw [StepOk] at hok
  obtain ⟨hse, hlen, hpb, hpo, hpm, hmn, hnd, hrest⟩ := hok
  obtain ⟨h7, h8, h11⟩ := hrest
  obtain ⟨hc_pl, hc_len, hc_rem, hc_pre⟩ := closureLoop_state_facts gd oracle cf s hlen
  set st1 := closureLoop gd oracle cf s with hst1
  have hlen1 : gd.item_vertex_ids.length = st1.item_location_state.length := by
    rw [hc_len]
    exact hlen
  have hnd1 : st1.item_precedence.Nodup := by
    rw [hc_pre]
    exact hnd
  set plcL := (st1.item_location_state.enum.filter
    (fun p => p.2.placed_item.isSome && !p.2.collected && p.2.bireachable)).map
      (fun p => p.1) with hplcL
  set plcI := (st1.item_location_state.filter
    (fun t => t.placed_item.isSome && !t.collected && t.bireachable)).filterMap
      (fun t => t.placed_item) with hplcI
  set ubl := (st1.item_location_state.enum.filter
    (fun p => p.2.placed_item.isNone && p.2.bireachable)).map (fun p => p.1) with hubl
  set ub := shB ubl with hub
  set uol := (st1.item_location_state.enum.filter
    (fun p => p.2.placed_item.isNone && !p.2.bireachable && p.2.reachable)).map
      (fun p => p.1) with huol
  set uo := shO uol with huo
  set spl := determineItemSplit diff init st1 ub.length uo.length with hsplC
  set filler := selectFillerItems ids diff init st1 shuffleMix (ub.length - spl.1)
    (spl.2 - (ub.length - spl.1)) with hfil
  set sel := multiAttemptSelectItems gd oracle ids diff init st1 plcI ub.length uo.length
    shuffleMix af with hsel
  have hgood := multiAttemptSelectItems_good gd oracle ids diff init st1 plcI ub.length
    uo.length shuffleMix af hse hlen1 hnd1 (by exact h7) (by exact h8)
  rw [← hsel, ← hsplC] at hgood
  rw [← hfil] at hgood
  obtain ⟨G1, G2, G3, G4, G5, _G6⟩ := hgood
  have hfb : ∀ x, filler.count x ≤ st1.items_remaining.getD x 0 := by
    intro x
    rw [hfil, selectFillerItems_eq]
    exact le_trans (count_take_le _ _ _) (fillerItemsAll_count_le ids diff init
      st1.items_remaining shuffleMix st1.item_precedence hse hpm hmn hnd1 x)
  obtain ⟨d1g, d1s, _d1l⟩ := decrementItems_exact filler st1.items_remaining hfb
  obtain ⟨d2g, d2s, _d2l⟩ := decrementItems_exact sel.1.1
    (decrementItems st1.items_remaining filler) G2
  set ub2 := newBireachableLocs forced hardIdx sel.1.1.length ub with hub2
  set ils0 := markCollected sel.2.item_location_state plcL with hils0
  set pairs := (ub2 ++ uo).zip (sel.1.1 ++ sel.1.2) with hpairs
  have hTi : (stepModel gd oracle ids diff init shuffleMix shB shO forced hardIdx cf af
      s).items_remaining = sel.2.items_remaining := by
    simp only [stepModel]
    rw [if_neg (by simp [hse])]
    rfl
  have hTl : (stepModel gd oracle ids diff init shuffleMix shB shO forced hardIdx cf af
      s).item_location_state =
      markCollected (pairs.foldl
        (fun acc p => List.modify (fun t => { t with placed_item := some p.2 }) p.1 acc)
        ils0) ub := by
    simp only [stepModel]
    rw [if_neg (by simp [hse])]
    rfl
  have hpl0' : placedList ils0 = placedList st1.item_location_state := by
    rw [hils0, markCollected_placedList, G5]
  have hpl0 : placedList ils0 = placedList s.item_location_state := hpl0'.trans hc_pl
  obtain ⟨hpc0, hsc0, _hnc0, hlen0⟩ := placedList_facts hpl0
  have hub_perm : ub.Perm ubl := by
    rw [hub]
    exact hpb ubl
  have huo_perm : uo.Perm uol := by
    rw [huo]
    exact hpo uol
  have hnd_ubl : ubl.Nodup := by
    rw [hubl]
    exact enum_filter_map_fst_nodup _ _
  have hnd_uol : uol.Nodup := by
    rw [huol]
    exact enum_filter_map_fst_nodup _ _
  have hnd_ub : ub.Nodup := hub_perm.nodup_iff.mpr hnd_ubl
  have hnd_uo : uo.Nodup := huo_perm.nodup_iff.mpr hnd_uol
  have hsplle : spl.1 ≤ ub.length := by
    rw [hsplC]
    exact determineItemSplit_fst_le diff init st1 ub.length uo.length
  have h11' : ∀ m < sel.1.1.length, m + hardIdx m < ub.length := by
    rw [G3]
    exact h11
  have hub2_perm : ub2.Perm ub := by
    rw [hub2]
    exact newBireachableLocs_perm forced hardIdx sel.1.1.length ub h11'
      (by rw [G3]; exact hsplle)
  have hnd_ub2 : ub2.Nodup := hub2_perm.nodup_iff.mpr hnd_ub
  have hmem_ub2 : ∀ i ∈ ub2, ∃ a, st1.item_location_state[i]? = some a ∧
      a.placed_item = none ∧ a.bireachable = true := by
    intro i hi
    have hiu : i ∈ ubl := hub_perm.mem_iff.mp (hub2_perm.mem_iff.mp hi)
    rw [hubl] at hiu
    obtain ⟨a, hga, hpa⟩ := mem_enum_filter_map_fst hiu
    rw [Bool.and_eq_true] at hpa
    exact ⟨a, hga, Option.isNone_iff_eq_none.mp hpa.1, hpa.2⟩
  have hmem_uo : ∀ i ∈ uo, ∃ a, st1.item_location_state[i]? = some a ∧
      a.placed_item = none ∧ a.bireachable = false := by
    intro i hi
    have hiu : i ∈ uol := huo_perm.mem_iff.mp hi
    rw [huol] at hiu
    obtain ⟨a, hga, hpa⟩ := mem_enum_filter_map_fst hiu
    rw [Bool.and_eq_true, Bool.and_eq_true] at hpa
    refine ⟨a, hga, Option.isNone_iff_eq_none.mp hpa.1.1, ?_⟩
    have := hpa.1.2
    simp at this
    exact this
  have hdisj : ∀ i ∈ ub2, i ∉ uo := by
    intro i hi hiuo
    obtain ⟨a, hga, _, hba⟩ := hmem_ub2 i hi
    obtain ⟨b, hgb, _, hbb⟩ := hmem_uo i hiuo
    rw [hga] at hgb
    cases Option.some.inj hgb
    rw [hba] at hbb
    exact absurd hbb (by decide)
  have hnd_all : (ub2 ++ uo).Nodup := by
    rw [List.nodup_append]
    exact ⟨hnd_ub2, hnd_uo, hdisj⟩
  have hlb2 : ub2.length = ub.length := hub2_perm.length_eq
  have hfl : filler.length ≤ (ub.length - spl.1) + (spl.2 - (ub.length - spl.1)) := by
    rw [hfil, selectFillerItems_eq, List.length_take]
    omega
  have hsnd_eq : spl.2 = ub.length + uo.length - spl.1 := by
    rw [hsplC]
    exact determineItemSplit_snd_eq diff init st1 ub.length uo.length
  have hitems_le : (sel.1.1 ++ sel.1.2).length ≤ (ub2 ++ uo).length := by
    rw [List.length_append, List.length_append, G3, G1, hlb2]
    omega
  have hmap_fst : pairs.map Prod.fst = (ub2 ++ uo).take (sel.1.1 ++ sel.1.2).length := by
    rw [hpairs]
    exact map_fst_zip_of_le _ _ hitems_le
  have hnd_fst : (pairs.map Prod.fst).Nodup := by
    rw [hmap_fst]
    exact hnd_all.sublist (List.take_sublist _ _)
  have hmap_snd : pairs.map Prod.snd = sel.1.1 ++ sel.1.2 := by
    rw [hpairs]
    exact List.map_snd_zip _ _ hitems_le
  have hplen : pairs.length = (sel.1.1 ++ sel.1.2).length := by
    rw [← hmap_snd, List.length_map]
  have hpair_cond : ∀ p ∈ pairs, p.1 < ils0.length ∧
      (placedList ils0).getD p.1 none = none := by
    intro p hp
    rw [hpairs] at hp
    have hp1 : p.1 ∈ ub2 ++ uo := (List.of_mem_zip hp).1
    have hfact : ∃ a, st1.item_location_state[p.1]? = some a ∧ a.placed_item = none := by
      rcases List.mem_append.mp hp1 with h | h
      · obtain ⟨a, hg, hn, _⟩ := hmem_ub2 p.1 h
        exact ⟨a, hg, hn⟩
      · obtain ⟨a, hg, hn, _⟩ := hmem_uo p.1 h
        exact ⟨a, hg, hn⟩
    obtain ⟨a, hg, hn⟩ := hfact
    have hlt : p.1 < st1.item_location_state.length :=
      (List.getElem?_eq_some_iff.mp hg).1
    constructor
    · rw [hlen0, ← hc_len]
      exact hlt
    · have hmapg : (placedList st1.item_location_state)[p.1]? = some none := by
        rw [placedList, List.getElem?_map, hg]
        simp only [Option.map_some']
        rw [hn]
      rw [hpl0', List.getD_eq_getElem?_getD, hmapg]
      rfl
  obtain ⟨PF1, PF2, PF3⟩ := placeFold_facts pairs ils0 hnd_fst hpair_cond
  have hplF : placedList (markCollected (pairs.foldl
      (fun acc p => List.modify (fun t => { t with placed_item := some p.2 }) p.1 acc)
      ils0) ub) =
      placedList (pairs.foldl
        (fun acc p => List.modify (fun t => { t with placed_item := some p.2 }) p.1 acc)
        ils0) :=
    markCollected_placedList _ ub
  obtain ⟨hpcF, hscF, _hncF, hlF⟩ := placedList_facts hplF
  refine ⟨fun x => ?_, ?_, ?_⟩
  · rw [hTl, hTi, G4]
    have e1 := hpcF x
    have e2 := PF1 x
    have e3 := hpc0 x
    have e4 : (pairs.map Prod.snd).count x = sel.1.1.count x + filler.count x := by
      rw [hmap_snd, List.count_append, G1]
    have e5 := d2g x
    have e6 := d1g x
    have e7 := G2 x
    have e8 := hfb x
    have e9 : st1.items_remaining.getD x 0 = s.items_remaining.getD x 0 := by
      rw [hc_rem]
    omega
  · rw [hTl, hTi, G4]
    have e1 := hscF
    have e2 := PF2
    have e3 := hsc0
    have e4 : pairs.length = sel.1.1.length + filler.length := by
      rw [hplen, List.length_append, G1]
    have e5 := d2s
    have e6 := d1s
    have e7 : st1.items_remaining.sum = s.items_remaining.sum := by
      rw [hc_rem]
    omega
  · rw [hTl, hlF, PF3, hlen0]

lemma run_conserves (gd : GameStaticData) (oracle : ReachOracle) (ids : ItemIdsM)
    (diff : DifficultyM) (init : List ℕ) (shuffleMix : ℕ → List ItemM → List ItemM)
    (shB shO : ℕ → List ℕ → List ℕ) (forced : ℕ → Bool) (hardIdx : ℕ → ℕ → ℕ)
    (cf af : ℕ → ℕ) (states : ℕ → RandomizationStateM) :
    ∀ n : ℕ,
      (∀ k, k < n → states (k + 1) = stepModel gd oracle ids diff init (shuffleMix k)
        (shB k) (shO k) (forced k) (hardIdx k) (cf k) (af k) (states k)) →
      (∀ k, k < n → StepOk gd oracle ids diff init (shuffleMix k) (shB k) (shO k)
        (hardIdx k) (cf k) (af k) (states k)) →
      (∀ x, placedCount (states n).item_location_state x +
          (states n).items_remaining.getD x 0 =
        placedCount (states 0).item_location_state x +
          (states 0).items_remaining.getD x 0) ∧
      somesCount (states n).item_location_state + (states n).items_remaining.sum =
        somesCount (states 0).item_location_state + (states 0).items_remaining.sum ∧
      (states n).item_location_state.length = (states 0).item_location_state.length := by
  intro n
  induction n with
  | zero =>
    intro _ _
    exact ⟨fun x => rfl, rfl, rfl⟩
  | succ n ih =>
    intro hstep hok
    obtain ⟨ihJ, ihK, ihL⟩ := ih (fun k hk => hstep k (by omega))
      (fun k hk => hok k (by omega))
    obtain ⟨sJ, sK, sL⟩ := stepModel_conserves gd oracle ids diff init (shuffleMix n)
      (shB n) (shO n) (forced n) (hardIdx n) (cf n) (af n) (states n) (hok n (by omega))
    rw [hstep n (by omega)]
    refine ⟨fun x => ?_, ?_, ?_⟩
    · have e1 := sJ x
      have e2 := ihJ x
      omega
    · omega
    · rw [sL, ihL]

lemma placedCount_eq_zero_of_none {ils : List ItemLocationStateM}
    (h : ∀ l ∈ ils, l.placed_item = none) (x : ItemM) : placedCount ils x = 0 := by
  rw [placedCount]
  have he : ils.filterMap (fun t => t.placed_item) = [] := by
    rw [List.filterMap_eq_nil]
    exact h
  rw [he]
  rfl

/-- Counterexample to C1 as stated, refuting two of its clauses.  (1)
With one starting item (5 Missiles), `Randomizer::new` replaces those
Missiles by Nothing in the pool, so the sum of `initial_items_remaining`
already equals the number of item locations and adding
`sum(starting_items)` overshoots it.  (2) The "throughout an attempt,
sum of `items_remaining` plus placed items ≤ number of item locations"
clause fails under `stop_item_placement_early`: on `c1StepState` (which
satisfies the bound, 1 + 0 ≤ 1) one `step` exhausts the key selection,
forces the tentative key item to Nothing and places it, while the
guarded decrement skips the exhausted Nothing pool entry — afterwards
the sum is 2 > 1. -/
theorem conservation_counterexample :
    ¬((newInitialItemsRemaining c1Ids 9 100 false 8 [] [(1, 5)] 1).sum + 5 = 100) ∧
    (somesCount c1StepState.item_location_state + c1StepState.items_remaining.sum ≤
      c1StepState.item_location_state.length) ∧
    ¬(somesCount c1StepOut.item_location_state + c1StepOut.items_remaining.sum ≤
      c1StepOut.item_location_state.length) := by
  refine ⟨?_, by decide, by decide⟩
  simp only [newInitialItemsRemaining, preCapItemsRemaining, ensureEnoughTanks_one]
  decide

/-- **C1 (amended).** (1) After `Randomizer::new`, the sum of
`initial_items_remaining` equals the number of item locations exactly —
starting items are absorbed by the final Nothing top-up rather than added
on top (hypotheses: the distinguished item indices are distinct and in
range, the item-pool overrides do not touch Nothing, and the missile cap
does not underflow, mirroring the source's `assert!`).  (2) Throughout
an attempt without `stop_item_placement_early` (with it on the
counterexample applies), each `step` preserves the sum of
`items_remaining` plus placed items exactly — per item id and in total —
so the bound "≤ number of item locations" holds throughout whenever it
holds at the start; the `StepOk` side conditions mirror what the source
guarantees (`rng.shuffle` permutes, the precedence order is
duplicate-free, the selected key index stays in range where Rust would
panic, the retry loop has enough fuel, and `find_hard_location` returns
in-range indices).  (3) After `finish`, every `placed_item` is `Some`
(in both modes).  (4) Without stop-early (so no forced Nothing
substitutions occur), over a whole run that starts with all locations
empty, the multiset of items placed after `finish` equals the multiset
described by the starting `items_remaining` (i.e.
`initial_items_remaining`), under finish's asserted precondition that
the number of empty locations equals the length of the flattened
remaining-items list. -/
theorem conservation_amended :
    (∀ (ids : ItemIdsM) (numItems numLocations : ℕ) (wallJumpCollectible : Bool)
      (iWallJump : ItemM) (itemPool startingItems : List (ItemM × ℕ)) (rp : ℚ),
      ids.nothing < numItems → ids.missile < numItems →
      iWallJump ≠ ids.nothing → ids.sup ≠ ids.nothing → ids.powerBomb ≠ ids.nothing →
      ids.etank ≠ ids.nothing → ids.reserveTank ≠ ids.nothing → ids.missile ≠ ids.nothing →
      (∀ p ∈ itemPool, p.1 ≠ ids.nothing) →
      (preCapItemsRemaining ids numItems numLocations wallJumpCollectible iWallJump
        itemPool rp).sum - numLocations ≤
        (preCapItemsRemaining ids numItems numLocations wallJumpCollectible iWallJump
          itemPool rp).getD ids.missile 0 →
      (newInitialItemsRemaining ids numItems numLocations wallJumpCollectible iWallJump
        itemPool startingItems rp).sum = numLocations) ∧
    (∀ (gd : GameStaticData) (oracle : ReachOracle) (ids : ItemIdsM) (diff : DifficultyM)
      (init : List ℕ) (shuffleMix : ℕ → List ItemM → List ItemM)
      (shB shO : ℕ → List ℕ → List ℕ) (forced : ℕ → Bool) (hardIdx : ℕ → ℕ → ℕ)
      (cf af : ℕ → ℕ) (states : ℕ → RandomizationStateM) (n : ℕ),
      (∀ k, k < n → states (k + 1) = stepModel gd oracle ids diff init (shuffleMix k)
        (shB k) (shO k) (forced k) (hardIdx k) (cf k) (af k) (states k)) →
      (∀ k, k < n → StepOk gd oracle ids diff init (shuffleMix k) (shB k) (shO k)
        (hardIdx k) (cf k) (af k) (states k)) →
      (∀ x, placedCount (states n).item_location_state x +
          (states n).items_remaining.getD x 0 =
        placedCount (states 0).item_location_state x +
          (states 0).items_remaining.getD x 0) ∧
      somesCount (states n).item_location_state + (states n).items_remaining.sum =
        somesCount (states 0).item_location_state + (states 0).items_remaining.sum ∧
      (somesCount (states 0).item_location_state + (states 0).items_remaining.sum ≤
          (states 0).item_location_state.length →
        somesCount (states n).item_location_state + (states n).items_remaining.sum ≤
          (states n).item_location_state.length)) ∧
    (∀ (ids : ItemIdsM) (stopEarly : Bool) (state : RandomizationStateM),
      ∀ s ∈ (finishModel ids stopEarly state).item_location_state,
        s.placed_item.isSome = true) ∧
    (∀ (gd : GameStaticData) (oracle : ReachOracle) (ids : ItemIdsM) (diff : DifficultyM)
      (init : List ℕ) (shuffleMix : ℕ → List ItemM → List ItemM)
      (shB shO : ℕ → List ℕ → List ℕ) (forced : ℕ → Bool) (hardIdx : ℕ → ℕ → ℕ)
      (cf af : ℕ → ℕ) (states : ℕ → RandomizationStateM) (n : ℕ),
      (∀ k, k < n → states (k + 1) = stepModel gd oracle ids diff init (shuffleMix k)
        (shB k) (shO k) (forced k) (hardIdx k) (cf k) (af k) (states k)) →
      (∀ k, k < n → StepOk gd oracle ids diff init (shuffleMix k) (shB k) (shO k)
        (hardIdx k) (cf k) (af k) (states k)) →
      (∀ l ∈ (states 0).item_location_state, l.placed_item = none) →
      nonesCount (states n).item_location_state =
        (remainingItemsList (states n).items_remaining).length →
      ∀ item, placedCount ((finishModel ids false (states n)).item_location_state) item =
        (states 0).items_remaining.getD item 0) := by
  refine ⟨?_, ?_, ?_, ?_⟩
  · intro ids numItems numLocations wallJumpCollectible iWallJump itemPool startingItems rp
      hn hm h1 h2 h3 h4 h5 h6 hpool hcap
    rw [newInitialItemsRemaining]
    have hwlen := preCap_length ids numItems numLocations wallJumpCollectible iWallJump
      itemPool rp
    have hw0 := preCap_nothing_zero ids numItems numLocations wallJumpCollectible iWallJump
      itemPool rp h1 h2 h3 h4 h5 h6 hpool hn
    set w := preCapItemsRemaining ids numItems numLocations wallJumpCollectible
      iWallJump itemPool rp with hw
    have hcapped_sum : (if numLocations < w.sum then
        w.set ids.missile (w.getD ids.missile 0 - (w.sum - numLocations)) else w).sum ≤
        numLocations := by
      split_ifs with hgt
      · have hmlen : ids.missile < w.length := by rw [hwlen]; exact hm
        have := sum_set_add_getD w ids.missile
          (w.getD ids.missile 0 - (w.sum - numLocations)) hmlen
        omega
      · omega
    have hcapped_len : (if numLocations < w.sum then
        w.set ids.missile (w.getD ids.missile 0 - (w.sum - numLocations)) else w).length =
        numItems := by
      split_ifs
      · rw [List.length_set]
        exact hwlen
      · exact hwlen
    have hcapped_0 : (if numLocations < w.sum then
        w.set ids.missile (w.getD ids.missile 0 - (w.sum - numLocations)) else w).getD
        ids.nothing 0 = 0 := by
      split_ifs
      · rw [getD_set_ne_nat _ _ _ _ h6]
        exact hw0
      · exact hw0
    set capped := (if numLocations < w.sum then
        w.set ids.missile (w.getD ids.missile 0 - (w.sum - numLocations)) else w)
      with hcapped
    have hssum := le_trans (startFold_sum_le startingItems capped) hcapped_sum
    have hs0 : (startingItems.foldl
        (fun acc p => acc.set p.1 (acc.getD p.1 0 - min p.2 (acc.getD p.1 0)))
        capped).getD ids.nothing 0 = 0 := by
      have hle := startFold_getD_le ids.nothing startingItems capped
      rw [hcapped_0] at hle
      exact Nat.le_zero.mp hle
    have hslen : (startingItems.foldl
        (fun acc p => acc.set p.1 (acc.getD p.1 0 - min p.2 (acc.getD p.1 0)))
        capped).length = numItems := by
      rw [startFold_length]
      exact hcapped_len
    set v3 := startingItems.foldl
        (fun acc p => acc.set p.1 (acc.getD p.1 0 - min p.2 (acc.getD p.1 0))) capped
      with hfin
    have hnlen : ids.nothing < v3.length := by rw [hslen]; exact hn
    have := sum_set_add_getD v3 ids.nothing (numLocations - v3.sum) hnlen
    omega
  · intro gd oracle ids diff init shuffleMix shB shO forced hardIdx cf af states n
      hstep hok
    obtain ⟨hJ, hK, hL⟩ := run_conserves gd oracle ids diff init shuffleMix shB shO
      forced hardIdx cf af states n hstep hok
    exact ⟨hJ, hK, fun hle => by omega⟩
  · intro ids stopEarly state s hs
    rw [finishModel] at hs
    split_ifs at hs with hse
    · simp only [List.mem_map] at hs
      obtain ⟨s₀, _, rfl⟩ := hs
      split_ifs with hcond
      · rfl
      · rw [Bool.or_eq_true, not_or] at hcond
        cases hpi : s₀.placed_item with
        | none => exact absurd (by rw [hpi]; rfl) hcond.1
        | some a => rfl
    · exact finishFillNones_all_some state.item_location_state
        (remainingItemsList state.items_remaining) s hs
  · intro gd oracle ids diff init shuffleMix shB shO forced hardIdx cf af states n
      hstep hok hnone hassert item
    obtain ⟨hJ, _, _⟩ := run_conserves gd oracle ids diff init shuffleMix shB shO
      forced hardIdx cf af states n hstep hok
    rw [finishModel, if_neg (by simp)]
    rw [finishFillNones_placedCount (states n).item_location_state
      (remainingItemsList (states n).items_remaining) hassert item,
      remainingItemsList_count]
    have e1 := hJ item
    have e2 := placedCount_eq_zero_of_none hnone item
    omega

/-- Witness for C1 at concrete instances: 9 item kinds, 100 locations and
5 starting Missiles still make the pool sum to 100; and on the one-step
run `c1Run` (no stop-early, an all-reachable oracle) per-id conservation
holds after the step, and the finished placed count of the key item
equals its starting pool count. -/
theorem conservation_amended_witness :
    (newInitialItemsRemaining c1Ids 9 100 false 8 [] [(1, 5)] 1).sum = 100 ∧
    placedCount (c1Run 1).item_location_state 2 + (c1Run 1).items_remaining.getD 2 0 =
      placedCount (c1Run 0).item_location_state 2 +
        (c1Run 0).items_remaining.getD 2 0 ∧
    placedCount ((finishModel c1Ids false (c1Run 1)).item_location_state) 2 =
      (c1Run 0).items_remaining.getD 2 0 := by
  have hstep : ∀ k, k < 1 → c1Run (k + 1) = stepModel c1Gd c1RunOracle c1Ids c1RunDiff
      [0, 0, 1] id id id false (fun _ => 0) 1 3 (c1Run k) := by
    intro k hk
    have hk0 : k = 0 := by omega
    subst hk0
    rfl
  have hok : ∀ k, k < 1 → StepOk c1Gd c1RunOracle c1Ids c1RunDiff [0, 0, 1]
      id id id (fun _ => 0) 1 3 (c1Run k) := by
    intro k hk
    have hk0 : k = 0 := by omega
    subst hk0
    rw [StepOk]
    exact ⟨by decide, by decide, fun l => List.Perm.refl l, fun l => List.Perm.refl l,
      fun l => List.Perm.refl l, by decide, by decide,
      ⟨by decide, by decide, by decide⟩⟩
  refine ⟨conservation_amended.1 c1Ids 9 100 false 8 [] [(1, 5)] 1 (by decide) (by decide)
    (by decide) (by decide) (by decide) (by decide) (by decide) (by decide)
    (by intro p hp; simp at hp)
    (by simp only [preCapItemsRemaining, ensureEnoughTanks_one]; decide), ?_, ?_⟩
  · exact (conservation_amended.2.1 c1Gd c1RunOracle c1Ids c1RunDiff [0, 0, 1]
      (fun _ => id) (fun _ => id) (fun _ => id) (fun _ => false)
      (fun _ => (fun _ => 0)) (fun _ => 1) (fun _ => 3) c1Run 1 hstep hok).1 2
  · exact conservation_amended.2.2.2 c1Gd c1RunOracle c1Ids c1RunDiff [0, 0, 1]
      (fun _ => id) (fun _ => id) (fun _ => id) (fun _ => false)
      (fun _ => (fun _ => 0)) (fun _ => 1) (fun _ => 3) c1Run 1 hstep hok
      (by decide) (by decide) 2

lemma globalStateLe_refl (g : GlobalStateM) : GlobalStateLe g g :=
  ⟨fun _ h => h, fun _ h => h, fun _ h => h⟩

lemma globalStateLe_trans {g₁ g₂ g₃ : GlobalStateM} (h₁ : GlobalStateLe g₁ g₂)
    (h₂ : GlobalStateLe g₂ g₃) : GlobalStateLe g₁ g₃ :=
  ⟨fun i h => h₂.1 i (h₁.1 i h), fun i h => h₂.2.1 i (h₁.2.1 i h),
    fun i h => h₂.2.2 i (h₁.2.2 i h)⟩

lemma collect_le (g : GlobalStateM) (item : ItemM) :
    GlobalStateLe g (GlobalStateM.collect g item) :=
  ⟨fun _ h => getD_set_true_of _ _ _ h, fun _ h => h, fun _ h => h⟩

lemma collectFold_le (items : List ItemM) :
    ∀ g : GlobalStateM, GlobalStateLe g (items.foldl GlobalStateM.collect g) := by
  induction items with
  | nil =>
    intro g
    exact globalStateLe_refl g
  | cons a l ih =>
    intro g
    exact globalStateLe_trans (collect_le g a) (ih _)

lemma closureFlagStep_le (gd : GameStaticData) (acc : GlobalStateM × Bool)
    (p : ℕ × FlagLocationStateM) : GlobalStateLe acc.1 (closureFlagStep gd acc p).1 := by
  unfold closureFlagStep
  split_ifs <;> first
    | exact globalStateLe_refl _
    | exact ⟨fun _ h => h, fun _ h => getD_set_true_of _ _ _ h, fun _ h => h⟩

lemma closureFlagsFold_le (gd : GameStaticData) (pairs : List (ℕ × FlagLocationStateM)) :
    ∀ acc : GlobalStateM × Bool, GlobalStateLe acc.1 (pairs.foldl (closureFlagStep gd) acc).1 := by
  induction pairs with
  | nil =>
    intro acc
    exact globalStateLe_refl _
  | cons p l ih =>
    intro acc
    exact globalStateLe_trans (closureFlagStep_le gd acc p) (ih _)

lemma closureDoorStep_le (acc : GlobalStateM × Bool) (p : ℕ × DoorStateM) :
    GlobalStateLe acc.1 (closureDoorStep acc p).1 := by
  unfold closureDoorStep
  split_ifs <;> first
    | exact globalStateLe_refl _
    | exact ⟨fun _ h => h, fun _ h => h, fun _ h => getD_set_true_of _ _ _ h⟩

lemma closureDoorsFold_le (ps : List (ℕ × DoorStateM)) :
    ∀ acc : GlobalStateM × Bool, GlobalStateLe acc.1 (ps.foldl closureDoorStep acc).1 := by
  induction ps with
  | nil =>
    intro acc
    exact globalStateLe_refl _
  | cons p l ih =>
    intro acc
    exact globalStateLe_trans (closureDoorStep_le acc p) (ih _)

lemma closureFlagsPass_le (gd : GameStaticData) (state : RandomizationStateM) :
    GlobalStateLe state.global_state (closureFlagsPass gd state).1 := by
  unfold closureFlagsPass
  exact closureFlagsFold_le gd _ (state.global_state, false)

lemma closureDoorsPass_le (state : RandomizationStateM) (g : GlobalStateM)
    (anyUpdate : Bool) : GlobalStateLe g (closureDoorsPass state g anyUpdate).1 := by
  unfold closureDoorsPass
  exact closureDoorsFold_le _ (g, anyUpdate)

lemma closureLoop_le (gd : GameStaticData) (oracle : ReachOracle) :
    ∀ (fuel : ℕ) (state : RandomizationStateM),
      GlobalStateLe state.global_state (closureLoop gd oracle fuel state).global_state := by
  intro fuel
  induction fuel with
  | zero =>
    intro state
    exact globalStateLe_refl _
  | succ fuel ih =>
    intro state
    rw [closureLoop]
    by_cases hupd : (closureDoorsPass state (closureFlagsPass gd state).1
        (closureFlagsPass gd state).2).2
    · rw [if_pos hupd]
      refine globalStateLe_trans ?_ (ih _)
      rw [updateReachability_global]
      exact globalStateLe_trans (closureFlagsPass_le gd state)
        (closureDoorsPass_le state _ _)
    · rw [if_neg hupd]
      exact globalStateLe_trans (closureFlagsPass_le gd state)
        (closureDoorsPass_le state _ _)

lemma providesProgression_le (gd : GameStaticData) (oracle : ReachOracle)
    (oldState newState : RandomizationStateM)
    (keyItems fillerItems placedUncollected : List ItemM) (numUnplacedBireachable : ℕ) :
    GlobalStateLe newState.global_state
      (providesProgression gd oracle oldState newState keyItems fillerItems
        placedUncollected numUnplacedBireachable).1.global_state := by
  unfold providesProgression
  exact collectFold_le _ _

lemma multiAttemptLoop_le (gd : GameStaticData) (oracle : ReachOracle) (ids : ItemIdsM)
    (diff : DifficultyM) (init : List ℕ) (state newStateFiller : RandomizationStateM)
    (selectedFiller placedUncollected : List ItemM) (numUnplacedBireachable numKey : ℕ) :
    ∀ (fuel attemptNum : ℕ) (selectedKey : List ItemM),
      GlobalStateLe newStateFiller.global_state
        (multiAttemptLoop gd oracle ids diff init state newStateFiller selectedFiller
          placedUncollected numUnplacedBireachable numKey fuel attemptNum
          selectedKey).2.global_state := by
  intro fuel
  induction fuel with
  | zero =>
    intro attemptNum selectedKey
    exact globalStateLe_refl _
  | succ fuel ih =>
    intro attemptNum selectedKey
    rw [multiAttemptLoop]
    by_cases hacc : (providesProgression gd oracle state
        { newStateFiller with
          items_remaining := decrementItems newStateFiller.items_remaining selectedKey }
        selectedKey selectedFiller placedUncollected numUnplacedBireachable).2
    · rw [if_pos hacc]
      exact providesProgression_le gd oracle state _ selectedKey selectedFiller
        placedUncollected numUnplacedBireachable
    · rw [if_neg hacc]
      cases hsel : selectKeyItems ids diff init newStateFiller numKey attemptNum with
      | some newKeys =>
        simp only [hsel]
        exact ih (attemptNum + 1) newKeys
      | none =>
        simp only [hsel]
        by_cases hearly : diff.stop_item_placement_early
        · rw [if_pos hearly]
          exact providesProgression_le gd oracle state _ _ selectedFiller
            placedUncollected numUnplacedBireachable
        · rw [if_neg hearly]
          exact providesProgression_le gd oracle state _ selectedKey selectedFiller
            placedUncollected numUnplacedBireachable

lemma multiAttemptLoop_le_of_eq (gd : GameStaticData) (oracle : ReachOracle)
    (ids : ItemIdsM) (diff : DifficultyM) (init : List ℕ)
    (state newStateFiller : RandomizationStateM)
    (selectedFiller placedUncollected : List ItemM) (numUnplacedBireachable numKey : ℕ)
    (g : GlobalStateM) (hg : g = newStateFiller.global_state)
    (fuel attemptNum : ℕ) (selectedKey : List ItemM) :
    GlobalStateLe g
      (multiAttemptLoop gd oracle ids diff init state newStateFiller selectedFiller
        placedUncollected numUnplacedBireachable numKey fuel attemptNum
        selectedKey).2.global_state := by
  rw [hg]
  exact multiAttemptLoop_le gd oracle ids diff init state newStateFiller selectedFiller
    placedUncollected numUnplacedBireachable numKey fuel attemptNum selectedKey

lemma multiAttemptSelectItems_le (gd : GameStaticData) (oracle : ReachOracle)
    (ids : ItemIdsM) (diff : DifficultyM) (init : List ℕ)
    (state : RandomizationStateM) (placedUncollected : List ItemM)
    (numUnplacedBireachable numUnplacedOneway : ℕ)
    (shuffleMix : List ItemM → List ItemM) (attemptFuel : ℕ) :
    GlobalStateLe state.global_state
      (multiAttemptSelectItems gd oracle ids diff init state placedUncollected
        numUnplacedBireachable numUnplacedOneway shuffleMix attemptFuel).2.global_state := by
  simp only [multiAttemptSelectItems]
  refine multiAttemptLoop_le_of_eq gd oracle ids diff init state _ _ placedUncollected
    numUnplacedBireachable _ state.global_state ?_ attemptFuel 0 _
  rfl

lemma stepModel_le (gd : GameStaticData) (oracle : ReachOracle) (ids : ItemIdsM)
    (diff : DifficultyM) (init : List ℕ) (shuffleMix : List ItemM → List ItemM)
    (shuffleBireach shuffleOneway : List ℕ → List ℕ) (forced : Bool) (hardIdx : ℕ → ℕ)
    (closureFuel attemptFuel : ℕ) (state : RandomizationStateM) :
    GlobalStateLe state.global_state
      (stepModel gd oracle ids diff init shuffleMix shuffleBireach shuffleOneway forced
        hardIdx closureFuel attemptFuel state).global_state := by
  unfold stepModel
  by_cases hearly : diff.stop_item_placement_early ∧
      isGameBeatable gd (closureLoop gd oracle closureFuel state)
  · rw [if_pos hearly]
    rw [updateReachability_global]
    exact closureLoop_le gd oracle closureFuel state
  · rw [if_neg hearly]
    refine globalStateLe_trans (closureLoop_le gd oracle closureFuel state) ?_
    exact multiAttemptSelectItems_le gd oracle ids diff init _ _ _ _ shuffleMix attemptFuel

/-- **C7.** Monotonicity within one randomize call: along any run of
successive `step`s (each with its own shuffles, forced-mode data and
fuel), `global_state.items`, `global_state.flags` and
`global_state.doors_unlocked` only ever gain `true` entries — for `i ≤ j`
every bit set at step `i` is still set at step `j`. -/
theorem global_state_monotonic (gd : GameStaticData) (oracle : ReachOracle)
    (ids : ItemIdsM) (diff : DifficultyM) (init : List ℕ)
    (shuffleMix : ℕ → List ItemM → List ItemM)
    (shuffleBireach shuffleOneway : ℕ → List ℕ → List ℕ)
    (forced : ℕ → Bool) (hardIdx : ℕ → ℕ → ℕ) (closureFuel attemptFuel : ℕ → ℕ)
    (states : ℕ → RandomizationStateM)
    (hstep : ∀ k, states (k + 1) = stepModel gd oracle ids diff init (shuffleMix k)
      (shuffleBireach k) (shuffleOneway k) (forced k) (hardIdx k) (closureFuel k)
      (attemptFuel k) (states k))
    (i j : ℕ) (hij : i ≤ j) :
    GlobalStateLe (states i).global_state (states j).global_state := by
  revert hij
  induction j with
  | zero =>
    intro hij
    have hi0 : i = 0 := Nat.le_zero.mp hij
    subst hi0
    exact globalStateLe_refl _
  | succ n ih =>
    intro hij
    rcases Nat.lt_or_ge i (n + 1) with hlt | hge
    · have hin : i ≤ n := Nat.lt_succ_iff.mp hlt
      refine globalStateLe_trans (ih hin) ?_
      rw [hstep n]
      exact stepModel_le gd oracle ids diff init (shuffleMix n) (shuffleBireach n)
        (shuffleOneway n) (forced n) (hardIdx n) (closureFuel n) (attemptFuel n) (states n)
    · have hi : i = n + 1 := Nat.le_antisymm hij hge
      subst hi
      exact globalStateLe_refl _

/-- Witness for C7: the concrete two-step run `c7States` satisfies the
step recurrence, and the bits of step 0 survive to step 2. -/
theorem global_state_monotonic_witness :
    GlobalStateLe (c7States 0).global_state (c7States 2).global_state :=
  global_state_monotonic c10Gd c2Oracle c1Ids c7Diff [] (fun _ => id) (fun _ => id)
    (fun _ => id) (fun _ => false) (fun _ _ => 0) (fun _ => 1) (fun _ => 1) c7States
    (fun k => Function.iterate_succ_apply' c7Step k c10State) 0 2 (by decide)

end MapRandomizer
